import Mathlib

/-!
Verification of the Multi-Level Queue (MLQ) CPU-scheduling simulator
(`src/MLQ/script.js`).  The JavaScript engine is shallowly embedded:
the module-level mutable globals become one explicit `SimState` record,
the process objects (shared by reference between the `processes` array,
the ready queues and `currentProcess`) become a store `processes : List
Process` addressed by index, and the ready queues / current process hold
indices into that store, which reproduces the aliasing of the original.
Each JS function becomes a Lean function of the same name.
-/

namespace MLQ

/-- One process object, with the fields created in `startSimulation`:
`{name, arrivalTime, burstTime, remainingTime, priority, processingTime,
waitingTime}`.  JS numbers that the engine ever makes negative are `Int`. -/
structure Process where
  name : String
  arrivalTime : Int
  burstTime : Int
  remainingTime : Int
  priority : Int
  processingTime : Int
  waitingTime : Int
deriving Repr, DecidableEq

instance : Inhabited Process :=
  ⟨{ name := "", arrivalTime := 0, burstTime := 0, remainingTime := 0,
     priority := 0, processingTime := 0, waitingTime := 0 }⟩

/-- A Gantt-chart block `{name, start, end, isIdle}` as pushed by
`updateGanttChart`.  The source field `end` is a Lean keyword, so it is
called `stop` here. -/
structure GanttBlock where
  name : String
  start : Nat
  stop : Nat
  isIdle : Bool
deriving Repr, DecidableEq

/-- The object returned by `getSettings()`:
`{quantum: [q1,q2,q3], agingInterval, starvationInterval}`.  The
three-element `quantum` array becomes three fields. -/
structure Settings where
  quantum0 : Int
  quantum1 : Int
  quantum2 : Int
  agingInterval : Int
  starvationInterval : Int
deriving Repr, DecidableEq

/-- `settings.quantum[lvl]` for `lvl` in 0..2. -/
def Settings.quantum (st : Settings) (lvl : Nat) : Int :=
  match lvl with
  | 0 => st.quantum0
  | 1 => st.quantum1
  | 2 => st.quantum2
  | _ => 0

/-- The module-level mutable globals of `script.js` that belong to the
simulation engine: `processes`, `readyQueues` (three FIFO levels, held
here as lists of indices into `processes`), `simulationStarted`,
`currentTime`, `currentProcess` (an index, or none), `quantumCounters`,
`arrivedProcesses` (a set of names), `ganttBlocks`, `lastProcessTime`. -/
structure SimState where
  processes : List Process
  rq0 : List Nat
  rq1 : List Nat
  rq2 : List Nat
  simulationStarted : Bool
  currentTime : Nat
  currentProcess : Option Nat
  qc0 : Int
  qc1 : Int
  qc2 : Int
  arrivedProcesses : List String
  ganttBlocks : List GanttBlock
  lastProcessTime : Nat
deriving Repr, DecidableEq

/-- Read the process object at index `j` (total; all reachable accesses
are in range, mirroring JS object references). -/
def getP (s : SimState) (j : Nat) : Process :=
  s.processes.getD j default

/-- Write the process object at index `j` (out of range: no-op, never
reached from validated states). -/
def setP (s : SimState) (j : Nat) (p : Process) : SimState :=
  { s with processes := s.processes.set j p }

/-- `readyQueues[lvl]`. -/
def getQ (s : SimState) (lvl : Nat) : List Nat :=
  match lvl with
  | 0 => s.rq0
  | 1 => s.rq1
  | 2 => s.rq2
  | _ => []

/-- Replace `readyQueues[lvl]`. -/
def setQ (s : SimState) (lvl : Nat) (q : List Nat) : SimState :=
  match lvl with
  | 0 => { s with rq0 := q }
  | 1 => { s with rq1 := q }
  | 2 => { s with rq2 := q }
  | _ => s

/-- `readyQueues[lvl].push(j)`. -/
def pushQ (s : SimState) (lvl : Nat) (j : Nat) : SimState :=
  setQ s lvl (getQ s lvl ++ [j])

/-- `quantumCounters[lvl]`. -/
def getC (s : SimState) (lvl : Nat) : Int :=
  match lvl with
  | 0 => s.qc0
  | 1 => s.qc1
  | 2 => s.qc2
  | _ => 0

/-- Assign `quantumCounters[lvl]`. -/
def setC (s : SimState) (lvl : Nat) (v : Int) : SimState :=
  match lvl with
  | 0 => { s with qc0 := v }
  | 1 => { s with qc1 := v }
  | 2 => { s with qc2 := v }
  | _ => s

/-- The queue index `p.priority - 1` used throughout the source
(truncated at 0 for out-of-range priorities, which validated runs never
produce). -/
def qidx (p : Int) : Nat := (p - 1).toNat

/-- `handleRoundRobinScheduling(settings)`: if no process is running,
scan levels 0,1,2 and dequeue (`shift`) the head of the first non-empty
queue; it becomes `currentProcess` and that level's quantum counter is
reset to `settings.quantum[lvl]`. -/
def handleRoundRobinScheduling (settings : Settings) (s : SimState) : SimState :=
  match s.currentProcess with
  | some _ => s
  | none =>
    match s.rq0 with
    | j :: rest => { setC (setQ s 0 rest) 0 (settings.quantum 0) with currentProcess := some j }
    | [] =>
      match s.rq1 with
      | j :: rest => { setC (setQ s 1 rest) 1 (settings.quantum 1) with currentProcess := some j }
      | [] =>
        match s.rq2 with
        | j :: rest => { setC (setQ s 2 rest) 2 (settings.quantum 2) with currentProcess := some j }
        | [] => s

/-- Body of the `processes.forEach` loop of `handleProcessArrivals`,
threaded over the store indices in ascending order: a process whose
`arrivalTime` equals `currentTime` and whose name has not yet arrived is
pushed onto its priority's queue and its name added to
`arrivedProcesses`. -/
def arrivalsGo (s : SimState) : List Nat → SimState
  | [] => s
  | j :: rest =>
    let p := getP s j
    if p.arrivalTime = (s.currentTime : Int) ∧ p.name ∉ s.arrivedProcesses then
      arrivalsGo
        { pushQ s (qidx p.priority) j with arrivedProcesses := p.name :: s.arrivedProcesses }
        rest
    else
      arrivalsGo s rest

/-- `handleProcessArrivals()`. -/
def handleProcessArrivals (s : SimState) : SimState :=
  arrivalsGo s (List.range s.processes.length)

/-- Step 3 of `nextStep`: if a process is running,
`processingTime++; remainingTime--;` and the quantum counter of
`currentProcess.priority - 1` is decremented. -/
def executeCurrent (s : SimState) : SimState :=
  match s.currentProcess with
  | none => s
  | some j =>
    let p := getP s j
    let s1 := setP s j { p with processingTime := p.processingTime + 1,
                                remainingTime := p.remainingTime - 1 }
    setC s1 (qidx p.priority) (getC s1 (qidx p.priority) - 1)

/-- `waitingTime++` for each index of one queue, in order. -/
def bumpWaiting (s : SimState) : List Nat → SimState
  | [] => s
  | j :: rest =>
    bumpWaiting (setP s j { getP s j with waitingTime := (getP s j).waitingTime + 1 }) rest

/-- Step 4 of `nextStep`: every process sitting in a ready queue gets
`waitingTime++` (the running one does not). -/
def waitAccrual (s : SimState) : SimState :=
  let s1 := bumpWaiting s (getQ s 0)
  let s2 := bumpWaiting s1 (getQ s1 1)
  bumpWaiting s2 (getQ s2 2)

/-- `updateGanttChart()`: records the elapsed slot
`[max(0, currentTime-1), currentTime]`, extending the last block when it
has the same non-idle name (or, in the idle case, when the last block is
idle), and otherwise appending a fresh block; `lastProcessTime` tracks
the end of the recorded prefix. -/
def updateGanttChart (s : SimState) : SimState :=
  let slotStart := s.currentTime - 1
  let slotEnd := s.currentTime
  match s.currentProcess with
  | some j =>
    let nm := (getP s j).name
    match s.ganttBlocks.getLast? with
    | some lb =>
      if lb.isIdle = false ∧ lb.name = nm then
        { s with ganttBlocks := s.ganttBlocks.dropLast ++ [{ lb with stop := slotEnd }],
                 lastProcessTime := slotEnd }
      else
        let s1 :=
          if s.lastProcessTime < slotStart then
            { s with ganttBlocks :=
                s.ganttBlocks ++ [⟨"Idle", s.lastProcessTime, slotStart, true⟩] }
          else s
        { s1 with ganttBlocks := s1.ganttBlocks ++ [⟨nm, slotStart, slotEnd, false⟩],
                  lastProcessTime := slotEnd }
    | none =>
      let s1 :=
        if s.lastProcessTime < slotStart then
          { s with ganttBlocks :=
              s.ganttBlocks ++ [⟨"Idle", s.lastProcessTime, slotStart, true⟩] }
        else s
      { s1 with ganttBlocks := s1.ganttBlocks ++ [⟨nm, slotStart, slotEnd, false⟩],
                lastProcessTime := slotEnd }
  | none =>
    if s.lastProcessTime < slotEnd then
      match s.ganttBlocks.getLast? with
      | some lb =>
        if lb.isIdle then
          { s with ganttBlocks := s.ganttBlocks.dropLast ++ [{ lb with stop := slotEnd }],
                   lastProcessTime := slotEnd }
        else
          { s with ganttBlocks := s.ganttBlocks ++ [⟨"Idle", slotStart, slotEnd, true⟩],
                   lastProcessTime := slotEnd }
      | none =>
        { s with ganttBlocks := s.ganttBlocks ++ [⟨"Idle", slotStart, slotEnd, true⟩],
                 lastProcessTime := slotEnd }
    else s

/-- Steps 6 and 7 of `nextStep`: if the running process has
`remainingTime <= 0` it completes (CPU released, not requeued);
otherwise, if its level's quantum counter has reached 0, it is pushed to
the tail of its own level's queue and the CPU is released. -/
def completionAndQuantum (s : SimState) : SimState :=
  match s.currentProcess with
  | none => s
  | some j =>
    if (getP s j).remainingTime ≤ 0 then
      { s with currentProcess := none }
    else
      let lvl := qidx (getP s j).priority
      if getC s lvl ≤ 0 then
        { pushQ s lvl j with currentProcess := none }
      else s

/-- Body of the inner (index-descending) loop of
`handleAgingAndStarvation` at position `i` of `readyQueues[lvl]`:
starvation (promote, reset `waitingTime`, move to the tail of the
higher-priority queue) is checked first; otherwise aging (demote, reset
`processingTime`, move to the tail of the lower-priority queue). -/
def examineAt (settings : Settings) (lvl : Nat) (i : Nat) (s : SimState) : SimState :=
  let q := getQ s lvl
  if i < q.length then
    let j := q.getD i 0
    let p := getP s j
    if p.waitingTime ≥ settings.starvationInterval ∧ p.priority > 1 then
      let s1 := setQ s lvl (q.eraseIdx i)
      let p1 := { p with priority := p.priority - 1, waitingTime := 0 }
      pushQ (setP s1 j p1) (qidx p1.priority) j
    else if p.processingTime ≥ settings.agingInterval ∧ p.priority < 3 then
      let s1 := setQ s lvl (q.eraseIdx i)
      let p1 := { p with priority := p.priority + 1, processingTime := 0 }
      pushQ (setP s1 j p1) (qidx p1.priority) j
    else s
  else s

/-- The inner loop `for (let i = queue.length - 1; i >= 0; i--)` of
`handleAgingAndStarvation`, examining positions `n-1, n-2, ..., 0`. -/
def scanDown (settings : Settings) (lvl : Nat) : Nat → SimState → SimState
  | 0, s => s
  | n + 1, s => scanDown settings lvl n (examineAt settings lvl n s)

/-- The final block of `handleAgingAndStarvation`: the running process,
if its `processingTime` has reached `agingInterval` and it is not
already at the lowest priority, is demoted, reset, pushed to the tail of
its new level's queue, and the CPU is released. -/
def agingCurrent (settings : Settings) (s : SimState) : SimState :=
  match s.currentProcess with
  | none => s
  | some j =>
    let p := getP s j
    if p.processingTime ≥ settings.agingInterval ∧ p.priority < 3 then
      let p1 := { p with priority := p.priority + 1, processingTime := 0 }
      { pushQ (setP s j p1) (qidx p1.priority) j with currentProcess := none }
    else s

/-- `handleAgingAndStarvation(settings)`: scan the three ready queues in
ascending level order (each from tail to head), then check the running
process for aging. -/
def handleAgingAndStarvation (settings : Settings) (s : SimState) : SimState :=
  let s1 := scanDown settings 0 (getQ s 0).length s
  let s2 := scanDown settings 1 (getQ s1 1).length s1
  let s3 := scanDown settings 2 (getQ s2 2).length s2
  agingCurrent settings s3

/-- `isSimulationComplete()`: every ready queue empty, no running
process, and a non-empty process list in which every `remainingTime` is
at most 0. -/
def isSimulationComplete (s : SimState) : Bool :=
  (s.rq0.isEmpty && s.rq1.isEmpty && s.rq2.isEmpty) &&
  s.currentProcess.isNone &&
  (decide (0 < s.processes.length) &&
    s.processes.all (fun p => p.remainingTime ≤ 0))

/-- `nextStep()`: the per-tick transition.  The guard
`if (!simulationStarted) return;` makes the function the identity on
unstarted states; otherwise the pipeline is: 1 clock, 2 arrivals,
3 execute, 4 wait accrual, 5 Gantt recording, 6 completion, 7 quantum
expiry, 8 aging/starvation, 9 selection, then the completion check that
clears `simulationStarted` when the run is over. -/
def nextStep (settings : Settings) (s : SimState) : SimState :=
  if s.simulationStarted = false then s
  else
    let s1 := { s with currentTime := s.currentTime + 1 }
    let s2 := handleProcessArrivals s1
    let s3 := executeCurrent s2
    let s4 := waitAccrual s3
    let s5 := updateGanttChart s4
    let s6 := completionAndQuantum s5
    let s7 := handleAgingAndStarvation settings s6
    let s8 := handleRoundRobinScheduling settings s7
    if isSimulationComplete s8 then { s8 with simulationStarted := false } else s8

/-- `n` consecutive calls of `nextStep`. -/
def steps (settings : Settings) (s : SimState) : Nat → SimState
  | 0 => s
  | n + 1 => nextStep settings (steps settings s n)

/-- One row of the process table as read by `startSimulation` (the
numeric cells already parsed). -/
structure Row where
  name : String
  at_ : Int
  bt : Int
  prio : Int
deriving Repr, DecidableEq

/-- The process object `startSimulation` pushes for a row. -/
def mkProcess (r : Row) : Process :=
  { name := r.name, arrivalTime := r.at_, burstTime := r.bt,
    remainingTime := r.bt, priority := r.prio, processingTime := 0,
    waitingTime := 0 }

/-- The row-reading loop of `startSimulation`: rows with an empty name
are skipped; a priority outside 1..3 aborts with the alert message,
leaving the processes accumulated so far; otherwise the row's process is
appended. -/
def readProcesses : List Row → List Process → Except (String × List Process) (List Process)
  | [], acc => .ok acc
  | r :: rest, acc =>
    if r.name = "" then readProcesses rest acc
    else if r.prio < 1 ∨ r.prio > 3 then
      .error ("Invalid priority for " ++ r.name ++ ". Priority must be between 1 and 3.", acc)
    else readProcesses rest (acc ++ [mkProcess r])

/-- The state `startSimulation` leaves behind on success: time 0, all
queues empty, nothing running, zeroed quantum counters, no arrivals, an
empty timeline, and the simulation started. -/
def initState (procs : List Process) : SimState :=
  { processes := procs, rq0 := [], rq1 := [], rq2 := [],
    simulationStarted := true, currentTime := 0, currentProcess := none,
    qc0 := 0, qc1 := 0, qc2 := 0, arrivedProcesses := [],
    ganttBlocks := [], lastProcessTime := 0 }

/-- Outcome of `startSimulation`: a started state, or the alert message
together with the partially filled module-level `processes` array the
early `return` leaves behind. -/
inductive StartResult where
  | ok (s : SimState)
  | err (alert : String) (procsSoFar : List Process)
deriving Repr, DecidableEq

/-- `startSimulation()` on a table of rows: reset the globals, read and
validate the rows (only the priority range is checked), reject an empty
process list, and otherwise start the simulation. -/
def startSimulation (rows : List Row) : StartResult :=
  match readProcesses rows [] with
  | .error (msg, acc) => .err msg acc
  | .ok procs =>
    if procs.isEmpty then
      .err "Please add at least one process before starting the simulation." []
    else .ok (initState procs)

/-- The alert messages emitted by a `nextStep` call: the body of
`nextStep` in the source contains no `alert`, `throw`, or other
error-reporting call on any path; its only guard is a silent early
`return`. -/
def nextStepAlerts (_settings : Settings) (_s : SimState) : List String := []

/-- Modelled from the spec: the spec's section 4.1 claims the ten
pipeline steps run with timeline recording as step 9, after selection
(step 8).  This variant performs the same sub-steps as `nextStep` but in
that claimed order, for comparison with the source's actual order. -/
def nextStepSpecOrder (settings : Settings) (s : SimState) : SimState :=
  if s.simulationStarted = false then s
  else
    let s1 := { s with currentTime := s.currentTime + 1 }
    let s2 := handleProcessArrivals s1
    let s3 := executeCurrent s2
    let s4 := waitAccrual s3
    let s5 := completionAndQuantum s4
    let s6 := handleAgingAndStarvation settings s5
    let s7 := handleRoundRobinScheduling settings s6
    let s8 := updateGanttChart s7
    if isSimulationComplete s8 then { s8 with simulationStarted := false } else s8

/-! ### List helper lemmas -/

theorem listGetD_set_self {α : Type} {l : List α} {i : Nat} (h : i < l.length) (a d : α) :
    (l.set i a).getD i d = a := by
  induction l generalizing i with
  | nil => simp at h
  | cons x xs ih =>
    cases i with
    | zero => rfl
    | succ n => simpa using ih (by simpa using h)

theorem listGetD_set_ne {α : Type} {l : List α} {i k : Nat} (h : i ≠ k) (a d : α) :
    (l.set i a).getD k d = l.getD k d := by
  induction l generalizing i k with
  | nil => simp
  | cons x xs ih =>
    cases i with
    | zero =>
      cases k with
      | zero => exact absurd rfl h
      | succ m => simp
    | succ n =>
      cases k with
      | zero => simp
      | succ m => simpa using ih (fun hh => h (by simp [hh]))

theorem listGetD_eraseIdx_of_lt {α : Type} {l : List α} {i k : Nat} (h : k < i) (d : α) :
    (l.eraseIdx i).getD k d = l.getD k d := by
  induction l generalizing i k with
  | nil => simp
  | cons x xs ih =>
    cases i with
    | zero => simp at h
    | succ n =>
      cases k with
      | zero => simp
      | succ m => simpa using ih (by omega)

theorem perm_getD_cons_eraseIdx {α : Type} {l : List α} {i : Nat} (h : i < l.length) (d : α) :
    l.Perm (l.getD i d :: l.eraseIdx i) := by
  induction l generalizing i with
  | nil => simp at h
  | cons x xs ih =>
    cases i with
    | zero => simp
    | succ n =>
      have hn : n < xs.length := by simpa using h
      have hx : (x :: xs).Perm (x :: (xs.getD n d :: xs.eraseIdx n)) := (ih hn).cons x
      have hswap : (x :: (xs.getD n d :: xs.eraseIdx n)).Perm
          (xs.getD n d :: (x :: xs.eraseIdx n)) := List.Perm.swap _ _ _
      simpa using hx.trans hswap

/-! ### Accessor lemmas for the state record -/

@[simp] theorem processes_setQ (s : SimState) (lvl : Nat) (q : List Nat) :
    (setQ s lvl q).processes = s.processes := by
  rcases lvl with _ | _ | _ | n <;> rfl

@[simp] theorem currentProcess_setQ (s : SimState) (lvl : Nat) (q : List Nat) :
    (setQ s lvl q).currentProcess = s.currentProcess := by
  rcases lvl with _ | _ | _ | n <;> rfl

@[simp] theorem currentTime_setQ (s : SimState) (lvl : Nat) (q : List Nat) :
    (setQ s lvl q).currentTime = s.currentTime := by
  rcases lvl with _ | _ | _ | n <;> rfl

@[simp] theorem ganttBlocks_setQ (s : SimState) (lvl : Nat) (q : List Nat) :
    (setQ s lvl q).ganttBlocks = s.ganttBlocks := by
  rcases lvl with _ | _ | _ | n <;> rfl

@[simp] theorem lastProcessTime_setQ (s : SimState) (lvl : Nat) (q : List Nat) :
    (setQ s lvl q).lastProcessTime = s.lastProcessTime := by
  rcases lvl with _ | _ | _ | n <;> rfl

@[simp] theorem simulationStarted_setQ (s : SimState) (lvl : Nat) (q : List Nat) :
    (setQ s lvl q).simulationStarted = s.simulationStarted := by
  rcases lvl with _ | _ | _ | n <;> rfl

@[simp] theorem arrivedProcesses_setQ (s : SimState) (lvl : Nat) (q : List Nat) :
    (setQ s lvl q).arrivedProcesses = s.arrivedProcesses := by
  rcases lvl with _ | _ | _ | n <;> rfl

@[simp] theorem getC_setQ (s : SimState) (lvl : Nat) (q : List Nat) (m : Nat) :
    getC (setQ s lvl q) m = getC s m := by
  rcases lvl with _ | _ | _ | n <;> rcases m with _ | _ | _ | m <;> rfl

@[simp] theorem getP_setQ (s : SimState) (lvl : Nat) (q : List Nat) (j : Nat) :
    getP (setQ s lvl q) j = getP s j := by
  unfold getP; rw [processes_setQ]

theorem getQ_setQ_self {lvl : Nat} (h : lvl < 3) (s : SimState) (q : List Nat) :
    getQ (setQ s lvl q) lvl = q := by
  rcases lvl with _ | _ | _ | n
  · rfl
  · rfl
  · rfl
  · omega

theorem getQ_setQ_ne {lvl m : Nat} (h : lvl ≠ m) (s : SimState) (q : List Nat) :
    getQ (setQ s lvl q) m = getQ s m := by
  rcases lvl with _ | _ | _ | n <;> rcases m with _ | _ | _ | m <;> first | rfl | exact absurd rfl h

@[simp] theorem processes_setC (s : SimState) (lvl : Nat) (v : Int) :
    (setC s lvl v).processes = s.processes := by
  rcases lvl with _ | _ | _ | n <;> rfl

@[simp] theorem currentProcess_setC (s : SimState) (lvl : Nat) (v : Int) :
    (setC s lvl v).currentProcess = s.currentProcess := by
  rcases lvl with _ | _ | _ | n <;> rfl

@[simp] theorem currentTime_setC (s : SimState) (lvl : Nat) (v : Int) :
    (setC s lvl v).currentTime = s.currentTime := by
  rcases lvl with _ | _ | _ | n <;> rfl

@[simp] theorem ganttBlocks_setC (s : SimState) (lvl : Nat) (v : Int) :
    (setC s lvl v).ganttBlocks = s.ganttBlocks := by
  rcases lvl with _ | _ | _ | n <;> rfl

@[simp] theorem lastProcessTime_setC (s : SimState) (lvl : Nat) (v : Int) :
    (setC s lvl v).lastProcessTime = s.lastProcessTime := by
  rcases lvl with _ | _ | _ | n <;> rfl

@[simp] theorem simulationStarted_setC (s : SimState) (lvl : Nat) (v : Int) :
    (setC s lvl v).simulationStarted = s.simulationStarted := by
  rcases lvl with _ | _ | _ | n <;> rfl

@[simp] theorem arrivedProcesses_setC (s : SimState) (lvl : Nat) (v : Int) :
    (setC s lvl v).arrivedProcesses = s.arrivedProcesses := by
  rcases lvl with _ | _ | _ | n <;> rfl

@[simp] theorem getQ_setC (s : SimState) (lvl : Nat) (v : Int) (m : Nat) :
    getQ (setC s lvl v) m = getQ s m := by
  rcases lvl with _ | _ | _ | n <;> rcases m with _ | _ | _ | m <;> rfl

@[simp] theorem getP_setC (s : SimState) (lvl : Nat) (v : Int) (j : Nat) :
    getP (setC s lvl v) j = getP s j := by
  unfold getP; rw [processes_setC]

@[simp] theorem currentProcess_setP (s : SimState) (j : Nat) (p : Process) :
    (setP s j p).currentProcess = s.currentProcess := rfl

@[simp] theorem currentTime_setP (s : SimState) (j : Nat) (p : Process) :
    (setP s j p).currentTime = s.currentTime := rfl

@[simp] theorem ganttBlocks_setP (s : SimState) (j : Nat) (p : Process) :
    (setP s j p).ganttBlocks = s.ganttBlocks := rfl

@[simp] theorem lastProcessTime_setP (s : SimState) (j : Nat) (p : Process) :
    (setP s j p).lastProcessTime = s.lastProcessTime := rfl

@[simp] theorem simulationStarted_setP (s : SimState) (j : Nat) (p : Process) :
    (setP s j p).simulationStarted = s.simulationStarted := rfl

@[simp] theorem arrivedProcesses_setP (s : SimState) (j : Nat) (p : Process) :
    (setP s j p).arrivedProcesses = s.arrivedProcesses := rfl

@[simp] theorem getQ_setP (s : SimState) (j : Nat) (p : Process) (m : Nat) :
    getQ (setP s j p) m = getQ s m := by
  rcases m with _ | _ | _ | m <;> rfl

@[simp] theorem getC_setP (s : SimState) (j : Nat) (p : Process) (m : Nat) :
    getC (setP s j p) m = getC s m := by
  rcases m with _ | _ | _ | m <;> rfl

@[simp] theorem length_processes_setP (s : SimState) (j : Nat) (p : Process) :
    (setP s j p).processes.length = s.processes.length := by
  simp [setP]

theorem getP_setP_self {s : SimState} {j : Nat} (h : j < s.processes.length) (p : Process) :
    getP (setP s j p) j = p := by
  unfold getP setP; exact listGetD_set_self h p default

theorem getP_setP_ne {j k : Nat} (h : j ≠ k) (s : SimState) (p : Process) :
    getP (setP s j p) k = getP s k := by
  unfold getP setP; exact listGetD_set_ne h p default

@[simp] theorem processes_pushQ (s : SimState) (lvl j : Nat) :
    (pushQ s lvl j).processes = s.processes := by
  unfold pushQ; simp

@[simp] theorem currentProcess_pushQ (s : SimState) (lvl j : Nat) :
    (pushQ s lvl j).currentProcess = s.currentProcess := by
  unfold pushQ; simp

@[simp] theorem currentTime_pushQ (s : SimState) (lvl j : Nat) :
    (pushQ s lvl j).currentTime = s.currentTime := by
  unfold pushQ; simp

@[simp] theorem ganttBlocks_pushQ (s : SimState) (lvl j : Nat) :
    (pushQ s lvl j).ganttBlocks = s.ganttBlocks := by
  unfold pushQ; simp

@[simp] theorem lastProcessTime_pushQ (s : SimState) (lvl j : Nat) :
    (pushQ s lvl j).lastProcessTime = s.lastProcessTime := by
  unfold pushQ; simp

@[simp] theorem simulationStarted_pushQ (s : SimState) (lvl j : Nat) :
    (pushQ s lvl j).simulationStarted = s.simulationStarted := by
  unfold pushQ; simp

@[simp] theorem arrivedProcesses_pushQ (s : SimState) (lvl j : Nat) :
    (pushQ s lvl j).arrivedProcesses = s.arrivedProcesses := by
  unfold pushQ; simp

@[simp] theorem getC_pushQ (s : SimState) (lvl j : Nat) (m : Nat) :
    getC (pushQ s lvl j) m = getC s m := by
  unfold pushQ; simp

@[simp] theorem getP_pushQ (s : SimState) (lvl j : Nat) (k : Nat) :
    getP (pushQ s lvl j) k = getP s k := by
  unfold pushQ; simp

@[simp] theorem qc0_setQ (s : SimState) (lvl : Nat) (q : List Nat) :
    (setQ s lvl q).qc0 = s.qc0 := by
  unfold setQ; rcases lvl with _ | _ | _ | n <;> rfl

@[simp] theorem qc1_setQ (s : SimState) (lvl : Nat) (q : List Nat) :
    (setQ s lvl q).qc1 = s.qc1 := by
  unfold setQ; rcases lvl with _ | _ | _ | n <;> rfl

@[simp] theorem qc2_setQ (s : SimState) (lvl : Nat) (q : List Nat) :
    (setQ s lvl q).qc2 = s.qc2 := by
  unfold setQ; rcases lvl with _ | _ | _ | n <;> rfl

@[simp] theorem qc0_pushQ (s : SimState) (lvl j : Nat) : (pushQ s lvl j).qc0 = s.qc0 := by
  unfold pushQ setQ; rcases lvl with _ | _ | _ | n <;> rfl

@[simp] theorem qc1_pushQ (s : SimState) (lvl j : Nat) : (pushQ s lvl j).qc1 = s.qc1 := by
  unfold pushQ setQ; rcases lvl with _ | _ | _ | n <;> rfl

@[simp] theorem qc2_pushQ (s : SimState) (lvl j : Nat) : (pushQ s lvl j).qc2 = s.qc2 := by
  unfold pushQ setQ; rcases lvl with _ | _ | _ | n <;> rfl

@[simp] theorem rq0_setP (s : SimState) (j : Nat) (p : Process) : (setP s j p).rq0 = s.rq0 := rfl

@[simp] theorem rq1_setP (s : SimState) (j : Nat) (p : Process) : (setP s j p).rq1 = s.rq1 := rfl

@[simp] theorem rq2_setP (s : SimState) (j : Nat) (p : Process) : (setP s j p).rq2 = s.rq2 := rfl

@[simp] theorem qc0_setP (s : SimState) (j : Nat) (p : Process) : (setP s j p).qc0 = s.qc0 := rfl

@[simp] theorem qc1_setP (s : SimState) (j : Nat) (p : Process) : (setP s j p).qc1 = s.qc1 := rfl

@[simp] theorem qc2_setP (s : SimState) (j : Nat) (p : Process) : (setP s j p).qc2 = s.qc2 := rfl

theorem getQ_pushQ_self {lvl : Nat} (h : lvl < 3) (s : SimState) (j : Nat) :
    getQ (pushQ s lvl j) lvl = getQ s lvl ++ [j] := by
  unfold pushQ; exact getQ_setQ_self h s _

theorem getQ_pushQ_ne {lvl m : Nat} (h : lvl ≠ m) (s : SimState) (j : Nat) :
    getQ (pushQ s lvl j) m = getQ s m := by
  unfold pushQ; exact getQ_setQ_ne h s _

/-- All ready-queue entries, in level order (the indices of every Ready
process). -/
def queueMembers (s : SimState) : List Nat :=
  s.rq0 ++ s.rq1 ++ s.rq2

theorem queueMembers_def (s : SimState) :
    queueMembers s = getQ s 0 ++ getQ s 1 ++ getQ s 2 := rfl

theorem mem_queueMembers_iff {j : Nat} {s : SimState} :
    j ∈ queueMembers s ↔ j ∈ getQ s 0 ∨ j ∈ getQ s 1 ∨ j ∈ getQ s 2 := by
  simp [queueMembers_def, or_assoc]

/-! ### Which fields each pipeline stage leaves untouched -/

theorem arrivalsGo_preserves (s : SimState) (l : List Nat) :
    (arrivalsGo s l).processes = s.processes ∧
    (arrivalsGo s l).currentProcess = s.currentProcess ∧
    (arrivalsGo s l).currentTime = s.currentTime ∧
    (arrivalsGo s l).ganttBlocks = s.ganttBlocks ∧
    (arrivalsGo s l).lastProcessTime = s.lastProcessTime ∧
    (arrivalsGo s l).simulationStarted = s.simulationStarted ∧
    (∀ m, getC (arrivalsGo s l) m = getC s m) := by
  induction l generalizing s with
  | nil => simp [arrivalsGo]
  | cons j rest ih =>
    simp only [arrivalsGo]
    split
    · set s' := { pushQ s (qidx (getP s j).priority) j with
                    arrivedProcesses := (getP s j).name :: s.arrivedProcesses } with hs'
      have h := ih s'
      refine ⟨h.1.trans (by simp [hs']), h.2.1.trans (by simp [hs']),
        h.2.2.1.trans (by simp [hs']), h.2.2.2.1.trans (by simp [hs']),
        h.2.2.2.2.1.trans (by simp [hs']), h.2.2.2.2.2.1.trans (by simp [hs']),
        fun m => (h.2.2.2.2.2.2 m).trans
          (by rcases m with _ | _ | _ | m <;> simp [hs', getC])⟩
    · exact ih s

theorem executeCurrent_preserves (s : SimState) :
    (executeCurrent s).currentProcess = s.currentProcess ∧
    (executeCurrent s).currentTime = s.currentTime ∧
    (executeCurrent s).ganttBlocks = s.ganttBlocks ∧
    (executeCurrent s).lastProcessTime = s.lastProcessTime ∧
    (executeCurrent s).simulationStarted = s.simulationStarted ∧
    (executeCurrent s).arrivedProcesses = s.arrivedProcesses ∧
    (∀ m, getQ (executeCurrent s) m = getQ s m) ∧
    (executeCurrent s).processes.length = s.processes.length := by
  unfold executeCurrent
  cases hc : s.currentProcess <;> simp [hc]

theorem bumpWaiting_preserves (s : SimState) (l : List Nat) :
    (bumpWaiting s l).currentProcess = s.currentProcess ∧
    (bumpWaiting s l).currentTime = s.currentTime ∧
    (bumpWaiting s l).ganttBlocks = s.ganttBlocks ∧
    (bumpWaiting s l).lastProcessTime = s.lastProcessTime ∧
    (bumpWaiting s l).simulationStarted = s.simulationStarted ∧
    (bumpWaiting s l).arrivedProcesses = s.arrivedProcesses ∧
    (∀ m, getQ (bumpWaiting s l) m = getQ s m) ∧
    (∀ m, getC (bumpWaiting s l) m = getC s m) ∧
    (bumpWaiting s l).processes.length = s.processes.length := by
  induction l generalizing s with
  | nil => simp [bumpWaiting]
  | cons j rest ih =>
    have := ih (setP s j { getP s j with waitingTime := (getP s j).waitingTime + 1 })
    simpa [bumpWaiting] using this

theorem waitAccrual_preserves (s : SimState) :
    (waitAccrual s).currentProcess = s.currentProcess ∧
    (waitAccrual s).currentTime = s.currentTime ∧
    (waitAccrual s).ganttBlocks = s.ganttBlocks ∧
    (waitAccrual s).lastProcessTime = s.lastProcessTime ∧
    (waitAccrual s).simulationStarted = s.simulationStarted ∧
    (waitAccrual s).arrivedProcesses = s.arrivedProcesses ∧
    (∀ m, getQ (waitAccrual s) m = getQ s m) ∧
    (∀ m, getC (waitAccrual s) m = getC s m) ∧
    (waitAccrual s).processes.length = s.processes.length := by
  simp only [waitAccrual]
  obtain ⟨a1, a2, a3, a4, a5, a6, a7, a8, a9⟩ := bumpWaiting_preserves s (getQ s 0)
  obtain ⟨b1, b2, b3, b4, b5, b6, b7, b8, b9⟩ :=
    bumpWaiting_preserves (bumpWaiting s (getQ s 0)) (getQ (bumpWaiting s (getQ s 0)) 1)
  obtain ⟨c1, c2, c3, c4, c5, c6, c7, c8, c9⟩ :=
    bumpWaiting_preserves
      (bumpWaiting (bumpWaiting s (getQ s 0)) (getQ (bumpWaiting s (getQ s 0)) 1))
      (getQ (bumpWaiting (bumpWaiting s (getQ s 0)) (getQ (bumpWaiting s (getQ s 0)) 1)) 2)
  exact ⟨c1.trans (b1.trans a1), c2.trans (b2.trans a2), c3.trans (b3.trans a3),
    c4.trans (b4.trans a4), c5.trans (b5.trans a5), c6.trans (b6.trans a6),
    fun m => (c7 m).trans ((b7 m).trans (a7 m)),
    fun m => (c8 m).trans ((b8 m).trans (a8 m)),
    c9.trans (b9.trans a9)⟩

theorem getQ_eq_of_rq {s t : SimState} (h0 : t.rq0 = s.rq0) (h1 : t.rq1 = s.rq1)
    (h2 : t.rq2 = s.rq2) : ∀ m, getQ t m = getQ s m := by
  intro m; rcases m with _ | _ | _ | m <;> simp [getQ, h0, h1, h2]

theorem getC_eq_of_qc {s t : SimState} (h0 : t.qc0 = s.qc0) (h1 : t.qc1 = s.qc1)
    (h2 : t.qc2 = s.qc2) : ∀ m, getC t m = getC s m := by
  intro m; rcases m with _ | _ | _ | m <;> simp [getC, h0, h1, h2]

theorem updateGanttChart_preserves (s : SimState) :
    (updateGanttChart s).processes = s.processes ∧
    (updateGanttChart s).currentProcess = s.currentProcess ∧
    (updateGanttChart s).currentTime = s.currentTime ∧
    (updateGanttChart s).simulationStarted = s.simulationStarted ∧
    (updateGanttChart s).arrivedProcesses = s.arrivedProcesses ∧
    (∀ m, getQ (updateGanttChart s) m = getQ s m) ∧
    (∀ m, getC (updateGanttChart s) m = getC s m) := by
  unfold updateGanttChart
  cases hc : s.currentProcess
  all_goals dsimp only
  all_goals repeat' split
  all_goals
    refine ⟨rfl, ?_, rfl, rfl, rfl, getQ_eq_of_rq rfl rfl rfl, getC_eq_of_qc rfl rfl rfl⟩
  all_goals simp [hc]

theorem completionAndQuantum_preserves (s : SimState) :
    (completionAndQuantum s).processes = s.processes ∧
    (completionAndQuantum s).currentTime = s.currentTime ∧
    (completionAndQuantum s).ganttBlocks = s.ganttBlocks ∧
    (completionAndQuantum s).lastProcessTime = s.lastProcessTime ∧
    (completionAndQuantum s).simulationStarted = s.simulationStarted ∧
    (completionAndQuantum s).arrivedProcesses = s.arrivedProcesses ∧
    (∀ m, getC (completionAndQuantum s) m = getC s m) := by
  unfold completionAndQuantum
  cases hc : s.currentProcess
  all_goals try dsimp only
  all_goals repeat' split
  all_goals refine ⟨?_, ?_, ?_, ?_, ?_, ?_, getC_eq_of_qc ?_ ?_ ?_⟩ <;> simp [hc]

theorem examineAt_preserves (settings : Settings) (lvl i : Nat) (s : SimState) :
    (examineAt settings lvl i s).currentProcess = s.currentProcess ∧
    (examineAt settings lvl i s).currentTime = s.currentTime ∧
    (examineAt settings lvl i s).ganttBlocks = s.ganttBlocks ∧
    (examineAt settings lvl i s).lastProcessTime = s.lastProcessTime ∧
    (examineAt settings lvl i s).simulationStarted = s.simulationStarted ∧
    (examineAt settings lvl i s).arrivedProcesses = s.arrivedProcesses ∧
    (∀ m, getC (examineAt settings lvl i s) m = getC s m) ∧
    (examineAt settings lvl i s).processes.length = s.processes.length := by
  unfold examineAt
  dsimp only
  repeat' split
  all_goals refine ⟨?_, ?_, ?_, ?_, ?_, ?_, getC_eq_of_qc ?_ ?_ ?_, ?_⟩ <;> simp

theorem scanDown_preserves (settings : Settings) (lvl : Nat) (n : Nat) (s : SimState) :
    (scanDown settings lvl n s).currentProcess = s.currentProcess ∧
    (scanDown settings lvl n s).currentTime = s.currentTime ∧
    (scanDown settings lvl n s).ganttBlocks = s.ganttBlocks ∧
    (scanDown settings lvl n s).lastProcessTime = s.lastProcessTime ∧
    (scanDown settings lvl n s).simulationStarted = s.simulationStarted ∧
    (scanDown settings lvl n s).arrivedProcesses = s.arrivedProcesses ∧
    (∀ m, getC (scanDown settings lvl n s) m = getC s m) ∧
    (scanDown settings lvl n s).processes.length = s.processes.length := by
  induction n generalizing s with
  | zero => simp [scanDown]
  | succ n ih =>
    have h1 := examineAt_preserves settings lvl n s
    have h2 := ih (examineAt settings lvl n s)
    simp only [scanDown]
    exact ⟨h2.1.trans h1.1, h2.2.1.trans h1.2.1, h2.2.2.1.trans h1.2.2.1,
      h2.2.2.2.1.trans h1.2.2.2.1, h2.2.2.2.2.1.trans h1.2.2.2.2.1,
      h2.2.2.2.2.2.1.trans h1.2.2.2.2.2.1,
      fun m => (h2.2.2.2.2.2.2.1 m).trans (h1.2.2.2.2.2.2.1 m),
      h2.2.2.2.2.2.2.2.trans h1.2.2.2.2.2.2.2⟩

theorem agingCurrent_preserves (settings : Settings) (s : SimState) :
    (agingCurrent settings s).currentTime = s.currentTime ∧
    (agingCurrent settings s).ganttBlocks = s.ganttBlocks ∧
    (agingCurrent settings s).lastProcessTime = s.lastProcessTime ∧
    (agingCurrent settings s).simulationStarted = s.simulationStarted ∧
    (agingCurrent settings s).arrivedProcesses = s.arrivedProcesses ∧
    (∀ m, getC (agingCurrent settings s) m = getC s m) ∧
    (agingCurrent settings s).processes.length = s.processes.length := by
  unfold agingCurrent
  cases hc : s.currentProcess
  all_goals try dsimp only
  all_goals repeat' split
  all_goals refine ⟨?_, ?_, ?_, ?_, ?_, getC_eq_of_qc ?_ ?_ ?_, ?_⟩ <;> simp [hc]

theorem handleAgingAndStarvation_preserves (settings : Settings) (s : SimState) :
    (handleAgingAndStarvation settings s).currentTime = s.currentTime ∧
    (handleAgingAndStarvation settings s).ganttBlocks = s.ganttBlocks ∧
    (handleAgingAndStarvation settings s).lastProcessTime = s.lastProcessTime ∧
    (handleAgingAndStarvation settings s).simulationStarted = s.simulationStarted ∧
    (handleAgingAndStarvation settings s).arrivedProcesses = s.arrivedProcesses ∧
    (∀ m, getC (handleAgingAndStarvation settings s) m = getC s m) ∧
    (handleAgingAndStarvation settings s).processes.length = s.processes.length := by
  simp only [handleAgingAndStarvation]
  obtain ⟨-, a2, a3, a4, a5, a6, a7, a8⟩ := scanDown_preserves settings 0 (getQ s 0).length s
  obtain ⟨-, b2, b3, b4, b5, b6, b7, b8⟩ :=
    scanDown_preserves settings 1 (getQ (scanDown settings 0 (getQ s 0).length s) 1).length
      (scanDown settings 0 (getQ s 0).length s)
  obtain ⟨-, c2, c3, c4, c5, c6, c7, c8⟩ :=
    scanDown_preserves settings 2
      (getQ (scanDown settings 1 (getQ (scanDown settings 0 (getQ s 0).length s) 1).length
        (scanDown settings 0 (getQ s 0).length s)) 2).length
      (scanDown settings 1 (getQ (scanDown settings 0 (getQ s 0).length s) 1).length
        (scanDown settings 0 (getQ s 0).length s))
  obtain ⟨d2, d3, d4, d5, d6, d7, d8⟩ :=
    agingCurrent_preserves settings
      (scanDown settings 2
        (getQ (scanDown settings 1 (getQ (scanDown settings 0 (getQ s 0).length s) 1).length
          (scanDown settings 0 (getQ s 0).length s)) 2).length
        (scanDown settings 1 (getQ (scanDown settings 0 (getQ s 0).length s) 1).length
          (scanDown settings 0 (getQ s 0).length s)))
  exact ⟨d2.trans (c2.trans (b2.trans a2)), d3.trans (c3.trans (b3.trans a3)),
    d4.trans (c4.trans (b4.trans a4)), d5.trans (c5.trans (b5.trans a5)),
    d6.trans (c6.trans (b6.trans a6)),
    fun m => (d7 m).trans ((c7 m).trans ((b7 m).trans (a7 m))),
    d8.trans (c8.trans (b8.trans a8))⟩

theorem handleRoundRobinScheduling_preserves (settings : Settings) (s : SimState) :
    (handleRoundRobinScheduling settings s).processes = s.processes ∧
    (handleRoundRobinScheduling settings s).currentTime = s.currentTime ∧
    (handleRoundRobinScheduling settings s).ganttBlocks = s.ganttBlocks ∧
    (handleRoundRobinScheduling settings s).lastProcessTime = s.lastProcessTime ∧
    (handleRoundRobinScheduling settings s).simulationStarted = s.simulationStarted ∧
    (handleRoundRobinScheduling settings s).arrivedProcesses = s.arrivedProcesses := by
  unfold handleRoundRobinScheduling
  cases hc : s.currentProcess
  all_goals try dsimp only
  all_goals repeat' split
  all_goals refine ⟨?_, ?_, ?_, ?_, ?_, ?_⟩ <;> simp [hc]

/-! ### The timeline invariant: contiguity, non-overlap, alternation -/

/-- `chain a bs b`: the blocks `bs`, in order, tile the half-open
interval `[a, b)` exactly: each block starts where the previous one
stopped, every block is non-degenerate (`start < stop`), and the last
stops at `b`.  This is contiguity plus non-overlap plus spanning. -/
def chain : Nat → List GanttBlock → Nat → Prop
  | a, [], b => a = b
  | a, blk :: rest, b => blk.start = a ∧ blk.start < blk.stop ∧ chain blk.stop rest b

instance decChain : (a : Nat) → (bs : List GanttBlock) → (b : Nat) → Decidable (chain a bs b)
  | a, [], b => inferInstanceAs (Decidable (a = b))
  | a, blk :: rest, b =>
    haveI : Decidable (chain blk.stop rest b) := decChain blk.stop rest b
    inferInstanceAs (Decidable (blk.start = a ∧ blk.start < blk.stop ∧ chain blk.stop rest b))

/-- The identity of a block in the sense of the code's merge test:
its display name together with its idle flag. -/
def blockId (x : GanttBlock) : String × Bool := (x.name, x.isIdle)

/-- No two consecutive blocks share the same `blockId`. -/
def altern : List GanttBlock → Prop
  | [] => True
  | [_] => True
  | x :: y :: rest => blockId x ≠ blockId y ∧ altern (y :: rest)

instance decAltern : (bs : List GanttBlock) → Decidable (altern bs)
  | [] => inferInstanceAs (Decidable True)
  | [_] => inferInstanceAs (Decidable True)
  | x :: y :: rest =>
    haveI : Decidable (altern (y :: rest)) := decAltern (y :: rest)
    inferInstanceAs (Decidable (blockId x ≠ blockId y ∧ altern (y :: rest)))

/-- The claim's weaker reading of identity: consecutive blocks never
share the same display name alone. -/
def nameAltern : List GanttBlock → Bool
  | x :: y :: rest => decide (x.name ≠ y.name) && nameAltern (y :: rest)
  | _ => true

theorem chain_append_singleton {bs : List GanttBlock} {a c : Nat} {blk : GanttBlock} :
    chain a (bs ++ [blk]) c ↔ chain a bs blk.start ∧ blk.start < blk.stop ∧ blk.stop = c := by
  induction bs generalizing a with
  | nil =>
    constructor
    · rintro ⟨h1, h2, h3⟩
      exact ⟨h1.symm, h2, h3⟩
    · rintro ⟨h1, h2, h3⟩
      exact ⟨h1.symm, h2, h3⟩
  | cons x rest ih =>
    constructor
    · rintro ⟨h1, h2, h3⟩
      obtain ⟨g1, g2, g3⟩ := ih.mp h3
      exact ⟨⟨h1, h2, g1⟩, g2, g3⟩
    · rintro ⟨⟨h1, h2, h3⟩, g2, g3⟩
      exact ⟨h1, h2, ih.mpr ⟨h3, g2, g3⟩⟩

theorem chain_le {bs : List GanttBlock} {a b : Nat} (h : chain a bs b) : a ≤ b := by
  induction bs generalizing a with
  | nil => exact h.le
  | cons x rest ih =>
    obtain ⟨h1, h2, h3⟩ := h
    have := ih h3
    omega

theorem chain_sum {bs : List GanttBlock} {a b : Nat} (h : chain a bs b) :
    (bs.map fun x => x.stop - x.start).sum = b - a := by
  induction bs generalizing a with
  | nil => simp [chain] at h; simp [h]
  | cons x rest ih =>
    obtain ⟨h1, h2, h3⟩ := h
    have hrest := ih h3
    have hle := chain_le h3
    simp only [List.map_cons, List.sum_cons, hrest]
    omega

theorem chain_getLast_stop {bs : List GanttBlock} {a b : Nat} {lb : GanttBlock}
    (h : chain a bs b) (hl : bs.getLast? = some lb) : lb.stop = b := by
  induction bs generalizing a with
  | nil => simp at hl
  | cons x rest ih =>
    obtain ⟨h1, h2, h3⟩ := h
    cases rest with
    | nil =>
      simp at hl
      subst hl
      exact h3
    | cons y t =>
      exact ih h3 (by simpa using hl)

theorem eq_dropLast_append {bs : List GanttBlock} {lb : GanttBlock}
    (hl : bs.getLast? = some lb) : bs = bs.dropLast ++ [lb] := by
  induction bs with
  | nil => simp at hl
  | cons x rest ih =>
    cases rest with
    | nil =>
      simp at hl
      simp [hl]
    | cons y t =>
      have := ih (by simpa using hl)
      calc x :: y :: t = x :: (y :: t) := rfl
        _ = x :: ((y :: t).dropLast ++ [lb]) := by rw [← this]
        _ = (x :: y :: t).dropLast ++ [lb] := by simp [List.dropLast_cons_of_ne_nil]

theorem altern_append_singleton :
    ∀ (bs : List GanttBlock) (blk : GanttBlock), altern bs →
      (∀ lb, bs.getLast? = some lb → blockId lb ≠ blockId blk) → altern (bs ++ [blk])
  | [], _, _, _ => trivial
  | [x], blk, _, h => ⟨h x rfl, trivial⟩
  | x :: y :: rest, blk, hal, h => by
    obtain ⟨h1, h2⟩ := hal
    refine ⟨h1, altern_append_singleton (y :: rest) blk h2 ?_⟩
    intro lb hlb
    exact h lb (by simpa using hlb)

theorem altern_congr_last :
    ∀ (bs : List GanttBlock) (u v : GanttBlock), blockId u = blockId v →
      altern (bs ++ [u]) → altern (bs ++ [v])
  | [], _, _, _, _ => trivial
  | [x], u, v, hid, hal => by
    obtain ⟨h1, -⟩ := hal
    exact ⟨fun hx => h1 (hx.trans hid.symm), trivial⟩
  | x :: y :: rest, u, v, hid, hal => by
    obtain ⟨h1, h2⟩ := hal
    exact ⟨h1, altern_congr_last (y :: rest) u v hid h2⟩

theorem getLast?_append_singleton {α : Type} (l : List α) (x : α) :
    (l ++ [x]).getLast? = some x :=
  List.getLast?_concat l

/-- What one `updateGanttChart` call does to a well-formed timeline
whose recorded prefix ends exactly one time unit before `currentTime`:
the invariant is re-established with the prefix extended to
`currentTime`. -/
theorem updateGanttChart_spec (s : SimState)
    (hchain : chain 0 s.ganttBlocks s.lastProcessTime)
    (haltern : altern s.ganttBlocks)
    (ht : s.currentTime = s.lastProcessTime + 1) :
    chain 0 (updateGanttChart s).ganttBlocks (updateGanttChart s).lastProcessTime ∧
    altern (updateGanttChart s).ganttBlocks ∧
    (updateGanttChart s).lastProcessTime = s.currentTime := by
  have hslot : s.currentTime - 1 = s.lastProcessTime := by omega
  have hnogap : ¬ s.lastProcessTime < s.currentTime - 1 := by omega
  unfold updateGanttChart
  cases hc : s.currentProcess with
  | some j =>
    dsimp only
    cases hl : s.ganttBlocks.getLast? with
    | some lb =>
      dsimp only
      have hdecomp := eq_dropLast_append hl
      have hstop : lb.stop = s.lastProcessTime := chain_getLast_stop hchain hl
      have hchain2 : chain 0 (s.ganttBlocks.dropLast ++ [lb]) s.lastProcessTime := by
        rw [← hdecomp]; exact hchain
      have haltern2 : altern (s.ganttBlocks.dropLast ++ [lb]) := by
        rw [← hdecomp]; exact haltern
      have hbase := chain_append_singleton.mp hchain2
      by_cases hsame : lb.isIdle = false ∧ lb.name = (getP s j).name
      · rw [if_pos hsame]
        refine ⟨?_, ?_, rfl⟩
        · have hb : lb.start < lb.stop := hbase.2.1
          refine chain_append_singleton.mpr ⟨hbase.1, ?_, rfl⟩
          show lb.start < s.currentTime
          omega
        · exact altern_congr_last _ lb _ rfl haltern2
      · rw [if_neg hsame, if_neg hnogap]
        refine ⟨?_, ?_, rfl⟩
        · refine chain_append_singleton.mpr ⟨?_, ?_, rfl⟩
          · show chain 0 s.ganttBlocks (s.currentTime - 1)
            rw [hslot]; exact hchain
          · show s.currentTime - 1 < s.currentTime
            omega
        · refine altern_append_singleton _ _ haltern ?_
          intro lb' hlb'
          rw [hl] at hlb'
          cases hlb'
          intro hid
          apply hsame
          have h1 : lb.name = (getP s j).name := congrArg Prod.fst hid
          have h2 : lb.isIdle = false := congrArg Prod.snd hid
          exact ⟨h2, h1⟩
    | none =>
      dsimp only
      have hnil : s.ganttBlocks = [] := List.getLast?_eq_none_iff.mp hl
      have hzero : s.lastProcessTime = 0 := by
        rw [hnil] at hchain; exact hchain.symm
      rw [if_neg hnogap]
      refine ⟨?_, ?_, rfl⟩
      · rw [hnil]
        refine ⟨?_, ?_, rfl⟩
        · show s.currentTime - 1 = 0
          omega
        · show s.currentTime - 1 < s.currentTime
          omega
      · rw [hnil]; exact trivial
  | none =>
    dsimp only
    have hlt : s.lastProcessTime < s.currentTime := by omega
    rw [if_pos hlt]
    cases hl : s.ganttBlocks.getLast? with
    | some lb =>
      dsimp only
      have hdecomp := eq_dropLast_append hl
      have hstop : lb.stop = s.lastProcessTime := chain_getLast_stop hchain hl
      have hchain2 : chain 0 (s.ganttBlocks.dropLast ++ [lb]) s.lastProcessTime := by
        rw [← hdecomp]; exact hchain
      have haltern2 : altern (s.ganttBlocks.dropLast ++ [lb]) := by
        rw [← hdecomp]; exact haltern
      have hbase := chain_append_singleton.mp hchain2
      by_cases hidle : lb.isIdle = true
      · rw [if_pos hidle]
        refine ⟨?_, ?_, rfl⟩
        · have hb : lb.start < lb.stop := hbase.2.1
          refine chain_append_singleton.mpr ⟨hbase.1, ?_, rfl⟩
          show lb.start < s.currentTime
          omega
        · exact altern_congr_last _ lb _ rfl haltern2
      · rw [if_neg hidle]
        refine ⟨?_, ?_, rfl⟩
        · refine chain_append_singleton.mpr ⟨?_, ?_, rfl⟩
          · show chain 0 s.ganttBlocks (s.currentTime - 1)
            rw [hslot]; exact hchain
          · show s.currentTime - 1 < s.currentTime
            omega
        · refine altern_append_singleton _ _ haltern ?_
          intro lb' hlb'
          rw [hl] at hlb'
          cases hlb'
          intro hid
          exact hidle (congrArg Prod.snd hid)
    | none =>
      dsimp only
      have hnil : s.ganttBlocks = [] := List.getLast?_eq_none_iff.mp hl
      have hzero : s.lastProcessTime = 0 := by
        rw [hnil] at hchain; exact hchain.symm
      refine ⟨?_, ?_, rfl⟩
      · rw [hnil]
        refine ⟨?_, ?_, rfl⟩
        · show s.currentTime - 1 = 0
          omega
        · show s.currentTime - 1 < s.currentTime
          omega
      · rw [hnil]; exact trivial

/-- The timeline invariant carried across whole ticks. -/
def ganttInv (s : SimState) : Prop :=
  chain 0 s.ganttBlocks s.lastProcessTime ∧ altern s.ganttBlocks ∧
  s.lastProcessTime = s.currentTime

theorem handleProcessArrivals_preserves (s : SimState) :
    (handleProcessArrivals s).processes = s.processes ∧
    (handleProcessArrivals s).currentProcess = s.currentProcess ∧
    (handleProcessArrivals s).currentTime = s.currentTime ∧
    (handleProcessArrivals s).ganttBlocks = s.ganttBlocks ∧
    (handleProcessArrivals s).lastProcessTime = s.lastProcessTime ∧
    (handleProcessArrivals s).simulationStarted = s.simulationStarted ∧
    (∀ m, getC (handleProcessArrivals s) m = getC s m) :=
  arrivalsGo_preserves s (List.range s.processes.length)

theorem preGantt_fields (t : SimState) :
    (waitAccrual (executeCurrent (handleProcessArrivals t))).ganttBlocks = t.ganttBlocks ∧
    (waitAccrual (executeCurrent (handleProcessArrivals t))).lastProcessTime = t.lastProcessTime ∧
    (waitAccrual (executeCurrent (handleProcessArrivals t))).currentTime = t.currentTime := by
  obtain ⟨-, -, a3, a4, a5, -, -⟩ := handleProcessArrivals_preserves t
  obtain ⟨-, b2, b3, b4, -, -, -, -⟩ := executeCurrent_preserves (handleProcessArrivals t)
  obtain ⟨-, c2, c3, c4, -, -, -, -, -⟩ :=
    waitAccrual_preserves (executeCurrent (handleProcessArrivals t))
  exact ⟨c3.trans (b3.trans a4), c4.trans (b4.trans a5), c2.trans (b2.trans a3)⟩

theorem postGantt_fields (settings : Settings) (t : SimState) :
    (handleRoundRobinScheduling settings
      (handleAgingAndStarvation settings (completionAndQuantum t))).ganttBlocks =
        t.ganttBlocks ∧
    (handleRoundRobinScheduling settings
      (handleAgingAndStarvation settings (completionAndQuantum t))).lastProcessTime =
        t.lastProcessTime ∧
    (handleRoundRobinScheduling settings
      (handleAgingAndStarvation settings (completionAndQuantum t))).currentTime =
        t.currentTime := by
  obtain ⟨-, d2, d3, d4, -, -, -⟩ := completionAndQuantum_preserves t
  obtain ⟨e1, e2, e3, -, -, -, -⟩ :=
    handleAgingAndStarvation_preserves settings (completionAndQuantum t)
  obtain ⟨-, f2, f3, f4, -, -⟩ :=
    handleRoundRobinScheduling_preserves settings
      (handleAgingAndStarvation settings (completionAndQuantum t))
  exact ⟨f3.trans (e2.trans d3), f4.trans (e3.trans d4), f2.trans (e1.trans d2)⟩

theorem ganttInv_nextStep (settings : Settings) (s : SimState) (h : ganttInv s) :
    ganttInv (nextStep settings s) := by
  obtain ⟨h1, h2, h3⟩ := h
  unfold nextStep
  by_cases hs : s.simulationStarted = false
  · rw [if_pos hs]; exact ⟨h1, h2, h3⟩
  · rw [if_neg hs]
    dsimp only
    obtain ⟨p1, p2, p3⟩ := preGantt_fields { s with currentTime := s.currentTime + 1 }
    have h4chain : chain 0
        (waitAccrual (executeCurrent (handleProcessArrivals
          { s with currentTime := s.currentTime + 1 }))).ganttBlocks
        (waitAccrual (executeCurrent (handleProcessArrivals
          { s with currentTime := s.currentTime + 1 }))).lastProcessTime := by
      rw [p1, p2]; exact h1
    have h4altern : altern
        (waitAccrual (executeCurrent (handleProcessArrivals
          { s with currentTime := s.currentTime + 1 }))).ganttBlocks := by
      rw [p1]; exact h2
    have h4time :
        (waitAccrual (executeCurrent (handleProcessArrivals
          { s with currentTime := s.currentTime + 1 }))).currentTime =
        (waitAccrual (executeCurrent (handleProcessArrivals
          { s with currentTime := s.currentTime + 1 }))).lastProcessTime + 1 := by
      rw [p3, p2]
      show s.currentTime + 1 = s.lastProcessTime + 1
      rw [h3]
    obtain ⟨g1, g2, g3⟩ := updateGanttChart_spec _ h4chain h4altern h4time
    obtain ⟨q1, q2, q3⟩ := postGantt_fields settings
      (updateGanttChart (waitAccrual (executeCurrent (handleProcessArrivals
        { s with currentTime := s.currentTime + 1 }))))
    have k4 := (updateGanttChart_preserves (waitAccrual (executeCurrent (handleProcessArrivals
        { s with currentTime := s.currentTime + 1 })))).2.2.1
    have r1 : chain 0
        (handleRoundRobinScheduling settings (handleAgingAndStarvation settings
          (completionAndQuantum (updateGanttChart (waitAccrual (executeCurrent
            (handleProcessArrivals { s with currentTime := s.currentTime + 1 }))))))).ganttBlocks
        (handleRoundRobinScheduling settings (handleAgingAndStarvation settings
          (completionAndQuantum (updateGanttChart (waitAccrual (executeCurrent
            (handleProcessArrivals
              { s with currentTime := s.currentTime + 1 }))))))).lastProcessTime := by
      rw [q1, q2]; exact g1
    have r2 : altern
        (handleRoundRobinScheduling settings (handleAgingAndStarvation settings
          (completionAndQuantum (updateGanttChart (waitAccrual (executeCurrent
            (handleProcessArrivals
              { s with currentTime := s.currentTime + 1 }))))))).ganttBlocks := by
      rw [q1]; exact g2
    have r3 :
        (handleRoundRobinScheduling settings (handleAgingAndStarvation settings
          (completionAndQuantum (updateGanttChart (waitAccrual (executeCurrent
            (handleProcessArrivals
              { s with currentTime := s.currentTime + 1 }))))))).lastProcessTime =
        (handleRoundRobinScheduling settings (handleAgingAndStarvation settings
          (completionAndQuantum (updateGanttChart (waitAccrual (executeCurrent
            (handleProcessArrivals
              { s with currentTime := s.currentTime + 1 }))))))).currentTime := by
      rw [q2, q3, k4]
      rw [g3, p3]
    generalize hG : handleRoundRobinScheduling settings
      (handleAgingAndStarvation settings (completionAndQuantum (updateGanttChart (waitAccrual
        (executeCurrent (handleProcessArrivals
          { s with currentTime := s.currentTime + 1 })))))) = G at r1 r2 r3 ⊢
    by_cases hdone : isSimulationComplete G = true
    · rw [if_pos hdone]
      exact ⟨r1, r2, r3⟩
    · rw [if_neg hdone]
      exact ⟨r1, r2, r3⟩

/-! ### Tracking single store indices through the aging/starvation scan -/

theorem listGetD_mem {α : Type} [Inhabited α] {l : List α} {i : Nat} (h : i < l.length)
    (d : α) : l.getD i d ∈ l := by
  induction l generalizing i with
  | nil => simp at h
  | cons x xs ih =>
    cases i with
    | zero => simp
    | succ n =>
      have := ih (i := n) (by simpa using h)
      right
      simpa using this

theorem not_mem_eraseIdx_self {α : Type} [Inhabited α] {l : List α} {i : Nat} {e : α}
    (hn : l.Nodup) (hi : i < l.length) (he : l.getD i default = e) : e ∉ l.eraseIdx i := by
  induction l generalizing i with
  | nil => simp at hi
  | cons x xs ih =>
    cases i with
    | zero =>
      simp only [List.getD_cons_zero] at he
      subst he
      simpa using (List.nodup_cons.mp hn).1
    | succ n =>
      have hmem : e ∈ xs := by
        rw [← he]
        exact listGetD_mem (by simpa using hi) default
      have hx : x ≠ e := by
        intro hxe
        exact (List.nodup_cons.mp hn).1 (hxe ▸ hmem)
      simp only [List.eraseIdx_cons_succ, List.mem_cons]
      push_neg
      exact ⟨fun hh => hx hh.symm,
        ih (List.nodup_cons.mp hn).2 (by simpa using hi) (by simpa using he)⟩

theorem setQ_oor {lvl : Nat} (h : 3 ≤ lvl) (s : SimState) (q : List Nat) : setQ s lvl q = s := by
  rcases lvl with _ | _ | _ | n
  · omega
  · omega
  · omega
  · rfl

theorem pushQ_oor {lvl : Nat} (h : 3 ≤ lvl) (s : SimState) (j : Nat) : pushQ s lvl j = s := by
  unfold pushQ; exact setQ_oor h s _

theorem mem_getQ_pushQ {s : SimState} {tgt m j e : Nat} (hje : j ≠ e) :
    j ∈ getQ (pushQ s tgt e) m ↔ j ∈ getQ s m := by
  by_cases htgt : tgt < 3
  · by_cases hm : tgt = m
    · subst hm
      rw [getQ_pushQ_self htgt]
      simp [hje]
    · rw [getQ_pushQ_ne hm]
  · rw [pushQ_oor (by omega) s e]

theorem mem_getQ_setQ_eraseIdx {s : SimState} {lvl m i j : Nat} :
    j ∈ getQ (setQ s lvl ((getQ s lvl).eraseIdx i)) m → j ∈ getQ s m := by
  intro h
  by_cases hm : lvl = m
  · subst hm
    by_cases hl : lvl < 3
    · rw [getQ_setQ_self hl] at h
      exact List.mem_of_mem_eraseIdx h
    · rw [setQ_oor (by omega)] at h
      exact h
  · rwa [getQ_setQ_ne hm] at h

/-- The element the inner loop examines at position `i` of level `lvl`. -/
def examinee (s : SimState) (lvl i : Nat) : Nat := (getQ s lvl).getD i 0

theorem examinee_mem {s : SimState} {lvl i : Nat} (h : i < (getQ s lvl).length) :
    examinee s lvl i ∈ getQ s lvl :=
  listGetD_mem h 0

/-- An index that is not in the scanned queue is untouched by one
examination step: its process object is unchanged and its membership in
every queue is unchanged. -/
theorem mem_getQ_setQ_eraseIdx_iff {s : SimState} {lvl m i j : Nat} (hj : j ∉ getQ s lvl) :
    j ∈ getQ (setQ s lvl ((getQ s lvl).eraseIdx i)) m ↔ j ∈ getQ s m := by
  by_cases hm : lvl = m
  · subst hm
    constructor
    · exact mem_getQ_setQ_eraseIdx
    · intro h
      exact absurd h hj
  · rw [getQ_setQ_ne hm]

theorem examineAt_untouched (settings : Settings) {lvl j : Nat} (i : Nat) {s : SimState}
    (hj : j ∉ getQ s lvl) :
    getP (examineAt settings lvl i s) j = getP s j ∧
    (∀ m, j ∈ getQ (examineAt settings lvl i s) m ↔ j ∈ getQ s m) := by
  unfold examineAt
  by_cases hi : i < (getQ s lvl).length
  · rw [if_pos hi]
    dsimp only
    have hej : (getQ s lvl).getD i 0 ≠ j := by
      intro hh
      exact hj (hh ▸ listGetD_mem hi 0)
    have hje : j ≠ (getQ s lvl).getD i 0 := fun hh => hej hh.symm
    by_cases h1 : (getP s ((getQ s lvl).getD i 0)).waitingTime ≥ settings.starvationInterval ∧
        (getP s ((getQ s lvl).getD i 0)).priority > 1
    · rw [if_pos h1]
      refine ⟨?_, fun m => ?_⟩
      · rw [getP_pushQ, getP_setP_ne hej, getP_setQ]
      · rw [mem_getQ_pushQ hje, getQ_setP, mem_getQ_setQ_eraseIdx_iff hj]
    · rw [if_neg h1]
      by_cases h2 : (getP s ((getQ s lvl).getD i 0)).processingTime ≥ settings.agingInterval ∧
          (getP s ((getQ s lvl).getD i 0)).priority < 3
      · rw [if_pos h2]
        refine ⟨?_, fun m => ?_⟩
        · rw [getP_pushQ, getP_setP_ne hej, getP_setQ]
        · rw [mem_getQ_pushQ hje, getQ_setP, mem_getQ_setQ_eraseIdx_iff hj]
      · rw [if_neg h2]
        exact ⟨rfl, fun m => Iff.rfl⟩
  · rw [if_neg hi]
    exact ⟨rfl, fun m => Iff.rfl⟩

/-- `scanDown` leaves every index outside the scanned queue alone. -/
theorem scanDown_untouched (settings : Settings) {lvl j : Nat} (n : Nat) {s : SimState}
    (hj : j ∉ getQ s lvl) :
    getP (scanDown settings lvl n s) j = getP s j ∧
    (∀ m, j ∈ getQ (scanDown settings lvl n s) m ↔ j ∈ getQ s m) := by
  induction n generalizing s with
  | zero => exact ⟨rfl, fun m => Iff.rfl⟩
  | succ n ih =>
    obtain ⟨e1, e2⟩ := examineAt_untouched settings n hj
    have hj2 : j ∉ getQ (examineAt settings lvl n s) lvl := fun hh => hj ((e2 lvl).mp hh)
    obtain ⟨i1, i2⟩ := ih hj2
    exact ⟨i1.trans e1, fun m => (i2 m).trans (e2 m)⟩

theorem getP_withCurrent (s : SimState) (c : Option Nat) (j : Nat) :
    getP { s with currentProcess := c } j = getP s j := rfl

theorem getQ_withCurrent (s : SimState) (c : Option Nat) (m : Nat) :
    getQ { s with currentProcess := c } m = getQ s m := by
  rcases m with _ | _ | _ | m <;> rfl

theorem getP_setP_eq_or (s : SimState) (e j : Nat) (p : Process) :
    getP (setP s e p) j = getP s j ∨ (j = e ∧ getP (setP s e p) j = p) := by
  by_cases he : e = j
  · subst he
    by_cases hlen : e < s.processes.length
    · exact Or.inr ⟨rfl, getP_setP_self hlen p⟩
    · left
      unfold getP setP
      rw [List.set_eq_of_length_le (le_of_not_lt hlen)]
  · exact Or.inl (getP_setP_ne he s p)

theorem getP_eq_of_processes {s t : SimState} (h : t.processes = s.processes) (j : Nat) :
    getP t j = getP s j := by
  unfold getP
  rw [h]

/-- One examination step never changes the immutable identity fields or
the remaining burst of any process. -/
theorem examineAt_fixed (settings : Settings) (lvl i : Nat) (s : SimState) (j : Nat) :
    (getP (examineAt settings lvl i s) j).name = (getP s j).name ∧
    (getP (examineAt settings lvl i s) j).arrivalTime = (getP s j).arrivalTime ∧
    (getP (examineAt settings lvl i s) j).burstTime = (getP s j).burstTime ∧
    (getP (examineAt settings lvl i s) j).remainingTime = (getP s j).remainingTime := by
  unfold examineAt
  by_cases hi : i < (getQ s lvl).length
  · rw [if_pos hi]
    dsimp only
    by_cases h1 : (getP s ((getQ s lvl).getD i 0)).waitingTime ≥ settings.starvationInterval ∧
        (getP s ((getQ s lvl).getD i 0)).priority > 1
    · rw [if_pos h1]
      rw [getP_pushQ]
      rcases getP_setP_eq_or (setQ s lvl ((getQ s lvl).eraseIdx i)) ((getQ s lvl).getD i 0) j _
        with h | ⟨hje, h⟩
      · have h2 := h.trans (getP_setQ s lvl _ j)
        rw [h2]
        exact ⟨rfl, rfl, rfl, rfl⟩
      · subst hje
        rw [h]
        exact ⟨rfl, rfl, rfl, rfl⟩
    · rw [if_neg h1]
      by_cases h2 : (getP s ((getQ s lvl).getD i 0)).processingTime ≥ settings.agingInterval ∧
          (getP s ((getQ s lvl).getD i 0)).priority < 3
      · rw [if_pos h2]
        rw [getP_pushQ]
        rcases getP_setP_eq_or (setQ s lvl ((getQ s lvl).eraseIdx i)) ((getQ s lvl).getD i 0) j _
          with h | ⟨hje, h⟩
        · have h3 := h.trans (getP_setQ s lvl _ j)
          rw [h3]
          exact ⟨rfl, rfl, rfl, rfl⟩
        · subst hje
          rw [h]
          exact ⟨rfl, rfl, rfl, rfl⟩
      · rw [if_neg h2]
        exact ⟨rfl, rfl, rfl, rfl⟩
  · rw [if_neg hi]
    exact ⟨rfl, rfl, rfl, rfl⟩

theorem scanDown_fixed (settings : Settings) (lvl : Nat) (n : Nat) (s : SimState) (j : Nat) :
    (getP (scanDown settings lvl n s) j).name = (getP s j).name ∧
    (getP (scanDown settings lvl n s) j).arrivalTime = (getP s j).arrivalTime ∧
    (getP (scanDown settings lvl n s) j).burstTime = (getP s j).burstTime ∧
    (getP (scanDown settings lvl n s) j).remainingTime = (getP s j).remainingTime := by
  induction n generalizing s with
  | zero => exact ⟨rfl, rfl, rfl, rfl⟩
  | succ n ih =>
    obtain ⟨e1, e2, e3, e4⟩ := examineAt_fixed settings lvl n s j
    obtain ⟨i1, i2, i3, i4⟩ := ih (examineAt settings lvl n s)
    exact ⟨i1.trans e1, i2.trans e2, i3.trans e3, i4.trans e4⟩

theorem agingCurrent_fixed (settings : Settings) (s : SimState) (j : Nat) :
    (getP (agingCurrent settings s) j).name = (getP s j).name ∧
    (getP (agingCurrent settings s) j).arrivalTime = (getP s j).arrivalTime ∧
    (getP (agingCurrent settings s) j).burstTime = (getP s j).burstTime ∧
    (getP (agingCurrent settings s) j).remainingTime = (getP s j).remainingTime := by
  unfold agingCurrent
  cases hc : s.currentProcess with
  | none => exact ⟨rfl, rfl, rfl, rfl⟩
  | some k =>
    dsimp only
    by_cases h1 : (getP s k).processingTime ≥ settings.agingInterval ∧ (getP s k).priority < 3
    · rw [if_pos h1]
      rw [getP_withCurrent, getP_pushQ]
      have hor := getP_setP_eq_or s k j
        ({ getP s k with priority := (getP s k).priority + 1, processingTime := 0 })
      rcases hor with h | ⟨hje, h⟩
      · rw [h]
        exact ⟨rfl, rfl, rfl, rfl⟩
      · subst hje
        rw [h]
        exact ⟨rfl, rfl, rfl, rfl⟩
    · rw [if_neg h1]
      exact ⟨rfl, rfl, rfl, rfl⟩

theorem handleAgingAndStarvation_fixed (settings : Settings) (s : SimState) (j : Nat) :
    (getP (handleAgingAndStarvation settings s) j).name = (getP s j).name ∧
    (getP (handleAgingAndStarvation settings s) j).arrivalTime = (getP s j).arrivalTime ∧
    (getP (handleAgingAndStarvation settings s) j).burstTime = (getP s j).burstTime ∧
    (getP (handleAgingAndStarvation settings s) j).remainingTime = (getP s j).remainingTime := by
  unfold handleAgingAndStarvation
  dsimp only
  obtain ⟨a1, a2, a3, a4⟩ := scanDown_fixed settings 0 (getQ s 0).length s j
  obtain ⟨b1, b2, b3, b4⟩ := scanDown_fixed settings 1
    (getQ (scanDown settings 0 (getQ s 0).length s) 1).length
    (scanDown settings 0 (getQ s 0).length s) j
  obtain ⟨c1, c2, c3, c4⟩ := scanDown_fixed settings 2
    (getQ (scanDown settings 1 (getQ (scanDown settings 0 (getQ s 0).length s) 1).length
      (scanDown settings 0 (getQ s 0).length s)) 2).length
    (scanDown settings 1 (getQ (scanDown settings 0 (getQ s 0).length s) 1).length
      (scanDown settings 0 (getQ s 0).length s)) j
  obtain ⟨d1, d2, d3, d4⟩ := agingCurrent_fixed settings
    (scanDown settings 2
      (getQ (scanDown settings 1 (getQ (scanDown settings 0 (getQ s 0).length s) 1).length
        (scanDown settings 0 (getQ s 0).length s)) 2).length
      (scanDown settings 1 (getQ (scanDown settings 0 (getQ s 0).length s) 1).length
        (scanDown settings 0 (getQ s 0).length s))) j
  exact ⟨d1.trans (c1.trans (b1.trans a1)), d2.trans (c2.trans (b2.trans a2)),
    d3.trans (c3.trans (b3.trans a3)), d4.trans (c4.trans (b4.trans a4))⟩

theorem agingCurrent_current (settings : Settings) (s : SimState) :
    (agingCurrent settings s).currentProcess = s.currentProcess ∨
    (agingCurrent settings s).currentProcess = none := by
  unfold agingCurrent
  cases hc : s.currentProcess with
  | none => exact Or.inl hc
  | some k =>
    dsimp only
    by_cases h1 : (getP s k).processingTime ≥ settings.agingInterval ∧ (getP s k).priority < 3
    · rw [if_pos h1]
      exact Or.inr rfl
    · rw [if_neg h1]
      exact Or.inl (by rw [hc])

theorem handleAgingAndStarvation_current (settings : Settings) (s : SimState) :
    (handleAgingAndStarvation settings s).currentProcess = s.currentProcess ∨
    (handleAgingAndStarvation settings s).currentProcess = none := by
  unfold handleAgingAndStarvation
  dsimp only
  have hsc : (scanDown settings 2
      (getQ (scanDown settings 1 (getQ (scanDown settings 0 (getQ s 0).length s) 1).length
        (scanDown settings 0 (getQ s 0).length s)) 2).length
      (scanDown settings 1 (getQ (scanDown settings 0 (getQ s 0).length s) 1).length
        (scanDown settings 0 (getQ s 0).length s))).currentProcess = s.currentProcess := by
    have h1 := (scanDown_preserves settings 0 (getQ s 0).length s).1
    have h2 := (scanDown_preserves settings 1
      (getQ (scanDown settings 0 (getQ s 0).length s) 1).length
      (scanDown settings 0 (getQ s 0).length s)).1
    have h3 := (scanDown_preserves settings 2
      (getQ (scanDown settings 1 (getQ (scanDown settings 0 (getQ s 0).length s) 1).length
        (scanDown settings 0 (getQ s 0).length s)) 2).length
      (scanDown settings 1 (getQ (scanDown settings 0 (getQ s 0).length s) 1).length
        (scanDown settings 0 (getQ s 0).length s))).1
    exact h3.trans (h2.trans h1)
  rcases agingCurrent_current settings (scanDown settings 2
      (getQ (scanDown settings 1 (getQ (scanDown settings 0 (getQ s 0).length s) 1).length
        (scanDown settings 0 (getQ s 0).length s)) 2).length
      (scanDown settings 1 (getQ (scanDown settings 0 (getQ s 0).length s) 1).length
        (scanDown settings 0 (getQ s 0).length s))) with h | h
  · exact Or.inl (h.trans hsc)
  · exact Or.inr h

/-- `handleAgingAndStarvation` leaves an index alone when it is in no
ready queue and is not the running process. -/
theorem handleAgingAndStarvation_outside (settings : Settings) {j : Nat} {s : SimState}
    (h0 : j ∉ getQ s 0) (h1 : j ∉ getQ s 1) (h2 : j ∉ getQ s 2)
    (hc : ∀ k, s.currentProcess = some k → k ≠ j) :
    getP (handleAgingAndStarvation settings s) j = getP s j ∧
    (∀ m, j ∉ getQ (handleAgingAndStarvation settings s) m) := by
  unfold handleAgingAndStarvation
  dsimp only
  obtain ⟨s1p, s1m⟩ := scanDown_untouched settings (getQ s 0).length (s := s) h0
  have h1b : j ∉ getQ (scanDown settings 0 (getQ s 0).length s) 1 :=
    fun hh => h1 ((s1m 1).mp hh)
  obtain ⟨s2p, s2m⟩ := scanDown_untouched settings
    (getQ (scanDown settings 0 (getQ s 0).length s) 1).length h1b
  have h2b : j ∉ getQ (scanDown settings 1
      (getQ (scanDown settings 0 (getQ s 0).length s) 1).length
      (scanDown settings 0 (getQ s 0).length s)) 2 :=
    fun hh => h2 ((s1m 2).mp ((s2m 2).mp hh))
  obtain ⟨s3p, s3m⟩ := scanDown_untouched settings
    (getQ (scanDown settings 1 (getQ (scanDown settings 0 (getQ s 0).length s) 1).length
      (scanDown settings 0 (getQ s 0).length s)) 2).length h2b
  have hmem3 : ∀ m, j ∉ getQ (scanDown settings 2
      (getQ (scanDown settings 1 (getQ (scanDown settings 0 (getQ s 0).length s) 1).length
        (scanDown settings 0 (getQ s 0).length s)) 2).length
      (scanDown settings 1 (getQ (scanDown settings 0 (getQ s 0).length s) 1).length
        (scanDown settings 0 (getQ s 0).length s))) m := by
    intro m
    intro hh
    have hh2 := (s1m m).mp ((s2m m).mp ((s3m m).mp hh))
    rcases m with _ | _ | _ | m
    · exact h0 hh2
    · exact h1 hh2
    · exact h2 hh2
    · simp [getQ] at hh2
  have hp3 : getP (scanDown settings 2
      (getQ (scanDown settings 1 (getQ (scanDown settings 0 (getQ s 0).length s) 1).length
        (scanDown settings 0 (getQ s 0).length s)) 2).length
      (scanDown settings 1 (getQ (scanDown settings 0 (getQ s 0).length s) 1).length
        (scanDown settings 0 (getQ s 0).length s))) j = getP s j :=
    s3p.trans (s2p.trans s1p)
  have hcur3 : (scanDown settings 2
      (getQ (scanDown settings 1 (getQ (scanDown settings 0 (getQ s 0).length s) 1).length
        (scanDown settings 0 (getQ s 0).length s)) 2).length
      (scanDown settings 1 (getQ (scanDown settings 0 (getQ s 0).length s) 1).length
        (scanDown settings 0 (getQ s 0).length s))).currentProcess = s.currentProcess := by
    have q1 := (scanDown_preserves settings 0 (getQ s 0).length s).1
    have q2 := (scanDown_preserves settings 1
      (getQ (scanDown settings 0 (getQ s 0).length s) 1).length
      (scanDown settings 0 (getQ s 0).length s)).1
    have q3 := (scanDown_preserves settings 2
      (getQ (scanDown settings 1 (getQ (scanDown settings 0 (getQ s 0).length s) 1).length
        (scanDown settings 0 (getQ s 0).length s)) 2).length
      (scanDown settings 1 (getQ (scanDown settings 0 (getQ s 0).length s) 1).length
        (scanDown settings 0 (getQ s 0).length s))).1
    exact q3.trans (q2.trans q1)
  generalize hT : scanDown settings 2
      (getQ (scanDown settings 1 (getQ (scanDown settings 0 (getQ s 0).length s) 1).length
        (scanDown settings 0 (getQ s 0).length s)) 2).length
      (scanDown settings 1 (getQ (scanDown settings 0 (getQ s 0).length s) 1).length
        (scanDown settings 0 (getQ s 0).length s)) = T at hmem3 hp3 hcur3 ⊢
  unfold agingCurrent
  cases hc3 : T.currentProcess with
  | none => exact ⟨hp3, hmem3⟩
  | some k =>
    have hkj : k ≠ j := hc k (by rw [← hcur3, hc3])
    dsimp only
    by_cases hfire : (getP T k).processingTime ≥ settings.agingInterval ∧ (getP T k).priority < 3
    · rw [if_pos hfire]
      constructor
      · rw [getP_withCurrent, getP_pushQ, getP_setP_ne hkj, hp3]
      · intro m
        rw [getQ_withCurrent]
        intro hh
        rw [mem_getQ_pushQ (fun hz => hkj hz.symm), getQ_setP] at hh
        exact hmem3 m hh
    · rw [if_neg hfire]
      exact ⟨hp3, hmem3⟩

/-! ### Initialization facts and concrete scenario states -/

theorem startSimulation_ok {rows : List Row} {s0 : SimState}
    (h : startSimulation rows = .ok s0) : ∃ procs, s0 = initState procs := by
  unfold startSimulation at h
  cases hr : readProcesses rows [] with
  | error e =>
    obtain ⟨msg, acc⟩ := e
    rw [hr] at h
    cases h
  | ok procs =>
    rw [hr] at h
    dsimp only at h
    by_cases he : procs.isEmpty = true
    · rw [if_pos he] at h
      cases h
    · rw [if_neg he] at h
      injection h with h
      exact ⟨procs, h.symm⟩

/-- The settings used by the spec's scenarios:
`quantum=[2,2,2], agingInterval=6, starvationInterval=5`. -/
def settings1 : Settings := ⟨2, 2, 2, 6, 5⟩

/-- Scenario 1's process table. -/
def rows1 : List Row := [⟨"P1", 1, 20, 3⟩, ⟨"P2", 3, 10, 2⟩, ⟨"P3", 5, 2, 1⟩]

/-- The state `startSimulation` builds from Scenario 1's table. -/
def init1 : SimState :=
  initState [mkProcess ⟨"P1", 1, 20, 3⟩, mkProcess ⟨"P2", 3, 10, 2⟩, mkProcess ⟨"P3", 5, 2, 1⟩]

/-- A table whose only process is literally named "Idle". -/
def rows4 : List Row := [⟨"Idle", 2, 1, 1⟩]

/-- The started state for `rows4`. -/
def init4 : SimState := initState [mkProcess ⟨"Idle", 2, 1, 1⟩]

/-- A one-process table whose run completes after two ticks. -/
def rows3 : List Row := [⟨"A", 1, 1, 1⟩]

/-- The started state for `rows3`. -/
def init3 : SimState := initState [mkProcess ⟨"A", 1, 1, 1⟩]

/-! ### Claim C1 -/

/-- C1 counterexample: the spec's claimed step order (timeline recording
as step 9, after selection) is not the code's.  On the first tick of
Scenario 1 the code records `[0,1)` as Idle, while a tick that records
after selection attributes `[0,1)` to P1; the two orders produce
different states, so `tick` does not perform recording after
selection. -/
theorem C1_counterexample :
    startSimulation rows1 = .ok init1 ∧
    (nextStep settings1 init1).ganttBlocks = [⟨"Idle", 0, 1, true⟩] ∧
    (nextStepSpecOrder settings1 init1).ganttBlocks = [⟨"P1", 0, 1, false⟩] ∧
    nextStep settings1 init1 ≠ nextStepSpecOrder settings1 init1 :=
  ⟨by decide, by decide, by decide, by decide⟩

/-- C1 (amended): timeline recording is performed as the fifth pipeline
stage — after clock, arrivals, execution and wait accrual, but before
completion, quantum expiry, aging/starvation and selection — so the
elapsed interval is attributed to the process that was Running while it
elapsed; consequently, on the first tick of Scenario 1, `[0,1)` is
recorded Idle even though P1 is selected and Running by the end of that
same tick. -/
theorem C1_recording_is_fifth_stage :
    (∀ (settings : Settings) (s : SimState), s.simulationStarted = true →
      (nextStep settings s).ganttBlocks =
        (updateGanttChart (waitAccrual (executeCurrent (handleProcessArrivals
          { s with currentTime := s.currentTime + 1 })))).ganttBlocks) ∧
    (steps settings1 init1 1).ganttBlocks = [⟨"Idle", 0, 1, true⟩] ∧
    (steps settings1 init1 1).currentProcess = some 0 ∧
    (getP (steps settings1 init1 1) 0).name = "P1" := by
  refine ⟨?_, by decide, by decide, by decide⟩
  intro settings s hs
  unfold nextStep
  rw [if_neg (by simp [hs])]
  dsimp only
  obtain ⟨q1, -, -⟩ := postGantt_fields settings
    (updateGanttChart (waitAccrual (executeCurrent (handleProcessArrivals
      { s with currentTime := s.currentTime + 1 }))))
  generalize hG : handleRoundRobinScheduling settings
    (handleAgingAndStarvation settings (completionAndQuantum (updateGanttChart (waitAccrual
      (executeCurrent (handleProcessArrivals
        { s with currentTime := s.currentTime + 1 })))))) = G at q1 ⊢
  by_cases hdone : isSimulationComplete G = true
  · rw [if_pos hdone]
    exact q1
  · rw [if_neg hdone]
    exact q1

/-- C1 witness: the amended ordering fact applied to Scenario 1's
initial state. -/
theorem C1_witness :
    (nextStep settings1 init1).ganttBlocks =
      (updateGanttChart (waitAccrual (executeCurrent (handleProcessArrivals
        { init1 with currentTime := init1.currentTime + 1 })))).ganttBlocks :=
  C1_recording_is_fifth_stage.1 settings1 init1 rfl

/-! ### Claim C2 -/

/-- The processes the row-reading loop keeps: rows with non-empty names,
in order. -/
def validRows (rows : List Row) : List Process :=
  (rows.filter (fun r => r.name != "")).map mkProcess

theorem readProcesses_ok_of_valid :
    ∀ (rows : List Row) (acc : List Process),
      (∀ r ∈ rows, r.name ≠ "" → 1 ≤ r.prio ∧ r.prio ≤ 3) →
      readProcesses rows acc = .ok (acc ++ validRows rows)
  | [], acc, _ => by simp [readProcesses, validRows]
  | r :: rest, acc, hval => by
    unfold readProcesses
    by_cases hname : r.name = ""
    · rw [if_pos hname]
      have hfilter : validRows (r :: rest) = validRows rest := by
        simp [validRows, List.filter_cons, hname]
      rw [hfilter]
      exact readProcesses_ok_of_valid rest acc (fun x hx => hval x (List.mem_cons_of_mem r hx))
    · rw [if_neg hname]
      have hprio := hval r (List.mem_cons_self r rest) hname
      rw [if_neg (by omega)]
      have hfilter : validRows (r :: rest) = mkProcess r :: validRows rest := by
        simp [validRows, List.filter_cons, hname]
      rw [hfilter]
      have := readProcesses_ok_of_valid rest (acc ++ [mkProcess r])
        (fun x hx => hval x (List.mem_cons_of_mem r hx))
      rw [this]
      simp

/-- The table with one burst-0, negative-arrival process "A" and one
bad-priority process "B". -/
def rowsBad : List Row := [⟨"A", -1, 0, 1⟩, ⟨"B", 0, 3, 7⟩]

/-- C2 counterexample: `init` does not validate every constraint and
does not name every offending field.  On `rowsBad`, A's
`burstTime = 0 ≤ 0` and `arrivalTime = -1 < 0` both violate the spec's
constraints, yet the only error raised names B's priority alone, and the
partially built process list containing A is left behind. -/
theorem C2_counterexample :
    startSimulation rowsBad =
      .err "Invalid priority for B. Priority must be between 1 and 3."
        [mkProcess ⟨"A", -1, 0, 1⟩] ∧
    (mkProcess ⟨"A", -1, 0, 1⟩).burstTime ≤ 0 ∧
    (mkProcess ⟨"A", -1, 0, 1⟩).arrivalTime < 0 :=
  ⟨by decide, by decide, by decide⟩

/-- C2 (amended): the only validation `init` performs is the priority
range check on rows with non-empty names (empty-named rows are silently
skipped); any table passing that check and yielding at least one process
starts successfully, regardless of name uniqueness, arrival times, burst
times or settings values, and a violation aborts at the first offending
row with only that row's name reported. -/
theorem C2_priority_only_validation (rows : List Row)
    (hval : ∀ r ∈ rows, r.name ≠ "" → 1 ≤ r.prio ∧ r.prio ≤ 3)
    (hne : ∃ r ∈ rows, r.name ≠ "") :
    startSimulation rows = .ok (initState (validRows rows)) := by
  unfold startSimulation
  rw [readProcesses_ok_of_valid rows [] hval]
  simp only [List.nil_append]
  rw [if_neg ?_]
  obtain ⟨r, hr, hname⟩ := hne
  have : mkProcess r ∈ validRows rows := by
    simp only [validRows, List.mem_map]
    exact ⟨r, List.mem_filter.mpr ⟨hr, by simpa using hname⟩, rfl⟩
  intro he
  rw [List.isEmpty_iff] at he
  rw [he] at this
  cases this

/-- C2 witness: a fully valid table starts with exactly its rows'
processes. -/
theorem C2_witness : startSimulation rows1 = .ok (initState (validRows rows1)) :=
  C2_priority_only_validation rows1 (by decide) (by decide)

/-! ### Claim C3 -/

/-- C3 (amended): calling `tick` on a state whose simulation is not
started — before `init`, or after completion (the completing tick clears
the started flag) — leaves every field of the state unchanged, but
silently: the guard is an early `return` and no invalid-state error is
reported anywhere in `nextStep`. -/
theorem C3_silent_noop (settings : Settings) (s : SimState)
    (hs : s.simulationStarted = false) :
    nextStep settings s = s ∧ nextStepAlerts settings s = [] := by
  constructor
  · unfold nextStep
    rw [if_pos hs]
  · rfl

/-- C3 counterexample: after `rows3`'s run completes (two ticks), a
further `tick` returns the state unchanged as an ordinary result and
reports nothing — no invalid-state error is signalled. -/
theorem C3_counterexample :
    startSimulation rows3 = .ok init3 ∧
    isSimulationComplete (steps settings1 init3 2) = true ∧
    (steps settings1 init3 2).simulationStarted = false ∧
    nextStep settings1 (steps settings1 init3 2) = steps settings1 init3 2 ∧
    nextStepAlerts settings1 (steps settings1 init3 2) = [] :=
  ⟨by decide, by decide, by decide, by decide, rfl⟩

/-- C3 witness: the silent no-op applied to a not-started state. -/
theorem C3_witness :
    nextStep settings1 { init3 with simulationStarted := false } =
      { init3 with simulationStarted := false } ∧
    nextStepAlerts settings1 { init3 with simulationStarted := false } = [] :=
  C3_silent_noop settings1 { init3 with simulationStarted := false } rfl

/-! ### Claim C4 -/

/-- C4 counterexample: with a process literally named "Idle", the
recorded timeline contains two consecutive blocks with the same identity
string "Idle" (one idle, one busy), so consecutive blocks can share
their displayed identity. -/
theorem C4_counterexample :
    startSimulation rows4 = .ok init4 ∧
    (steps settings1 init4 3).ganttBlocks =
      [⟨"Idle", 0, 2, true⟩, ⟨"Idle", 2, 3, false⟩] ∧
    nameAltern (steps settings1 init4 3).ganttBlocks = false :=
  ⟨by decide, by decide, by decide⟩

/-- C4 (amended): after any number of ticks from a started initial
state, the Gantt blocks are contiguous, non-overlapping and span exactly
`[0, currentTime)`; the sum of all block durations equals `currentTime`;
and no two consecutive blocks share the same identity, where a block's
identity is its name together with its idle flag (equivalently, provided
no process is named "Idle", no two consecutive blocks share a name). -/
theorem C4_timeline (settings : Settings) (rows : List Row) (s0 : SimState)
    (h : startSimulation rows = .ok s0) (n : Nat) :
    chain 0 (steps settings s0 n).ganttBlocks (steps settings s0 n).currentTime ∧
    altern (steps settings s0 n).ganttBlocks ∧
    ((steps settings s0 n).ganttBlocks.map fun x => x.stop - x.start).sum =
      (steps settings s0 n).currentTime := by
  obtain ⟨procs, rfl⟩ := startSimulation_ok h
  have hinv : ganttInv (steps settings (initState procs) n) := by
    induction n with
    | zero => exact ⟨rfl, trivial, rfl⟩
    | succ n ih => exact ganttInv_nextStep settings _ ih
  obtain ⟨g1, g2, g3⟩ := hinv
  refine ⟨by rw [← g3]; exact g1, g2, ?_⟩
  rw [← g3]
  have := chain_sum g1
  simpa using this

/-- C4 witness: the timeline invariant on Scenario 1 after two ticks. -/
theorem C4_witness :
    chain 0 (steps settings1 init1 2).ganttBlocks (steps settings1 init1 2).currentTime ∧
    altern (steps settings1 init1 2).ganttBlocks ∧
    ((steps settings1 init1 2).ganttBlocks.map fun x => x.stop - x.start).sum =
      (steps settings1 init1 2).currentTime :=
  C4_timeline settings1 rows1 init1 (by decide) 2

/-! ### Claim C5 -/

/-- C5: if the Running process survives completion and quantum expiry
(it is still `currentProcess` when `handleAgingAndStarvation` runs) and
its `processingTime` has reached `agingInterval` with `priority < 3`,
then within that same aging pass it is demoted by exactly one level, its
`processingTime` is reset to 0, it is enqueued at the tail of its new
level's queue, and it releases the CPU — with no hypothesis whatsoever
on the remaining quantum ticks. -/
theorem C5_running_aging (settings : Settings) (s : SimState) (j : Nat)
    (hc : s.currentProcess = some j)
    (hlen : j < s.processes.length)
    (h0 : j ∉ getQ s 0) (h1 : j ∉ getQ s 1) (h2 : j ∉ getQ s 2)
    (hage : (getP s j).processingTime ≥ settings.agingInterval)
    (hpriolt : (getP s j).priority < 3)
    (hprioge : 1 ≤ (getP s j).priority) :
    (getP (handleAgingAndStarvation settings s) j).priority = (getP s j).priority + 1 ∧
    (getP (handleAgingAndStarvation settings s) j).processingTime = 0 ∧
    (handleAgingAndStarvation settings s).currentProcess = none ∧
    (getQ (handleAgingAndStarvation settings s)
      (qidx ((getP s j).priority + 1))).getLast? = some j := by
  unfold handleAgingAndStarvation
  dsimp only
  obtain ⟨s1p, s1m⟩ := scanDown_untouched settings (getQ s 0).length (s := s) h0
  have h1b : j ∉ getQ (scanDown settings 0 (getQ s 0).length s) 1 :=
    fun hh => h1 ((s1m 1).mp hh)
  obtain ⟨s2p, s2m⟩ := scanDown_untouched settings
    (getQ (scanDown settings 0 (getQ s 0).length s) 1).length h1b
  have h2b : j ∉ getQ (scanDown settings 1
      (getQ (scanDown settings 0 (getQ s 0).length s) 1).length
      (scanDown settings 0 (getQ s 0).length s)) 2 :=
    fun hh => h2 ((s1m 2).mp ((s2m 2).mp hh))
  obtain ⟨s3p, s3m⟩ := scanDown_untouched settings
    (getQ (scanDown settings 1 (getQ (scanDown settings 0 (getQ s 0).length s) 1).length
      (scanDown settings 0 (getQ s 0).length s)) 2).length h2b
  have hp3 : getP (scanDown settings 2
      (getQ (scanDown settings 1 (getQ (scanDown settings 0 (getQ s 0).length s) 1).length
        (scanDown settings 0 (getQ s 0).length s)) 2).length
      (scanDown settings 1 (getQ (scanDown settings 0 (getQ s 0).length s) 1).length
        (scanDown settings 0 (getQ s 0).length s))) j = getP s j :=
    s3p.trans (s2p.trans s1p)
  have hcur3 : (scanDown settings 2
      (getQ (scanDown settings 1 (getQ (scanDown settings 0 (getQ s 0).length s) 1).length
        (scanDown settings 0 (getQ s 0).length s)) 2).length
      (scanDown settings 1 (getQ (scanDown settings 0 (getQ s 0).length s) 1).length
        (scanDown settings 0 (getQ s 0).length s))).currentProcess = s.currentProcess := by
    have q1 := (scanDown_preserves settings 0 (getQ s 0).length s).1
    have q2 := (scanDown_preserves settings 1
      (getQ (scanDown settings 0 (getQ s 0).length s) 1).length
      (scanDown settings 0 (getQ s 0).length s)).1
    have q3 := (scanDown_preserves settings 2
      (getQ (scanDown settings 1 (getQ (scanDown settings 0 (getQ s 0).length s) 1).length
        (scanDown settings 0 (getQ s 0).length s)) 2).length
      (scanDown settings 1 (getQ (scanDown settings 0 (getQ s 0).length s) 1).length
        (scanDown settings 0 (getQ s 0).length s))).1
    exact q3.trans (q2.trans q1)
  have hlen3 : (scanDown settings 2
      (getQ (scanDown settings 1 (getQ (scanDown settings 0 (getQ s 0).length s) 1).length
        (scanDown settings 0 (getQ s 0).length s)) 2).length
      (scanDown settings 1 (getQ (scanDown settings 0 (getQ s 0).length s) 1).length
        (scanDown settings 0 (getQ s 0).length s))).processes.length = s.processes.length := by
    have q1 := (scanDown_preserves settings 0 (getQ s 0).length s).2.2.2.2.2.2.2
    have q2 := (scanDown_preserves settings 1
      (getQ (scanDown settings 0 (getQ s 0).length s) 1).length
      (scanDown settings 0 (getQ s 0).length s)).2.2.2.2.2.2.2
    have q3 := (scanDown_preserves settings 2
      (getQ (scanDown settings 1 (getQ (scanDown settings 0 (getQ s 0).length s) 1).length
        (scanDown settings 0 (getQ s 0).length s)) 2).length
      (scanDown settings 1 (getQ (scanDown settings 0 (getQ s 0).length s) 1).length
        (scanDown settings 0 (getQ s 0).length s))).2.2.2.2.2.2.2
    exact q3.trans (q2.trans q1)
  generalize hT : scanDown settings 2
      (getQ (scanDown settings 1 (getQ (scanDown settings 0 (getQ s 0).length s) 1).length
        (scanDown settings 0 (getQ s 0).length s)) 2).length
      (scanDown settings 1 (getQ (scanDown settings 0 (getQ s 0).length s) 1).length
        (scanDown settings 0 (getQ s 0).length s)) = T at hp3 hcur3 hlen3 ⊢
  unfold agingCurrent
  rw [hcur3.trans hc]
  dsimp only
  rw [if_pos (by rw [hp3]; exact ⟨hage, hpriolt⟩)]
  have htgt : qidx ((getP T j).priority + 1) = qidx ((getP s j).priority + 1) := by rw [hp3]
  have htgtlt : qidx ((getP s j).priority + 1) < 3 := by
    unfold qidx
    omega
  have hlenT : j < T.processes.length := by rw [hlen3]; exact hlen
  refine ⟨?_, ?_, rfl, ?_⟩
  · rw [getP_withCurrent, getP_pushQ,
      getP_setP_self hlenT _, hp3]
  · rw [getP_withCurrent, getP_pushQ, getP_setP_self hlenT _]
  · rw [getQ_withCurrent, htgt, getQ_pushQ_self htgtlt]
    exact getLast?_append_singleton _ j

/-- A concrete state exercising the running-process aging branch:
"A" is Running at priority 2 with `processingTime = 6`. -/
def st5 : SimState :=
  { initState [⟨"A", 0, 5, 2, 2, 6, 0⟩] with currentProcess := some 0 }

/-- C5 witness: the running-process aging theorem at `st5`. -/
theorem C5_witness :
    (getP (handleAgingAndStarvation settings1 st5) 0).priority = (getP st5 0).priority + 1 ∧
    (getP (handleAgingAndStarvation settings1 st5) 0).processingTime = 0 ∧
    (handleAgingAndStarvation settings1 st5).currentProcess = none ∧
    (getQ (handleAgingAndStarvation settings1 st5)
      (qidx ((getP st5 0).priority + 1))).getLast? = some 0 :=
  C5_running_aging settings1 st5 0 rfl (by decide) (by decide) (by decide) (by decide)
    (by decide) (by decide) (by decide)

/-! ### Claim C7 -/

/-- C7: a process becomes Running only when no process is Running at the
selection step — `handleRoundRobinScheduling` is the identity whenever a
process is already Running (so a newly arrived higher-priority process
never preempts mid-quantum) — and when the CPU is free the levels are
scanned in priority order 1 → 3, the head of the first non-empty queue
is dequeued and becomes Running, and that level's quantum counter is
reset to `settings.quantum[level]`. -/
theorem C7_selection (settings : Settings) (s : SimState) :
    (∀ j, s.currentProcess = some j → handleRoundRobinScheduling settings s = s) ∧
    (s.currentProcess = none → ∀ j q, s.rq0 = j :: q →
      (handleRoundRobinScheduling settings s).currentProcess = some j ∧
      (handleRoundRobinScheduling settings s).rq0 = q ∧
      (handleRoundRobinScheduling settings s).rq1 = s.rq1 ∧
      (handleRoundRobinScheduling settings s).rq2 = s.rq2 ∧
      getC (handleRoundRobinScheduling settings s) 0 = settings.quantum 0) ∧
    (s.currentProcess = none → s.rq0 = [] → ∀ j q, s.rq1 = j :: q →
      (handleRoundRobinScheduling settings s).currentProcess = some j ∧
      (handleRoundRobinScheduling settings s).rq1 = q ∧
      (handleRoundRobinScheduling settings s).rq0 = [] ∧
      (handleRoundRobinScheduling settings s).rq2 = s.rq2 ∧
      getC (handleRoundRobinScheduling settings s) 1 = settings.quantum 1) ∧
    (s.currentProcess = none → s.rq0 = [] → s.rq1 = [] → ∀ j q, s.rq2 = j :: q →
      (handleRoundRobinScheduling settings s).currentProcess = some j ∧
      (handleRoundRobinScheduling settings s).rq2 = q ∧
      (handleRoundRobinScheduling settings s).rq0 = [] ∧
      (handleRoundRobinScheduling settings s).rq1 = [] ∧
      getC (handleRoundRobinScheduling settings s) 2 = settings.quantum 2) ∧
    (s.currentProcess = none → s.rq0 = [] → s.rq1 = [] → s.rq2 = [] →
      handleRoundRobinScheduling settings s = s) := by
  refine ⟨?_, ?_, ?_, ?_, ?_⟩
  · intro j hj
    unfold handleRoundRobinScheduling
    rw [hj]
  · intro hc j q hq
    unfold handleRoundRobinScheduling
    rw [hc, hq]
    exact ⟨rfl, rfl, rfl, rfl, rfl⟩
  · intro hc h0 j q hq
    unfold handleRoundRobinScheduling
    rw [hc, h0, hq]
    exact ⟨rfl, by simp [setC, setQ], by simp [setC, setQ, h0], rfl, rfl⟩
  · intro hc h0 h1 j q hq
    unfold handleRoundRobinScheduling
    rw [hc, h0, h1, hq]
    exact ⟨rfl, by simp [setC, setQ], by simp [setC, setQ, h0], by simp [setC, setQ, h1], rfl⟩
  · intro hc h0 h1 h2
    unfold handleRoundRobinScheduling
    rw [hc, h0, h1, h2]

/-- A free-CPU state with one ready process at level 1. -/
def st7 : SimState := { initState [mkProcess ⟨"A", 0, 5, 1⟩] with rq0 := [0] }

/-- C7 witness: selection picks the level-1 head and resets the level-1
quantum counter at `st7`; a Running process blocks selection. -/
theorem C7_witness :
    (handleRoundRobinScheduling settings1 st7).currentProcess = some 0 ∧
    getC (handleRoundRobinScheduling settings1 st7) 0 = settings1.quantum 0 ∧
    handleRoundRobinScheduling settings1 { st7 with currentProcess := some 0 } =
      { st7 with currentProcess := some 0 } := by
  have h := C7_selection settings1 st7
  have h2 := (C7_selection settings1 { st7 with currentProcess := some 0 }).1 0 rfl
  exact ⟨(h.2.1 rfl 0 [] rfl).1, (h.2.1 rfl 0 [] rfl).2.2.2.2, h2⟩

/-! ### Claim C9: a process with arrivalTime 0 never arrives -/

theorem getP_withStarted (s : SimState) (b : Bool) (j : Nat) :
    getP { s with simulationStarted := b } j = getP s j := rfl

theorem getQ_withStarted (s : SimState) (b : Bool) (m : Nat) :
    getQ { s with simulationStarted := b } m = getQ s m := by
  rcases m with _ | _ | _ | m <;> rfl

theorem arrivalsGo_keep {s : SimState} {j : Nat} (l : List Nat)
    (hm : ∀ m, j ∉ getQ s m)
    (hja : (getP s j).arrivalTime ≠ (s.currentTime : Int)) :
    ∀ m, j ∉ getQ (arrivalsGo s l) m := by
  induction l generalizing s with
  | nil => exact hm
  | cons x rest ih =>
    simp only [arrivalsGo]
    split
    · next hcond =>
      have hxj : j ≠ x := by
        intro hh
        subst hh
        exact hja hcond.1
      refine ih ?_ ?_
      · intro m hmem
        have hq : getQ { pushQ s (qidx (getP s x).priority) x with
            arrivedProcesses := (getP s x).name :: s.arrivedProcesses } m =
            getQ (pushQ s (qidx (getP s x).priority) x) m := getQ_eq_of_rq rfl rfl rfl m
        rw [hq, mem_getQ_pushQ hxj] at hmem
        exact hm m hmem
      · have hp : getP { pushQ s (qidx (getP s x).priority) x with
            arrivedProcesses := (getP s x).name :: s.arrivedProcesses } j = getP s j := by
          unfold getP
          simp
        have ht : ({ pushQ s (qidx (getP s x).priority) x with
            arrivedProcesses := (getP s x).name :: s.arrivedProcesses } : SimState).currentTime =
            s.currentTime := by simp
        rw [hp, ht]
        exact hja
    · exact ih hm hja

theorem executeCurrent_getP {s : SimState} {j : Nat}
    (h : ∀ k, s.currentProcess = some k → k ≠ j) :
    getP (executeCurrent s) j = getP s j := by
  unfold executeCurrent
  cases hc : s.currentProcess with
  | none => rfl
  | some k =>
    dsimp only
    rw [getP_setC, getP_setP_ne (h k hc)]

theorem bumpWaiting_getP_notmem {s : SimState} {j : Nat} (l : List Nat) (hl : j ∉ l) :
    getP (bumpWaiting s l) j = getP s j := by
  induction l generalizing s with
  | nil => rfl
  | cons x rest ih =>
    simp only [bumpWaiting]
    have hxj : x ≠ j := fun hh => hl (by rw [hh]; exact List.mem_cons_self j rest)
    have := ih (s := setP s x { getP s x with waitingTime := (getP s x).waitingTime + 1 })
      (fun hh => hl (List.mem_cons_of_mem x hh))
    rw [this, getP_setP_ne hxj]

theorem waitAccrual_getP_notmem {s : SimState} {j : Nat} (hm : ∀ m, j ∉ getQ s m) :
    getP (waitAccrual s) j = getP s j := by
  simp only [waitAccrual]
  obtain ⟨-, -, -, -, -, -, hq1, -, -⟩ := bumpWaiting_preserves s (getQ s 0)
  obtain ⟨-, -, -, -, -, -, hq2, -, -⟩ :=
    bumpWaiting_preserves (bumpWaiting s (getQ s 0)) (getQ (bumpWaiting s (getQ s 0)) 1)
  have e1 := bumpWaiting_getP_notmem (s := s) (getQ s 0) (hm 0)
  have e2 := bumpWaiting_getP_notmem (s := bumpWaiting s (getQ s 0))
    (getQ (bumpWaiting s (getQ s 0)) 1) (by rw [hq1 1]; exact hm 1)
  have e3 := bumpWaiting_getP_notmem
    (s := bumpWaiting (bumpWaiting s (getQ s 0)) (getQ (bumpWaiting s (getQ s 0)) 1))
    (getQ (bumpWaiting (bumpWaiting s (getQ s 0)) (getQ (bumpWaiting s (getQ s 0)) 1)) 2)
    (by rw [hq2 2, hq1 2]; exact hm 2)
  exact e3.trans (e2.trans e1)

theorem waitAccrual_queues (s : SimState) : ∀ m, getQ (waitAccrual s) m = getQ s m :=
  (waitAccrual_preserves s).2.2.2.2.2.2.1

theorem completionAndQuantum_notmem {s : SimState} {j : Nat}
    (hm : ∀ m, j ∉ getQ s m) (hc : ∀ k, s.currentProcess = some k → k ≠ j) :
    ∀ m, j ∉ getQ (completionAndQuantum s) m := by
  unfold completionAndQuantum
  cases hcur : s.currentProcess with
  | none => exact hm
  | some k =>
    dsimp only
    have hkj : k ≠ j := hc k hcur
    by_cases h1 : (getP s k).remainingTime ≤ 0
    · rw [if_pos h1]
      intro m
      rw [getQ_withCurrent]
      exact hm m
    · rw [if_neg h1]
      by_cases h2 : getC s (qidx (getP s k).priority) ≤ 0
      · rw [if_pos h2]
        intro m
        rw [getQ_withCurrent, mem_getQ_pushQ (fun hh => hkj hh.symm)]
        exact hm m
      · rw [if_neg h2]
        exact hm

theorem completionAndQuantum_current (s : SimState) :
    (completionAndQuantum s).currentProcess = s.currentProcess ∨
    (completionAndQuantum s).currentProcess = none := by
  unfold completionAndQuantum
  cases hcur : s.currentProcess with
  | none => exact Or.inl hcur
  | some k =>
    dsimp only
    by_cases h1 : (getP s k).remainingTime ≤ 0
    · rw [if_pos h1]
      exact Or.inr rfl
    · rw [if_neg h1]
      by_cases h2 : getC s (qidx (getP s k).priority) ≤ 0
      · rw [if_pos h2]
        exact Or.inr rfl
      · rw [if_neg h2]
        exact Or.inl (by rw [hcur])

theorem handleRR_queues_subset (settings : Settings) (s : SimState) :
    ∀ m j, j ∈ getQ (handleRoundRobinScheduling settings s) m → j ∈ getQ s m := by
  unfold handleRoundRobinScheduling
  cases hc : s.currentProcess with
  | some k => exact fun m j h => h
  | none =>
    cases h0 : s.rq0 with
    | cons x rest =>
      intro m j h
      rcases m with _ | _ | _ | m
      · have hmem : j ∈ rest := h
        show j ∈ s.rq0
        rw [h0]
        exact List.mem_cons_of_mem x hmem
      · exact h
      · exact h
      · exact h
    | nil =>
      cases h1 : s.rq1 with
      | cons x rest =>
        intro m j h
        rcases m with _ | _ | _ | m
        · exact h
        · have hmem : j ∈ rest := h
          show j ∈ s.rq1
          rw [h1]
          exact List.mem_cons_of_mem x hmem
        · exact h
        · exact h
      | nil =>
        cases h2 : s.rq2 with
        | cons x rest =>
          intro m j h
          rcases m with _ | _ | _ | m
          · exact h
          · exact h
          · have hmem : j ∈ rest := h
            show j ∈ s.rq2
            rw [h2]
            exact List.mem_cons_of_mem x hmem
          · exact h
        | nil => exact fun m j h => h

theorem handleRR_current_source (settings : Settings) (s : SimState) :
    ∀ k, (handleRoundRobinScheduling settings s).currentProcess = some k →
      s.currentProcess = some k ∨ k ∈ s.rq0 ∨ k ∈ s.rq1 ∨ k ∈ s.rq2 := by
  unfold handleRoundRobinScheduling
  cases hc : s.currentProcess with
  | some x => exact fun k h => Or.inl (hc.symm.trans (show s.currentProcess = some k by exact h))
  | none =>
    cases h0 : s.rq0 with
    | cons x rest =>
      intro k h
      have hxk : some x = some k := h
      injection hxk with hxk
      right; left
      rw [← hxk]
      exact List.mem_cons_self x rest
    | nil =>
      cases h1 : s.rq1 with
      | cons x rest =>
        intro k h
        have hxk : some x = some k := h
        injection hxk with hxk
        right; right; left
        rw [← hxk]
        exact List.mem_cons_self x rest
      | nil =>
        cases h2 : s.rq2 with
        | cons x rest =>
          intro k h
          have hxk : some x = some k := h
          injection hxk with hxk
          right; right; right
          rw [← hxk]
          exact List.mem_cons_self x rest
        | nil =>
          exact fun k h => Or.inl (hc.symm.trans (show s.currentProcess = some k by exact h))

/-- One tick keeps an arrival-time-0 process entirely out of the
engine: it is not enqueued (the clock is incremented before the arrival
scan, so `arrivalTime == currentTime` can never hold for it), it never
becomes Running, and its process object is never mutated. -/
theorem notArrived_step (settings : Settings) (s : SimState) (j : Nat)
    (hm : ∀ m, j ∉ getQ s m)
    (hc : ∀ k, s.currentProcess = some k → k ≠ j)
    (ha : (getP s j).arrivalTime = 0) :
    (∀ m, j ∉ getQ (nextStep settings s) m) ∧
    (∀ k, (nextStep settings s).currentProcess = some k → k ≠ j) ∧
    getP (nextStep settings s) j = getP s j ∧
    (nextStep settings s).processes.length = s.processes.length := by
  unfold nextStep
  by_cases hs : s.simulationStarted = false
  · rw [if_pos hs]
    exact ⟨hm, hc, rfl, rfl⟩
  · rw [if_neg hs]
    dsimp only
    obtain ⟨ap, acur, -, -, -, -, -⟩ :=
      handleProcessArrivals_preserves { s with currentTime := s.currentTime + 1 }
    have hm1 : ∀ m, j ∉ getQ (handleProcessArrivals
        { s with currentTime := s.currentTime + 1 }) m := by
      apply arrivalsGo_keep
      · intro m
        have hq : getQ ({ s with currentTime := s.currentTime + 1 } : SimState) m =
            getQ s m := getQ_eq_of_rq rfl rfl rfl m
        rw [hq]
        exact hm m
      · show (getP s j).arrivalTime ≠ ((s.currentTime + 1 : Nat) : Int)
        rw [ha]
        omega
    have hc1 : ∀ k, (handleProcessArrivals
        { s with currentTime := s.currentTime + 1 }).currentProcess = some k → k ≠ j := by
      intro k hk
      rw [acur] at hk
      exact hc k hk
    have hp1 : getP (handleProcessArrivals
        { s with currentTime := s.currentTime + 1 }) j = getP s j :=
      getP_eq_of_processes ap j
    have hl1 : (handleProcessArrivals
        { s with currentTime := s.currentTime + 1 }).processes.length =
        s.processes.length := by rw [ap]
    generalize hA : handleProcessArrivals { s with currentTime := s.currentTime + 1 } = A
      at hm1 hc1 hp1 hl1 ⊢
    obtain ⟨bcur, -, -, -, -, -, bq, bl⟩ := executeCurrent_preserves A
    have hm2 : ∀ m, j ∉ getQ (executeCurrent A) m := fun m hh => hm1 m ((bq m) ▸ hh)
    have hc2 : ∀ k, (executeCurrent A).currentProcess = some k → k ≠ j := by
      intro k hk
      rw [bcur] at hk
      exact hc1 k hk
    have hp2 : getP (executeCurrent A) j = getP s j := (executeCurrent_getP hc1).trans hp1
    have hl2 : (executeCurrent A).processes.length = s.processes.length := bl.trans hl1
    generalize hB : executeCurrent A = B at hm2 hc2 hp2 hl2 ⊢
    obtain ⟨ccur, -, -, -, -, -, cq, -, cl⟩ := waitAccrual_preserves B
    have hm3 : ∀ m, j ∉ getQ (waitAccrual B) m := fun m hh => hm2 m ((cq m) ▸ hh)
    have hc3 : ∀ k, (waitAccrual B).currentProcess = some k → k ≠ j := by
      intro k hk
      rw [ccur] at hk
      exact hc2 k hk
    have hp3 : getP (waitAccrual B) j = getP s j :=
      (waitAccrual_getP_notmem hm2).trans hp2
    have hl3 : (waitAccrual B).processes.length = s.processes.length := cl.trans hl2
    generalize hC : waitAccrual B = C at hm3 hc3 hp3 hl3 ⊢
    obtain ⟨dp, dcur, -, -, -, dq, -⟩ := updateGanttChart_preserves C
    have hm4 : ∀ m, j ∉ getQ (updateGanttChart C) m := fun m hh => hm3 m ((dq m) ▸ hh)
    have hc4 : ∀ k, (updateGanttChart C).currentProcess = some k → k ≠ j := by
      intro k hk
      rw [dcur] at hk
      exact hc3 k hk
    have hp4 : getP (updateGanttChart C) j = getP s j :=
      (getP_eq_of_processes dp j).trans hp3
    have hl4 : (updateGanttChart C).processes.length = s.processes.length := by
      rw [dp]; exact hl3
    generalize hD : updateGanttChart C = D at hm4 hc4 hp4 hl4 ⊢
    obtain ⟨ep, -, -, -, -, -, -⟩ := completionAndQuantum_preserves D
    have hm5 : ∀ m, j ∉ getQ (completionAndQuantum D) m := completionAndQuantum_notmem hm4 hc4
    have hc5 : ∀ k, (completionAndQuantum D).currentProcess = some k → k ≠ j := by
      intro k hk
      rcases completionAndQuantum_current D with h | h
      · rw [h] at hk
        exact hc4 k hk
      · rw [h] at hk
        cases hk
    have hp5 : getP (completionAndQuantum D) j = getP s j :=
      (getP_eq_of_processes ep j).trans hp4
    have hl5 : (completionAndQuantum D).processes.length = s.processes.length := by
      rw [ep]; exact hl4
    generalize hE : completionAndQuantum D = E at hm5 hc5 hp5 hl5 ⊢
    obtain ⟨fo1, fo2⟩ :=
      handleAgingAndStarvation_outside settings (s := E) (hm5 0) (hm5 1) (hm5 2) hc5
    have hc6 : ∀ k, (handleAgingAndStarvation settings E).currentProcess = some k → k ≠ j := by
      intro k hk
      rcases handleAgingAndStarvation_current settings E with h | h
      · rw [h] at hk
        exact hc5 k hk
      · rw [h] at hk
        cases hk
    have hp6 : getP (handleAgingAndStarvation settings E) j = getP s j := fo1.trans hp5
    have hl6 : (handleAgingAndStarvation settings E).processes.length = s.processes.length :=
      ((handleAgingAndStarvation_preserves settings E).2.2.2.2.2.2).trans hl5
    generalize hF : handleAgingAndStarvation settings E = F at fo2 hc6 hp6 hl6 ⊢
    have hm7 : ∀ m, j ∉ getQ (handleRoundRobinScheduling settings F) m :=
      fun m hh => fo2 m (handleRR_queues_subset settings F m j hh)
    have hc7 : ∀ k, (handleRoundRobinScheduling settings F).currentProcess = some k → k ≠ j := by
      intro k hk
      rcases handleRR_current_source settings F k hk with h | h | h | h
      · exact hc6 k h
      · intro hkj
        exact fo2 0 (hkj ▸ h)
      · intro hkj
        exact fo2 1 (hkj ▸ h)
      · intro hkj
        exact fo2 2 (hkj ▸ h)
    have hp7 : getP (handleRoundRobinScheduling settings F) j = getP s j :=
      (getP_eq_of_processes (handleRoundRobinScheduling_preserves settings F).1 j).trans hp6
    have hl7 : (handleRoundRobinScheduling settings F).processes.length = s.processes.length := by
      rw [(handleRoundRobinScheduling_preserves settings F).1]; exact hl6
    generalize hG : handleRoundRobinScheduling settings F = G at hm7 hc7 hp7 hl7 ⊢
    by_cases hdone : isSimulationComplete G = true
    · rw [if_pos hdone]
      refine ⟨?_, ?_, hp7, hl7⟩
      · intro m
        rw [getQ_withStarted]
        exact hm7 m
      · exact hc7
    · rw [if_neg hdone]
      exact ⟨hm7, hc7, hp7, hl7⟩

/-- A table containing an arrival-time-0 process. -/
def rows9 : List Row := [⟨"Z", 0, 4, 1⟩, ⟨"B", 1, 2, 2⟩]

/-- The started state for `rows9`. -/
def init9 : SimState := initState [mkProcess ⟨"Z", 0, 4, 1⟩, mkProcess ⟨"B", 1, 2, 2⟩]

/-! ### Multiplicity bookkeeping for the aging/starvation scan -/

theorem getQ_oor {lvl : Nat} (h : 3 ≤ lvl) (s : SimState) : getQ s lvl = [] := by
  rcases lvl with _ | _ | _ | n
  · omega
  · omega
  · omega
  · rfl

theorem nodup_append_singleton {l : List Nat} {x : Nat} (h : l.Nodup) (hx : x ∉ l) :
    (l ++ [x]).Nodup := by
  rw [List.nodup_append]
  exact ⟨h, List.nodup_singleton x, by simpa using hx⟩

theorem nodup_getD_ne {l : List Nat} (h : l.Nodup) {a b : Nat} (ha : a < l.length)
    (hb : b < l.length) (hab : a ≠ b) : l.getD a 0 ≠ l.getD b 0 := by
  rw [List.getD_eq_getElem l 0 ha, List.getD_eq_getElem l 0 hb]
  intro heq
  exact hab (List.Nodup.getElem_inj_iff h |>.mp heq)

theorem count_eraseIdx_getD {l : List Nat} {i : Nat} (h : i < l.length) (x : Nat) :
    (l.eraseIdx i).count x + (if l.getD i 0 = x then 1 else 0) = l.count x := by
  have hperm := perm_getD_cons_eraseIdx h 0
  have := hperm.count_eq x
  rw [List.count_cons] at this
  simp only [beq_iff_eq] at this
  omega

theorem count_members_split (s : SimState) (x : Nat) :
    (queueMembers s).count x =
      (getQ s 0).count x + (getQ s 1).count x + (getQ s 2).count x := by
  show (s.rq0 ++ s.rq1 ++ s.rq2).count x = _
  simp [List.count_append, getQ]
  omega

theorem count_members_setQ_eraseIdx (s : SimState) {lvl i : Nat} (hlvl : lvl < 3)
    (hi : i < (getQ s lvl).length) (x : Nat) :
    (queueMembers (setQ s lvl ((getQ s lvl).eraseIdx i))).count x +
      (if (getQ s lvl).getD i 0 = x then 1 else 0) = (queueMembers s).count x := by
  have hcnt := count_eraseIdx_getD hi x
  rw [count_members_split, count_members_split]
  interval_cases lvl <;>
    rw [getQ_setQ_self (by omega), getQ_setQ_ne (by omega), getQ_setQ_ne (by omega)] <;>
    omega

theorem count_members_pushQ_le (s : SimState) (tgt e x : Nat) :
    (queueMembers (pushQ s tgt e)).count x ≤
      (queueMembers s).count x + (if e = x then 1 else 0) := by
  by_cases htgt : tgt < 3
  · rw [count_members_split, count_members_split]
    have hself := getQ_pushQ_self htgt s e
    interval_cases tgt <;>
      rw [hself, getQ_pushQ_ne (by omega), getQ_pushQ_ne (by omega), List.count_append] <;>
      simp only [List.count_singleton, beq_iff_eq] <;>
      omega
  · rw [pushQ_oor (by omega)]
    omega

theorem queueMembers_setP (s : SimState) (e : Nat) (p : Process) :
    queueMembers (setP s e p) = queueMembers s := rfl

theorem count_members_examineAt (settings : Settings) (lvl i : Nat) (s : SimState) (x : Nat) :
    (queueMembers (examineAt settings lvl i s)).count x ≤ (queueMembers s).count x := by
  unfold examineAt
  by_cases hi : i < (getQ s lvl).length
  · rw [if_pos hi]
    dsimp only
    have hlvl : lvl < 3 := by
      by_contra hge
      rw [getQ_oor (by omega)] at hi
      simp at hi
    have hkey : ∀ (p : Process) (tgt : Nat),
        (queueMembers (pushQ (setP (setQ s lvl ((getQ s lvl).eraseIdx i))
          ((getQ s lvl).getD i 0) p) tgt ((getQ s lvl).getD i 0))).count x ≤
        (queueMembers s).count x := by
      intro p tgt
      have h1 := count_members_pushQ_le
        (setP (setQ s lvl ((getQ s lvl).eraseIdx i)) ((getQ s lvl).getD i 0) p)
        tgt ((getQ s lvl).getD i 0) x
      rw [queueMembers_setP] at h1
      have h2 := count_members_setQ_eraseIdx s hlvl hi x
      omega
    by_cases h1 : (getP s ((getQ s lvl).getD i 0)).waitingTime ≥ settings.starvationInterval ∧
        (getP s ((getQ s lvl).getD i 0)).priority > 1
    · rw [if_pos h1]
      exact hkey _ _
    · rw [if_neg h1]
      by_cases h2 : (getP s ((getQ s lvl).getD i 0)).processingTime ≥ settings.agingInterval ∧
          (getP s ((getQ s lvl).getD i 0)).priority < 3
      · rw [if_pos h2]
        exact hkey _ _
      · rw [if_neg h2]
  · rw [if_neg hi]

theorem nodup_members_examineAt (settings : Settings) (lvl i : Nat) {s : SimState}
    (h : (queueMembers s).Nodup) : (queueMembers (examineAt settings lvl i s)).Nodup := by
  rw [List.nodup_iff_count_le_one] at h ⊢
  intro a
  exact le_trans (count_members_examineAt settings lvl i s a) (h a)

theorem nodup_members_scanDown (settings : Settings) (lvl : Nat) (n : Nat) {s : SimState}
    (h : (queueMembers s).Nodup) : (queueMembers (scanDown settings lvl n s)).Nodup := by
  induction n generalizing s with
  | zero => exact h
  | succ n ih => exact ih (nodup_members_examineAt settings lvl n h)

theorem nodup_queue_of_members {s : SimState} (h : (queueMembers s).Nodup) (lvl : Nat) :
    (getQ s lvl).Nodup := by
  have h01 : (s.rq0 ++ s.rq1).Nodup ∧ s.rq2.Nodup := by
    have hflat : ((s.rq0 ++ s.rq1) ++ s.rq2).Nodup := h
    rw [List.nodup_append] at hflat
    exact ⟨hflat.1, hflat.2.1⟩
  have h0 : s.rq0.Nodup ∧ s.rq1.Nodup := by
    have := h01.1
    rw [List.nodup_append] at this
    exact ⟨this.1, this.2.1⟩
  rcases lvl with _ | _ | _ | n
  · exact h0.1
  · exact h0.2
  · exact h01.2
  · exact List.nodup_nil

theorem queue_disjoint {s : SimState} (h : (queueMembers s).Nodup) {j lvl m : Nat}
    (hne : lvl ≠ m) (hj : j ∈ getQ s lvl) : j ∉ getQ s m := by
  by_cases hm3 : m < 3
  · by_cases hl3 : lvl < 3
    · have hflat : ((s.rq0 ++ s.rq1) ++ s.rq2).Nodup := h
      rw [List.nodup_append] at hflat
      have hd2 := hflat.2.2
      have h01 := hflat.1
      rw [List.nodup_append] at h01
      have hd1 := h01.2.2
      intro hjm
      rcases lvl with _ | _ | _ | l <;> rcases m with _ | _ | _ | m
      all_goals first
        | exact hne rfl
        | omega
        | exact hd1 hj hjm
        | exact hd1 hjm hj
        | exact hd2 (List.mem_append_left _ hj) hjm
        | exact hd2 (List.mem_append_right _ hj) hjm
        | exact hd2 (List.mem_append_left _ hjm) hj
        | exact hd2 (List.mem_append_right _ hjm) hj
    · rw [getQ_oor (by omega)] at hj
      cases hj
  · rw [getQ_oor (by omega)]
    simp

/-! ### Tracking a starved process through the scan of its own queue -/

theorem listGetD_append_left {α : Type} {l l' : List α} {k : Nat} (h : k < l.length) (d : α) :
    (l ++ l').getD k d = l.getD k d := by
  rw [List.getD_eq_getElem _ _ (by rw [List.length_append]; omega),
      List.getD_eq_getElem _ _ h]
  exact List.getElem_append_left h

theorem mem_getD_pos {l : List Nat} {j : Nat} (h : j ∈ l) :
    ∃ k, k < l.length ∧ l.getD k 0 = j := by
  obtain ⟨k, hk, he⟩ := List.mem_iff_getElem.mp h
  exact ⟨k, hk, by rw [List.getD_eq_getElem _ _ hk]; exact he⟩

/-- The slot `i` of `readyQueues[lvl]` holds `j` and `j` satisfies the
starvation condition: the examination is exactly the starvation move —
`j` is spliced out of `readyQueues[lvl]`, promoted with `waitingTime`
reset, and `push`ed (appended at the tail) onto the new queue. -/
theorem examineAt_starves (settings : Settings) {lvl i : Nat} {t : SimState} {j : Nat}
    (hi : i < (getQ t lvl).length) (hgd : (getQ t lvl).getD i 0 = j)
    (hstarv : settings.starvationInterval ≤ (getP t j).waitingTime)
    (hpr : 1 < (getP t j).priority) :
    examineAt settings lvl i t =
      pushQ (setP (setQ t lvl ((getQ t lvl).eraseIdx i)) j
          { getP t j with priority := (getP t j).priority - 1, waitingTime := 0 })
        (qidx ((getP t j).priority - 1)) j := by
  unfold examineAt
  rw [if_pos hi]
  dsimp only
  rw [hgd, if_pos ⟨hstarv, hpr⟩]

theorem examineAt_getP_ne (settings : Settings) (lvl n : Nat) {s : SimState} {j : Nat}
    (hne : (getQ s lvl).getD n 0 ≠ j) :
    getP (examineAt settings lvl n s) j = getP s j := by
  unfold examineAt
  by_cases hn : n < (getQ s lvl).length
  · rw [if_pos hn]
    dsimp only
    by_cases h1 : (getP s ((getQ s lvl).getD n 0)).waitingTime ≥ settings.starvationInterval ∧
        (getP s ((getQ s lvl).getD n 0)).priority > 1
    · rw [if_pos h1, getP_pushQ, getP_setP_ne hne, getP_setQ]
    · rw [if_neg h1]
      by_cases h2 : (getP s ((getQ s lvl).getD n 0)).processingTime ≥ settings.agingInterval ∧
          (getP s ((getQ s lvl).getD n 0)).priority < 3
      · rw [if_pos h2, getP_pushQ, getP_setP_ne hne, getP_setQ]
      · rw [if_neg h2]
  · rw [if_neg hn]

theorem getD_pushQ_setP_setQ_erase (s : SimState) {lvl n k : Nat} (hlvl : lvl < 3)
    (hn : n < (getQ s lvl).length) (hk : k < n) (e : Nat) (p : Process) (tgt : Nat) :
    k < (getQ (pushQ (setP (setQ s lvl ((getQ s lvl).eraseIdx n)) e p) tgt e) lvl).length ∧
    (getQ (pushQ (setP (setQ s lvl ((getQ s lvl).eraseIdx n)) e p) tgt e) lvl).getD k 0 =
      (getQ s lvl).getD k 0 := by
  have herlen : ((getQ s lvl).eraseIdx n).length = (getQ s lvl).length - 1 :=
    List.length_eraseIdx_of_lt hn
  have hklt : k < ((getQ s lvl).eraseIdx n).length := by omega
  have hbase : getQ (setP (setQ s lvl ((getQ s lvl).eraseIdx n)) e p) lvl
      = (getQ s lvl).eraseIdx n := by rw [getQ_setP, getQ_setQ_self hlvl]
  by_cases ht : tgt = lvl
  · subst ht
    rw [getQ_pushQ_self hlvl, hbase]
    refine ⟨by rw [List.length_append]; omega, ?_⟩
    rw [listGetD_append_left hklt, listGetD_eraseIdx_of_lt hk]
  · rw [getQ_pushQ_ne ht, hbase]
    exact ⟨hklt, listGetD_eraseIdx_of_lt hk 0⟩

/-- An examination at a position `n` strictly above `k` leaves slot `k`
of the scanned queue in place (the splice happens at `n`, the push
appends at the tail). -/
theorem examineAt_getD_below (settings : Settings) {lvl n k : Nat} {s : SimState}
    (hn : n < (getQ s lvl).length) (hk : k < n) :
    k < (getQ (examineAt settings lvl n s) lvl).length ∧
    (getQ (examineAt settings lvl n s) lvl).getD k 0 = (getQ s lvl).getD k 0 := by
  have hlvl : lvl < 3 := by
    by_contra h3
    rw [getQ_oor (by omega)] at hn
    simp at hn
  unfold examineAt
  rw [if_pos hn]
  dsimp only
  by_cases h1 : (getP s ((getQ s lvl).getD n 0)).waitingTime ≥ settings.starvationInterval ∧
      (getP s ((getQ s lvl).getD n 0)).priority > 1
  · rw [if_pos h1]
    exact getD_pushQ_setP_setQ_erase s hlvl hn hk _ _ _
  · rw [if_neg h1]
    by_cases h2 : (getP s ((getQ s lvl).getD n 0)).processingTime ≥ settings.agingInterval ∧
        (getP s ((getQ s lvl).getD n 0)).priority < 3
    · rw [if_pos h2]
      exact getD_pushQ_setP_setQ_erase s hlvl hn hk _ _ _
    · rw [if_neg h2]
      exact ⟨by omega, rfl⟩

/-- Tracking lemma for the descending scan: if slot `k < n` of
`readyQueues[lvl]` holds a process `j` that satisfies the starvation
condition, and the store indices in the queues are duplicate-free, then
the scan of positions `n-1 … 0` promotes `j` exactly once: afterwards
`j`'s record is the old one with `priority` one lower and `waitingTime`
zero (all other fields untouched — in particular no aging demotion also
fired), and `j` sits in the new queue and no longer in the scanned
one. -/
theorem scanDown_track (settings : Settings) {lvl : Nat} (hlvl : lvl < 3) (n : Nat)
    {s : SimState} {j : Nat}
    (hnod : (queueMembers s).Nodup)
    (hjlen : j < s.processes.length)
    (hpos : ∃ k, k < n ∧ k < (getQ s lvl).length ∧ (getQ s lvl).getD k 0 = j)
    (hstarv : settings.starvationInterval ≤ (getP s j).waitingTime)
    (hpr : 1 < (getP s j).priority)
    (htgt : qidx ((getP s j).priority - 1) ≠ lvl)
    (htgt3 : qidx ((getP s j).priority - 1) < 3) :
    getP (scanDown settings lvl n s) j =
      { getP s j with priority := (getP s j).priority - 1, waitingTime := 0 } ∧
    j ∈ getQ (scanDown settings lvl n s) (qidx ((getP s j).priority - 1)) ∧
    j ∉ getQ (scanDown settings lvl n s) lvl := by
  revert hnod hjlen hpos hstarv hpr htgt htgt3
  induction n generalizing s with
  | zero =>
    intro _ _ hpos _ _ _ _
    obtain ⟨k, hk, -, -⟩ := hpos
    omega
  | succ n ih =>
    intro hnod hjlen hpos hstarv hpr htgt htgt3
    obtain ⟨k, hkn, hklen, hkj⟩ := hpos
    simp only [scanDown]
    by_cases hke : k = n
    · subst hke
      rw [examineAt_starves settings hklen hkj hstarv hpr]
      have hj2 : j < (setQ s lvl ((getQ s lvl).eraseIdx k)).processes.length := by
        rw [processes_setQ]; exact hjlen
      have hQfire : getQ (pushQ (setP (setQ s lvl ((getQ s lvl).eraseIdx k)) j
            { getP s j with priority := (getP s j).priority - 1, waitingTime := 0 })
          (qidx ((getP s j).priority - 1)) j) lvl = (getQ s lvl).eraseIdx k := by
        rw [getQ_pushQ_ne htgt, getQ_setP, getQ_setQ_self hlvl]
      have hnotin : j ∉ getQ (pushQ (setP (setQ s lvl ((getQ s lvl).eraseIdx k)) j
            { getP s j with priority := (getP s j).priority - 1, waitingTime := 0 })
          (qidx ((getP s j).priority - 1)) j) lvl := by
        rw [hQfire]
        exact not_mem_eraseIdx_self (nodup_queue_of_members hnod lvl) hklen hkj
      obtain ⟨u1, u2⟩ := scanDown_untouched settings k hnotin
      refine ⟨?_, ?_, ?_⟩
      · rw [u1, getP_pushQ, getP_setP_self hj2]
      · refine (u2 _).mpr ?_
        rw [getQ_pushQ_self htgt3]
        exact List.mem_append_right _ (by simp)
      · intro hin
        exact hnotin ((u2 lvl).mp hin)
    · have hkn2 : k < n := by omega
      by_cases hn : n < (getQ s lvl).length
      · have hne : (getQ s lvl).getD n 0 ≠ j := by
          rw [← hkj]
          exact nodup_getD_ne (nodup_queue_of_members hnod lvl) hn hklen (by omega)
        have hP := examineAt_getP_ne settings lvl n hne
        obtain ⟨hlen2, hgd2⟩ := examineAt_getD_below settings hn hkn2
        have hnod2 := nodup_members_examineAt settings lvl n hnod
        have hjlen2 : j < (examineAt settings lvl n s).processes.length := by
          rw [(examineAt_preserves settings lvl n s).2.2.2.2.2.2.2]; exact hjlen
        have hpos2 : ∃ k2, k2 < n ∧ k2 < (getQ (examineAt settings lvl n s) lvl).length ∧
            (getQ (examineAt settings lvl n s) lvl).getD k2 0 = j :=
          ⟨k, hkn2, hlen2, by rw [hgd2, hkj]⟩
        have hstarv2 : settings.starvationInterval ≤
            (getP (examineAt settings lvl n s) j).waitingTime := by rw [hP]; exact hstarv
        have hpr2 : 1 < (getP (examineAt settings lvl n s) j).priority := by
          rw [hP]; exact hpr
        have htgt2 : qidx ((getP (examineAt settings lvl n s) j).priority - 1) ≠ lvl := by
          rw [hP]; exact htgt
        have htgt32 : qidx ((getP (examineAt settings lvl n s) j).priority - 1) < 3 := by
          rw [hP]; exact htgt3
        obtain ⟨c1, c2, c3⟩ := ih hnod2 hjlen2 hpos2 hstarv2 hpr2 htgt2 htgt32
        rw [hP] at c1 c2
        exact ⟨c1, c2, c3⟩
      · have hid : examineAt settings lvl n s = s := by
          unfold examineAt
          rw [if_neg hn]
        rw [hid]
        exact ih hnod hjlen ⟨k, hkn2, hklen, hkj⟩ hstarv hpr htgt htgt3

/-- The concluding current-process check of the aging pass does not
touch any index other than the running one. -/
theorem agingCurrent_other (settings : Settings) {s : SimState} {j : Nat}
    (h : s.currentProcess ≠ some j) :
    getP (agingCurrent settings s) j = getP s j ∧
    (∀ m, j ∈ getQ (agingCurrent settings s) m ↔ j ∈ getQ s m) := by
  unfold agingCurrent
  cases hc : s.currentProcess with
  | none => exact ⟨rfl, fun m => Iff.rfl⟩
  | some k =>
    have hkj : k ≠ j := fun he => h (he ▸ hc)
    dsimp only
    by_cases h1 : (getP s k).processingTime ≥ settings.agingInterval ∧ (getP s k).priority < 3
    · rw [if_pos h1]
      refine ⟨?_, fun m => ?_⟩
      · rw [getP_withCurrent, getP_pushQ, getP_setP_ne hkj]
      · rw [getQ_withCurrent, mem_getQ_pushQ (fun he => hkj he.symm), getQ_setP]
    · rw [if_neg h1]
      exact ⟨rfl, fun m => Iff.rfl⟩

/-! ### C6: starvation promotion in the aging/starvation pass -/

/-- C6: in the aging/starvation pass (`handleAgingAndStarvation`) a
ready process `j` whose `waitingTime` has reached `starvationInterval`
and whose `priority` is above 1 is promoted by exactly one level with
`waitingTime` reset to 0 and every other field untouched — in
particular `processingTime` is unchanged, so the promoted process was
not also demoted by aging in the same pass (starvation is the first
branch of the examination, aging only its `else`) — and it is moved out
of its old queue into the next-higher-priority queue; the move itself
is the splice-and-tail-`push` of the first conjunct.  The hypotheses
are wellformedness facts of started runs (duplicate-free queue indices,
`j` a valid store index, the running process not also queued, `j`'s
queue matching its priority). -/
theorem C6_starvation_promotes (settings : Settings) (s : SimState) (j lvl : Nat)
    (hnod : (queueMembers s).Nodup)
    (hjlen : j < s.processes.length)
    (hcur : s.currentProcess ≠ some j)
    (hmem : j ∈ getQ s lvl)
    (hcons : (getP s j).priority = (lvl : Int) + 1)
    (hstarv : settings.starvationInterval ≤ (getP s j).waitingTime)
    (hpr : 1 < (getP s j).priority) :
    (∀ (t : SimState) (i : Nat), i < (getQ t lvl).length → (getQ t lvl).getD i 0 = j →
        settings.starvationInterval ≤ (getP t j).waitingTime → 1 < (getP t j).priority →
        examineAt settings lvl i t =
          pushQ (setP (setQ t lvl ((getQ t lvl).eraseIdx i)) j
              { getP t j with priority := (getP t j).priority - 1, waitingTime := 0 })
            (qidx ((getP t j).priority - 1)) j) ∧
    getP (handleAgingAndStarvation settings s) j =
      { getP s j with priority := (getP s j).priority - 1, waitingTime := 0 } ∧
    j ∈ getQ (handleAgingAndStarvation settings s) (lvl - 1) ∧
    j ∉ getQ (handleAgingAndStarvation settings s) lvl := by
  have hlvl3 : lvl < 3 := by
    by_contra h3
    rw [getQ_oor (by omega)] at hmem
    simp at hmem
  have hlvl1 : 1 ≤ lvl := by
    rw [hcons] at hpr
    omega
  have htgtval : qidx ((getP s j).priority - 1) = lvl - 1 := by
    rw [hcons]
    unfold qidx
    omega
  have htgt : qidx ((getP s j).priority - 1) ≠ lvl := by rw [htgtval]; omega
  have htgt3 : qidx ((getP s j).priority - 1) < 3 := by rw [htgtval]; omega
  refine ⟨fun t i hi hgd hst hp => examineAt_starves settings hi hgd hst hp, ?_⟩
  simp only [handleAgingAndStarvation]
  interval_cases lvl
  · -- level 1: the first scan leaves j alone, the second promotes it
    -- into queue 0, the third and the current-process check leave it
    -- alone.
    have hd0 : j ∉ getQ s 0 := queue_disjoint hnod (by omega) hmem
    obtain ⟨u1, u2⟩ := scanDown_untouched settings (getQ s 0).length hd0
    have hnod1 := nodup_members_scanDown settings 0 (getQ s 0).length hnod
    have hjlen1 : j < (scanDown settings 0 (getQ s 0).length s).processes.length := by
      rw [(scanDown_preserves settings 0 (getQ s 0).length s).2.2.2.2.2.2.2]
      exact hjlen
    have hcur1 : (scanDown settings 0 (getQ s 0).length s).currentProcess ≠ some j := by
      rw [(scanDown_preserves settings 0 (getQ s 0).length s).1]
      exact hcur
    generalize hs1 : scanDown settings 0 (getQ s 0).length s = s1
    rw [hs1] at u1 u2 hnod1 hjlen1 hcur1
    have hmem1 : j ∈ getQ s1 1 := (u2 1).mpr hmem
    obtain ⟨k, hk, hkj⟩ := mem_getD_pos hmem1
    have hstarv1 : settings.starvationInterval ≤ (getP s1 j).waitingTime := by
      rw [u1]; exact hstarv
    have hpr1 : 1 < (getP s1 j).priority := by rw [u1]; exact hpr
    have htgt1 : qidx ((getP s1 j).priority - 1) ≠ 1 := by rw [u1]; exact htgt
    have htgt31 : qidx ((getP s1 j).priority - 1) < 3 := by rw [u1]; exact htgt3
    obtain ⟨t1, t2, t3⟩ := scanDown_track settings (show (1:Nat) < 3 by omega)
      (getQ s1 1).length hnod1 hjlen1 ⟨k, hk, hk, hkj⟩ hstarv1 hpr1 htgt1 htgt31
    have hnod2 := nodup_members_scanDown settings 1 (getQ s1 1).length hnod1
    have hcur2 : (scanDown settings 1 (getQ s1 1).length s1).currentProcess ≠ some j := by
      rw [(scanDown_preserves settings 1 (getQ s1 1).length s1).1]
      exact hcur1
    generalize hs2 : scanDown settings 1 (getQ s1 1).length s1 = s2
    rw [hs2] at t1 t2 t3 hnod2 hcur2
    rw [u1] at t1 t2
    rw [htgtval] at t2
    have hd2 : j ∉ getQ s2 2 := queue_disjoint hnod2 (show 1 - 1 ≠ 2 by omega) t2
    obtain ⟨v1, v2⟩ := scanDown_untouched settings (getQ s2 2).length hd2
    have hcur3 : (scanDown settings 2 (getQ s2 2).length s2).currentProcess ≠ some j := by
      rw [(scanDown_preserves settings 2 (getQ s2 2).length s2).1]
      exact hcur2
    generalize hs3 : scanDown settings 2 (getQ s2 2).length s2 = s3
    rw [hs3] at v1 v2 hcur3
    obtain ⟨w1, w2⟩ := agingCurrent_other settings hcur3
    refine ⟨?_, ?_, ?_⟩
    · rw [w1, v1, t1]
    · exact (w2 _).mpr ((v2 _).mpr t2)
    · intro hin
      exact t3 ((v2 1).mp ((w2 1).mp hin))
  · -- level 2: the first two scans leave j alone, the third promotes
    -- it into queue 1, the current-process check leaves it alone.
    have hd0 : j ∉ getQ s 0 := queue_disjoint hnod (by omega) hmem
    obtain ⟨u1, u2⟩ := scanDown_untouched settings (getQ s 0).length hd0
    have hnod1 := nodup_members_scanDown settings 0 (getQ s 0).length hnod
    have hjlen1 : j < (scanDown settings 0 (getQ s 0).length s).processes.length := by
      rw [(scanDown_preserves settings 0 (getQ s 0).length s).2.2.2.2.2.2.2]
      exact hjlen
    have hcur1 : (scanDown settings 0 (getQ s 0).length s).currentProcess ≠ some j := by
      rw [(scanDown_preserves settings 0 (getQ s 0).length s).1]
      exact hcur
    generalize hs1 : scanDown settings 0 (getQ s 0).length s = s1
    rw [hs1] at u1 u2 hnod1 hjlen1 hcur1
    have hd1 : j ∉ getQ s1 1 := fun hin =>
      queue_disjoint hnod (show (2:Nat) ≠ 1 by omega) hmem ((u2 1).mp hin)
    obtain ⟨x1, x2⟩ := scanDown_untouched settings (getQ s1 1).length hd1
    have hnod2 := nodup_members_scanDown settings 1 (getQ s1 1).length hnod1
    have hjlen2 : j < (scanDown settings 1 (getQ s1 1).length s1).processes.length := by
      rw [(scanDown_preserves settings 1 (getQ s1 1).length s1).2.2.2.2.2.2.2]
      exact hjlen1
    have hcur2 : (scanDown settings 1 (getQ s1 1).length s1).currentProcess ≠ some j := by
      rw [(scanDown_preserves settings 1 (getQ s1 1).length s1).1]
      exact hcur1
    generalize hs2 : scanDown settings 1 (getQ s1 1).length s1 = s2
    rw [hs2] at x1 x2 hnod2 hjlen2 hcur2
    have hmem2 : j ∈ getQ s2 2 := (x2 2).mpr ((u2 2).mpr hmem)
    obtain ⟨k, hk, hkj⟩ := mem_getD_pos hmem2
    have hP2 : getP s2 j = getP s j := x1.trans u1
    have hstarv2 : settings.starvationInterval ≤ (getP s2 j).waitingTime := by
      rw [hP2]; exact hstarv
    have hpr2 : 1 < (getP s2 j).priority := by rw [hP2]; exact hpr
    have htgt2 : qidx ((getP s2 j).priority - 1) ≠ 2 := by rw [hP2]; exact htgt
    have htgt32 : qidx ((getP s2 j).priority - 1) < 3 := by rw [hP2]; exact htgt3
    obtain ⟨t1, t2, t3⟩ := scanDown_track settings (show (2:Nat) < 3 by omega)
      (getQ s2 2).length hnod2 hjlen2 ⟨k, hk, hk, hkj⟩ hstarv2 hpr2 htgt2 htgt32
    have hcur3 : (scanDown settings 2 (getQ s2 2).length s2).currentProcess ≠ some j := by
      rw [(scanDown_preserves settings 2 (getQ s2 2).length s2).1]
      exact hcur2
    generalize hs3 : scanDown settings 2 (getQ s2 2).length s2 = s3
    rw [hs3] at t1 t2 t3 hcur3
    rw [hP2] at t1 t2
    rw [htgtval] at t2
    obtain ⟨w1, w2⟩ := agingCurrent_other settings hcur3
    refine ⟨?_, ?_, ?_⟩
    · rw [w1, t1]
    · exact (w2 _).mpr t2
    · intro hin
      exact t3 ((w2 2).mp hin)

/-- A started-run-like state for the C6 witness: one process of
priority 2 sitting in level 2's queue with `waitingTime` at the
starvation threshold. -/
def st6 : SimState :=
  { initState [⟨"W", 0, 9, 4, 2, 0, 5⟩] with rq1 := [0] }

/-- Witness for C6 at a concrete input: the process is promoted to
priority 1, its `waitingTime` is reset, and it moves from queue 1 to
queue 0. -/
theorem C6_witness :
    getP (handleAgingAndStarvation settings1 st6) 0 =
      { getP st6 0 with priority := (getP st6 0).priority - 1, waitingTime := 0 } ∧
    0 ∈ getQ (handleAgingAndStarvation settings1 st6) 0 ∧
    0 ∉ getQ (handleAgingAndStarvation settings1 st6) 1 := by
  obtain ⟨-, h2, h3, h4⟩ := C6_starvation_promotes settings1 st6 0 1 (by decide) (by decide)
    (by decide) (by decide) (by decide) (by decide) (by decide)
  exact ⟨h2, h3, h4⟩

/-! ### C10: per-tick priority movement is at most one level -/

/-- Case analysis of one examination step as seen by one process record:
untouched, the starvation move fired on it, or the aging move fired on
it (each fire reporting the threshold fact that enabled it). -/
theorem examineAt_getP_cases (settings : Settings) (lvl i : Nat) (s : SimState) (j : Nat) :
    getP (examineAt settings lvl i s) j = getP s j ∨
    (settings.starvationInterval ≤ (getP s j).waitingTime ∧
      getP (examineAt settings lvl i s) j =
        { getP s j with priority := (getP s j).priority - 1, waitingTime := 0 }) ∨
    (settings.agingInterval ≤ (getP s j).processingTime ∧
      getP (examineAt settings lvl i s) j =
        { getP s j with priority := (getP s j).priority + 1, processingTime := 0 }) := by
  by_cases hej : (getQ s lvl).getD i 0 = j
  case neg => exact Or.inl (examineAt_getP_ne settings lvl i hej)
  case pos =>
    unfold examineAt
    by_cases hi : i < (getQ s lvl).length
    · rw [if_pos hi]
      dsimp only
      rw [hej]
      by_cases h1 : (getP s j).waitingTime ≥ settings.starvationInterval ∧
          (getP s j).priority > 1
      · rw [if_pos h1]
        rcases getP_setP_eq_or (setQ s lvl ((getQ s lvl).eraseIdx i)) j j
          { getP s j with priority := (getP s j).priority - 1, waitingTime := 0 }
          with h | ⟨-, h⟩
        · left
          rw [getP_pushQ, h, getP_setQ]
        · right; left
          exact ⟨h1.1, by rw [getP_pushQ, h]⟩
      · rw [if_neg h1]
        by_cases h2 : (getP s j).processingTime ≥ settings.agingInterval ∧
            (getP s j).priority < 3
        · rw [if_pos h2]
          rcases getP_setP_eq_or (setQ s lvl ((getQ s lvl).eraseIdx i)) j j
            { getP s j with priority := (getP s j).priority + 1, processingTime := 0 }
            with h | ⟨-, h⟩
          · left
            rw [getP_pushQ, h, getP_setQ]
          · right; right
            exact ⟨h2.1, by rw [getP_pushQ, h]⟩
        · rw [if_neg h2]
          exact Or.inl rfl
    · rw [if_neg hi]
      exact Or.inl rfl

/-- Same case analysis for the current-process aging check. -/
theorem agingCurrent_getP_cases (settings : Settings) (s : SimState) (j : Nat) :
    getP (agingCurrent settings s) j = getP s j ∨
    (settings.agingInterval ≤ (getP s j).processingTime ∧
      getP (agingCurrent settings s) j =
        { getP s j with priority := (getP s j).priority + 1, processingTime := 0 }) := by
  unfold agingCurrent
  cases hc : s.currentProcess with
  | none => exact Or.inl rfl
  | some k =>
    dsimp only
    by_cases hkj : k = j
    · subst hkj
      by_cases h1 : (getP s k).processingTime ≥ settings.agingInterval ∧
          (getP s k).priority < 3
      · rw [if_pos h1]
        rcases getP_setP_eq_or s k k
          { getP s k with priority := (getP s k).priority + 1, processingTime := 0 }
          with h | ⟨-, h⟩
        · left
          rw [getP_withCurrent, getP_pushQ, h]
        · right
          exact ⟨h1.1, by rw [getP_withCurrent, getP_pushQ, h]⟩
      · rw [if_neg h1]
        exact Or.inl rfl
    · by_cases h1 : (getP s k).processingTime ≥ settings.agingInterval ∧
          (getP s k).priority < 3
      · rw [if_pos h1]
        left
        rw [getP_withCurrent, getP_pushQ, getP_setP_ne hkj]
      · rw [if_neg h1]
        exact Or.inl rfl

/-- The possible shapes of one process record during the
aging/starvation pass, relative to its record `p0` at the start of the
pass: untouched, promoted once (`waitingTime` now 0), demoted once
(`processingTime` now 0), or both once each — which cancel. -/
def prioTraj (p0 p : Process) : Prop :=
  p = p0 ∨
  p = { p0 with priority := p0.priority - 1, waitingTime := 0 } ∨
  p = { p0 with priority := p0.priority + 1, processingTime := 0 } ∨
  p = { p0 with waitingTime := 0, processingTime := 0 }

theorem prioTraj_priority {p0 p : Process} (h : prioTraj p0 p) :
    p.priority = p0.priority ∨ p.priority = p0.priority - 1 ∨
    p.priority = p0.priority + 1 := by
  rcases h with rfl | rfl | rfl | rfl
  · exact Or.inl rfl
  · exact Or.inr (Or.inl rfl)
  · exact Or.inr (Or.inr rfl)
  · exact Or.inl rfl

/-- The key step: with both intervals at least 1, a promotion zeroes
`waitingTime` and so blocks a second promotion, a demotion zeroes
`processingTime` and so blocks a second demotion, and after one of each
both moves are blocked.  Hence a fire on a record in trajectory keeps
it in trajectory. -/
theorem prioTraj_step (settings : Settings) {p0 pold pnew : Process}
    (haging : 1 ≤ settings.agingInterval) (hstarv : 1 ≤ settings.starvationInterval)
    (hinv : prioTraj p0 pold)
    (hcase : pnew = pold ∨
      (settings.starvationInterval ≤ pold.waitingTime ∧
        pnew = { pold with priority := pold.priority - 1, waitingTime := 0 }) ∨
      (settings.agingInterval ≤ pold.processingTime ∧
        pnew = { pold with priority := pold.priority + 1, processingTime := 0 })) :
    prioTraj p0 pnew := by
  obtain ⟨nm, ar, bu, re, pr, pt, wt⟩ := p0
  rcases hcase with rfl | ⟨hw, rfl⟩ | ⟨hp, rfl⟩
  · exact hinv
  · rcases hinv with rfl | rfl | rfl | rfl
    · exact Or.inr (Or.inl rfl)
    · exact absurd (show (1:Int) ≤ 0 from le_trans hstarv hw) (by omega)
    · refine Or.inr (Or.inr (Or.inr ?_))
      simp
    · exact absurd (show (1:Int) ≤ 0 from le_trans hstarv hw) (by omega)
  · rcases hinv with rfl | rfl | rfl | rfl
    · exact Or.inr (Or.inr (Or.inl rfl))
    · refine Or.inr (Or.inr (Or.inr ?_))
      simp
    · exact absurd (show (1:Int) ≤ 0 from le_trans haging hp) (by omega)
    · exact absurd (show (1:Int) ≤ 0 from le_trans haging hp) (by omega)

theorem prioTraj_scanDown (settings : Settings) (lvl n : Nat) {s : SimState} {j : Nat}
    (haging : 1 ≤ settings.agingInterval) (hstarv : 1 ≤ settings.starvationInterval)
    {p0 : Process} (hinv : prioTraj p0 (getP s j)) :
    prioTraj p0 (getP (scanDown settings lvl n s) j) := by
  revert hinv
  induction n generalizing s with
  | zero => exact fun h => h
  | succ n ih =>
    intro hinv
    simp only [scanDown]
    exact ih (prioTraj_step settings haging hstarv hinv
      (examineAt_getP_cases settings lvl n s j))

theorem prioTraj_handleAgingAndStarvation (settings : Settings) (s : SimState) (j : Nat)
    (haging : 1 ≤ settings.agingInterval) (hstarv : 1 ≤ settings.starvationInterval) :
    prioTraj (getP s j) (getP (handleAgingAndStarvation settings s) j) := by
  simp only [handleAgingAndStarvation]
  generalize hA : scanDown settings 0 (getQ s 0).length s = A
  generalize hB : scanDown settings 1 (getQ A 1).length A = B
  generalize hC : scanDown settings 2 (getQ B 2).length B = C
  have h1 : prioTraj (getP s j) (getP A j) := by
    rw [← hA]
    exact prioTraj_scanDown settings 0 _ haging hstarv (Or.inl rfl)
  have h2 : prioTraj (getP s j) (getP B j) := by
    rw [← hB]
    exact prioTraj_scanDown settings 1 _ haging hstarv h1
  have h3 : prioTraj (getP s j) (getP C j) := by
    rw [← hC]
    exact prioTraj_scanDown settings 2 _ haging hstarv h2
  refine prioTraj_step settings haging hstarv h3 ?_
  rcases agingCurrent_getP_cases settings C j with h | ⟨ha, hb⟩
  · exact Or.inl h
  · exact Or.inr (Or.inr ⟨ha, hb⟩)

/-! Every other stage of the tick leaves `priority` untouched. -/

theorem arrivalsGo_getP (s : SimState) (l : List Nat) (j : Nat) :
    getP (arrivalsGo s l) j = getP s j := by
  induction l generalizing s with
  | nil => rfl
  | cons i rest ih =>
    simp only [arrivalsGo]
    split
    · rw [ih]
      exact getP_eq_of_processes (processes_pushQ s _ i) j
    · exact ih s

theorem handleProcessArrivals_getP (s : SimState) (j : Nat) :
    getP (handleProcessArrivals s) j = getP s j :=
  arrivalsGo_getP s _ j

theorem executeCurrent_priority (s : SimState) (j : Nat) :
    (getP (executeCurrent s) j).priority = (getP s j).priority := by
  unfold executeCurrent
  cases hc : s.currentProcess with
  | none => rfl
  | some k =>
    dsimp only
    rw [getP_setC]
    rcases getP_setP_eq_or s k j
      { getP s k with processingTime := (getP s k).processingTime + 1,
                      remainingTime := (getP s k).remainingTime - 1 }
      with h | ⟨hjk, h⟩
    · rw [h]
    · subst hjk
      rw [h]

theorem bumpWaiting_priority (s : SimState) (l : List Nat) (j : Nat) :
    (getP (bumpWaiting s l) j).priority = (getP s j).priority := by
  induction l generalizing s with
  | nil => rfl
  | cons i rest ih =>
    simp only [bumpWaiting]
    rw [ih]
    rcases getP_setP_eq_or s i j
      { getP s i with waitingTime := (getP s i).waitingTime + 1 }
      with h | ⟨hji, h⟩
    · rw [h]
    · subst hji
      rw [h]

theorem waitAccrual_priority (s : SimState) (j : Nat) :
    (getP (waitAccrual s) j).priority = (getP s j).priority := by
  simp only [waitAccrual]
  rw [bumpWaiting_priority, bumpWaiting_priority, bumpWaiting_priority]

theorem updateGanttChart_getP (s : SimState) (j : Nat) :
    getP (updateGanttChart s) j = getP s j :=
  getP_eq_of_processes (updateGanttChart_preserves s).1 j

theorem completionAndQuantum_getP (s : SimState) (j : Nat) :
    getP (completionAndQuantum s) j = getP s j :=
  getP_eq_of_processes (completionAndQuantum_preserves s).1 j

theorem handleRR_getP (settings : Settings) (s : SimState) (j : Nat) :
    getP (handleRoundRobinScheduling settings s) j = getP s j :=
  getP_eq_of_processes (handleRoundRobinScheduling_preserves settings s).1 j

/-- C10 (corrected): provided the configured `agingInterval` and
`starvationInterval` are both at least 1, one call to `nextStep` moves
no process's priority by more than one level in either direction: a
promotion zeroes `waitingTime` and a demotion zeroes `processingTime`,
so a second move of the same kind is blocked within the pass, and
promotion and demotion are mutually exclusive branches of one
examination.  (Without the proviso the bound fails — see the
counterexample with `agingInterval = 0` — because the form seen by the
UI never validates the intervals.) -/
theorem C10_priority_changes_at_most_one (settings : Settings) (s : SimState) (j : Nat)
    (haging : 1 ≤ settings.agingInterval) (hstarv : 1 ≤ settings.starvationInterval) :
    ((getP (nextStep settings s) j).priority - (getP s j).priority).natAbs ≤ 1 := by
  unfold nextStep
  by_cases hst : s.simulationStarted = false
  · rw [if_pos hst]
    simp
  · rw [if_neg hst]
    dsimp only
    generalize hs2 : handleProcessArrivals { s with currentTime := s.currentTime + 1 } = s2
    generalize hs6 : completionAndQuantum (updateGanttChart (waitAccrual
      (executeCurrent s2))) = s6
    generalize hs7 : handleAgingAndStarvation settings s6 = s7
    generalize hs8 : handleRoundRobinScheduling settings s7 = s8
    have h28 : getP s8 j = getP s7 j := by
      rw [← hs8]
      exact handleRR_getP settings s7 j
    have hfin : getP (if isSimulationComplete s8
        then { s8 with simulationStarted := false } else s8) j = getP s8 j := by
      split
      · rfl
      · rfl
    have htraj : prioTraj (getP s6 j) (getP s7 j) := by
      rw [← hs7]
      exact prioTraj_handleAgingAndStarvation settings s6 j haging hstarv
    have hpre : (getP s6 j).priority = (getP s j).priority := by
      rw [← hs6, completionAndQuantum_getP, updateGanttChart_getP, waitAccrual_priority,
        executeCurrent_priority, ← hs2, handleProcessArrivals_getP]
      rfl
    rw [hfin, h28]
    rcases prioTraj_priority htraj with h | h | h <;> rw [h, hpre] <;> omega

/-- Settings in which the aging interval has been set to 0 — the form
never validates it. -/
def settingsZeroAging : Settings := ⟨2, 2, 2, 0, 5⟩

/-- A started mid-run state: one ready process of priority 1 whose
`processingTime` is nonzero. -/
def st10 : SimState :=
  { initState [⟨"A", 0, 9, 9, 1, 6, 0⟩] with
    rq0 := [0], simulationStarted := true,
    currentTime := 5, arrivedProcesses := ["A"] }

/-- Counterexample guarding the C10 proviso: with `agingInterval = 0`
(accepted, since settings are never validated) a single tick demotes a
ready process twice — queue 0's scan demotes it into queue 1 with
`processingTime` reset to 0, and queue 1's scan, finding
`0 ≥ agingInterval`, demotes it again — so its priority moves from 1 to
3 in one tick. -/
theorem C10_counterexample :
    1 < ((getP (nextStep settingsZeroAging st10) 0).priority -
      (getP st10 0).priority).natAbs := by decide

/-- Witness for C10 at a concrete input with both intervals positive. -/
theorem C10_witness :
    ((getP (nextStep settings1 st10) 0).priority - (getP st10 0).priority).natAbs ≤ 1 :=
  C10_priority_changes_at_most_one settings1 st10 0 (by decide) (by decide)

/-! ### C8: the remaining-time invariant of reachable states -/

/-- Wellformedness of a state between ticks, as far as `remainingTime`
is concerned: every queued process is a valid store index with
`remainingTime ≥ 1` and an already-arrived name; the running process
likewise, and it does not also sit in a queue; processes that have not
arrived yet still hold `remainingTime ≥ 1`; every `remainingTime` is
nonnegative; and the queues hold no duplicate index. -/
def remInv (s : SimState) : Prop :=
  (∀ j ∈ queueMembers s, j < s.processes.length ∧ 1 ≤ (getP s j).remainingTime ∧
      (getP s j).name ∈ s.arrivedProcesses) ∧
  (∀ k, s.currentProcess = some k → k < s.processes.length ∧
      1 ≤ (getP s k).remainingTime ∧ (getP s k).name ∈ s.arrivedProcesses ∧
      k ∉ queueMembers s) ∧
  (∀ j, j < s.processes.length → (getP s j).name ∉ s.arrivedProcesses →
      1 ≤ (getP s j).remainingTime) ∧
  (∀ j, 0 ≤ (getP s j).remainingTime) ∧
  (queueMembers s).Nodup

/-- The same invariant weakened for the middle of a tick, after the
execution step has decremented the running process (whose
`remainingTime` may now be 0, until the completion step removes it). -/
def remInvMid (s : SimState) : Prop :=
  (∀ j ∈ queueMembers s, j < s.processes.length ∧ 1 ≤ (getP s j).remainingTime ∧
      (getP s j).name ∈ s.arrivedProcesses) ∧
  (∀ k, s.currentProcess = some k → k < s.processes.length ∧
      (getP s k).name ∈ s.arrivedProcesses ∧ k ∉ queueMembers s) ∧
  (∀ j, j < s.processes.length → (getP s j).name ∉ s.arrivedProcesses →
      1 ≤ (getP s j).remainingTime) ∧
  (∀ j, 0 ≤ (getP s j).remainingTime) ∧
  (queueMembers s).Nodup

theorem remInv_initState {procs : List Process}
    (h : ∀ p ∈ procs, 1 ≤ p.remainingTime) : remInv (initState procs) := by
  refine ⟨?_, ?_, ?_, ?_, ?_⟩
  · intro j hj
    simp [queueMembers, initState] at hj
  · intro k hk
    simp [initState] at hk
  · intro j hlen _
    exact h _ (listGetD_mem hlen default)
  · intro j
    by_cases hlen : j < procs.length
    · exact le_trans (by omega) (h _ (listGetD_mem hlen default))
    · show (0:Int) ≤ (procs.getD j default).remainingTime
      rw [List.getD_eq_default _ _ (by omega)]
      exact le_refl 0
  · simp [queueMembers, initState]

/-- Inverting a successful `startSimulation`: the state is the fresh
`initState` over processes each of which was built by `mkProcess` from
one of the submitted rows. -/
theorem readProcesses_mem {rows : List Row} {acc procs : List Process}
    (h : readProcesses rows acc = .ok procs) :
    ∀ p ∈ procs, p ∈ acc ∨ ∃ r ∈ rows, p = mkProcess r := by
  induction rows generalizing acc with
  | nil =>
    simp only [readProcesses] at h
    injection h with h
    subst h
    exact fun p hp => Or.inl hp
  | cons r rest ih =>
    simp only [readProcesses] at h
    split at h
    · intro p hp
      rcases ih h p hp with hacc | ⟨r2, hr2, he⟩
      · exact Or.inl hacc
      · exact Or.inr ⟨r2, List.mem_cons_of_mem r hr2, he⟩
    · split at h
      · cases h
      · intro p hp
        rcases ih h p hp with hacc | ⟨r2, hr2, he⟩
        · rcases List.mem_append.mp hacc with h1 | h2
          · exact Or.inl h1
          · exact Or.inr ⟨r, List.mem_cons_self r rest, by simpa using h2⟩
        · exact Or.inr ⟨r2, List.mem_cons_of_mem r hr2, he⟩

theorem startSimulation_ok_procs {rows : List Row} {s0 : SimState}
    (h : startSimulation rows = .ok s0) :
    ∃ procs, s0 = initState procs ∧ ∀ p ∈ procs, ∃ r ∈ rows, p = mkProcess r := by
  unfold startSimulation at h
  cases hr : readProcesses rows [] with
  | error e =>
    obtain ⟨msg, acc⟩ := e
    rw [hr] at h
    cases h
  | ok procs =>
    rw [hr] at h
    dsimp only at h
    by_cases he : procs.isEmpty = true
    · rw [if_pos he] at h
      cases h
    · rw [if_neg he] at h
      injection h with h
      refine ⟨procs, h.symm, fun p hp => ?_⟩
      rcases readProcesses_mem hr p hp with hacc | hrow
      · cases hacc
      · exact hrow

theorem mem_members_pushQ {s : SimState} {tgt e j : Nat}
    (h : j ∈ queueMembers (pushQ s tgt e)) : j ∈ queueMembers s ∨ j = e := by
  by_cases hje : j = e
  · exact Or.inr hje
  · left
    rw [mem_queueMembers_iff] at h ⊢
    rcases h with h | h | h
    · exact Or.inl ((mem_getQ_pushQ hje).mp h)
    · exact Or.inr (Or.inl ((mem_getQ_pushQ hje).mp h))
    · exact Or.inr (Or.inr ((mem_getQ_pushQ hje).mp h))

theorem nodup_members_pushQ {s : SimState} {tgt e : Nat}
    (hnod : (queueMembers s).Nodup) (he : e ∉ queueMembers s) :
    (queueMembers (pushQ s tgt e)).Nodup := by
  rw [List.nodup_iff_count_le_one] at hnod ⊢
  intro a
  have hle := count_members_pushQ_le s tgt e a
  have hnd := hnod a
  by_cases hae : e = a
  · subst hae
    rw [List.count_eq_zero_of_not_mem he] at hle
    simp at hle
    omega
  · rw [if_neg hae] at hle
    omega

theorem remInv_clock {s : SimState} (h : remInv s) :
    remInv { s with currentTime := s.currentTime + 1 } := h

theorem remInv_arrivalsGo {s : SimState} (l : List Nat)
    (hl : ∀ x ∈ l, x < s.processes.length) (h : remInv s) : remInv (arrivalsGo s l) := by
  induction l generalizing s with
  | nil => exact h
  | cons x rest ih =>
    simp only [arrivalsGo]
    split
    · next hcond =>
      have hproc : ({ pushQ s (qidx (getP s x).priority) x with
          arrivedProcesses := (getP s x).name :: s.arrivedProcesses } : SimState).processes =
          s.processes := processes_pushQ s _ x
      have hgp : ∀ j, getP ({ pushQ s (qidx (getP s x).priority) x with
          arrivedProcesses := (getP s x).name :: s.arrivedProcesses } : SimState) j =
          getP s j := fun j => getP_eq_of_processes hproc j
      have hcur : ({ pushQ s (qidx (getP s x).priority) x with
          arrivedProcesses := (getP s x).name :: s.arrivedProcesses } : SimState).currentProcess =
          s.currentProcess := currentProcess_pushQ s _ x
      refine ih ?_ ?_
      · intro y hy
        rw [hproc]
        exact hl y (List.mem_cons_of_mem x hy)
      · obtain ⟨h1, h2, h3, h4, h5⟩ := h
        have hxlen : x < s.processes.length := hl x (List.mem_cons_self x rest)
        have hxnotm : x ∉ queueMembers s := fun hmem => hcond.2 (h1 x hmem).2.2
        refine ⟨?_, ?_, ?_, ?_, ?_⟩
        · intro j hj
          have hj2 : j ∈ queueMembers (pushQ s (qidx (getP s x).priority) x) := hj
          rcases mem_members_pushQ hj2 with hjm | hjx
          · obtain ⟨a, b, c2⟩ := h1 j hjm
            exact ⟨by rw [hproc]; exact a, by rw [hgp j]; exact b,
              by rw [hgp j]; exact List.mem_cons_of_mem _ c2⟩
          · subst hjx
            exact ⟨by rw [hproc]; exact hxlen,
              by rw [hgp j]; exact h3 j hxlen hcond.2,
              by rw [hgp j]; exact List.mem_cons_self _ _⟩
        · intro k hk
          rw [hcur] at hk
          obtain ⟨ka, kb, kc, kd⟩ := h2 k hk
          refine ⟨by rw [hproc]; exact ka, by rw [hgp k]; exact kb,
            by rw [hgp k]; exact List.mem_cons_of_mem _ kc, ?_⟩
          intro hmem
          have hmem2 : k ∈ queueMembers (pushQ s (qidx (getP s x).priority) x) := hmem
          rcases mem_members_pushQ hmem2 with hm2 | hkx
          · exact kd hm2
          · subst hkx
            exact hcond.2 kc
        · intro j hlen hnot
          rw [hgp j]
          rw [hproc] at hlen
          refine h3 j hlen ?_
          intro hin
          refine hnot ?_
          rw [hgp j]
          exact List.mem_cons_of_mem _ hin
        · intro j
          rw [hgp j]
          exact h4 j
        · exact nodup_members_pushQ h5 hxnotm
    · exact ih (fun y hy => hl y (List.mem_cons_of_mem x hy)) h

theorem remInv_handleProcessArrivals {s : SimState} (h : remInv s) :
    remInv (handleProcessArrivals s) :=
  remInv_arrivalsGo _ (fun x hx => by simpa using List.mem_range.mp hx) h

theorem remInvMid_executeCurrent {s : SimState} (h : remInv s) :
    remInvMid (executeCurrent s) := by
  obtain ⟨h1, h2, h3, h4, h5⟩ := h
  obtain ⟨e1, e2, e3, e4, e5, e6, e7, e8⟩ := executeCurrent_preserves s
  have hmm : queueMembers (executeCurrent s) = queueMembers s := by
    rw [queueMembers_def, queueMembers_def, e7 0, e7 1, e7 2]
  cases hc : s.currentProcess with
  | none =>
    have hid : executeCurrent s = s := by
      unfold executeCurrent
      rw [hc]
    rw [hid]
    exact ⟨h1, fun k hk => ⟨(h2 k hk).1, (h2 k hk).2.2.1, (h2 k hk).2.2.2⟩, h3, h4, h5⟩
  | some k =>
    obtain ⟨ka, kb, kc, kd⟩ := h2 k hc
    have hgp : ∀ j, j ≠ k → getP (executeCurrent s) j = getP s j := by
      intro j hjk
      refine executeCurrent_getP ?_
      intro k2 hk2
      rw [hc] at hk2
      injection hk2 with hh
      subst hh
      exact fun he => hjk he.symm
    have hgk : getP (executeCurrent s) k =
        { getP s k with processingTime := (getP s k).processingTime + 1,
                        remainingTime := (getP s k).remainingTime - 1 } := by
      unfold executeCurrent
      rw [hc]
      dsimp only
      rw [getP_setC, getP_setP_self ka]
    refine ⟨?_, ?_, ?_, ?_, ?_⟩
    · intro j hj
      rw [hmm] at hj
      have hjk : j ≠ k := fun he => kd (he ▸ hj)
      obtain ⟨a, b, c2⟩ := h1 j hj
      exact ⟨by rw [e8]; exact a, by rw [hgp j hjk]; exact b,
        by rw [hgp j hjk, e6]; exact c2⟩
    · intro k2 hk2
      rw [e1, hc] at hk2
      injection hk2 with hh
      subst hh
      refine ⟨by rw [e8]; exact ka, ?_, by rw [hmm]; exact kd⟩
      rw [hgk, e6]
      exact kc
    · intro j hlen hnot
      rw [e8] at hlen
      by_cases hjk : j = k
      · subst hjk
        rw [e6, hgk] at hnot
        exact absurd kc hnot
      · rw [hgp j hjk]
        rw [hgp j hjk, e6] at hnot
        exact h3 j hlen hnot
    · intro j
      by_cases hjk : j = k
      · subst hjk
        rw [hgk]
        show (0:Int) ≤ (getP s j).remainingTime - 1
        omega
      · rw [hgp j hjk]
        exact h4 j
    · rw [hmm]
      exact h5

theorem bumpWaiting_fields (s : SimState) (l : List Nat) (j : Nat) :
    (getP (bumpWaiting s l) j).name = (getP s j).name ∧
    (getP (bumpWaiting s l) j).remainingTime = (getP s j).remainingTime := by
  induction l generalizing s with
  | nil => exact ⟨rfl, rfl⟩
  | cons i rest ih =>
    simp only [bumpWaiting]
    obtain ⟨a, b⟩ := ih (setP s i { getP s i with waitingTime := (getP s i).waitingTime + 1 })
    rcases getP_setP_eq_or s i j { getP s i with waitingTime := (getP s i).waitingTime + 1 }
      with hh | ⟨hji, hh⟩
    · rw [a, b, hh]
      exact ⟨rfl, rfl⟩
    · subst hji
      rw [a, b, hh]
      exact ⟨rfl, rfl⟩

theorem waitAccrual_fields (s : SimState) (j : Nat) :
    (getP (waitAccrual s) j).name = (getP s j).name ∧
    (getP (waitAccrual s) j).remainingTime = (getP s j).remainingTime := by
  simp only [waitAccrual]
  obtain ⟨a1, a2⟩ := bumpWaiting_fields s (getQ s 0) j
  obtain ⟨b1, b2⟩ := bumpWaiting_fields (bumpWaiting s (getQ s 0))
    (getQ (bumpWaiting s (getQ s 0)) 1) j
  obtain ⟨c1, c2⟩ := bumpWaiting_fields
    (bumpWaiting (bumpWaiting s (getQ s 0)) (getQ (bumpWaiting s (getQ s 0)) 1))
    (getQ (bumpWaiting (bumpWaiting s (getQ s 0)) (getQ (bumpWaiting s (getQ s 0)) 1)) 2) j
  exact ⟨c1.trans (b1.trans a1), c2.trans (b2.trans a2)⟩

theorem remInvMid_waitAccrual {s : SimState} (h : remInvMid s) :
    remInvMid (waitAccrual s) := by
  obtain ⟨h1, h2, h3, h4, h5⟩ := h
  obtain ⟨w1, w2, w3, w4, w5, w6, w7, w8, w9⟩ := waitAccrual_preserves s
  have hmm : queueMembers (waitAccrual s) = queueMembers s := by
    rw [queueMembers_def, queueMembers_def, w7 0, w7 1, w7 2]
  refine ⟨?_, ?_, ?_, ?_, ?_⟩
  · intro j hj
    rw [hmm] at hj
    obtain ⟨a, b, c2⟩ := h1 j hj
    exact ⟨by rw [w9]; exact a, by rw [(waitAccrual_fields s j).2]; exact b,
      by rw [(waitAccrual_fields s j).1, w6]; exact c2⟩
  · intro k hk
    rw [w1] at hk
    obtain ⟨a, b, c2⟩ := h2 k hk
    exact ⟨by rw [w9]; exact a, by rw [(waitAccrual_fields s k).1, w6]; exact b,
      by rw [hmm]; exact c2⟩
  · intro j hlen hnot
    rw [w9] at hlen
    rw [(waitAccrual_fields s j).1, w6] at hnot
    rw [(waitAccrual_fields s j).2]
    exact h3 j hlen hnot
  · intro j
    rw [(waitAccrual_fields s j).2]
    exact h4 j
  · rw [hmm]
    exact h5

theorem remInvMid_updateGanttChart {s : SimState} (h : remInvMid s) :
    remInvMid (updateGanttChart s) := by
  obtain ⟨h1, h2, h3, h4, h5⟩ := h
  obtain ⟨g1, g2, g3, g4, g5, g6, g7⟩ := updateGanttChart_preserves s
  have hmm : queueMembers (updateGanttChart s) = queueMembers s := by
    rw [queueMembers_def, queueMembers_def, g6 0, g6 1, g6 2]
  have hgp : ∀ j, getP (updateGanttChart s) j = getP s j :=
    fun j => getP_eq_of_processes g1 j
  refine ⟨?_, ?_, ?_, ?_, ?_⟩
  · intro j hj
    rw [hmm] at hj
    obtain ⟨a, b, c2⟩ := h1 j hj
    exact ⟨by rw [g1]; exact a, by rw [hgp j]; exact b, by rw [hgp j, g5]; exact c2⟩
  · intro k hk
    rw [g2] at hk
    obtain ⟨a, b, c2⟩ := h2 k hk
    exact ⟨by rw [g1]; exact a, by rw [hgp k, g5]; exact b, by rw [hmm]; exact c2⟩
  · intro j hlen hnot
    rw [g1] at hlen
    rw [hgp j, g5] at hnot
    rw [hgp j]
    exact h3 j hlen hnot
  · intro j
    rw [hgp j]
    exact h4 j
  · rw [hmm]
    exact h5

theorem count_members_scanDown (settings : Settings) (lvl n : Nat) (s : SimState) (x : Nat) :
    (queueMembers (scanDown settings lvl n s)).count x ≤ (queueMembers s).count x := by
  induction n generalizing s with
  | zero => exact le_refl _
  | succ n ih =>
    simp only [scanDown]
    exact le_trans (ih (examineAt settings lvl n s))
      (count_members_examineAt settings lvl n s x)

theorem mem_members_scanDown {settings : Settings} {lvl n : Nat} {s : SimState} {j : Nat}
    (h : j ∈ queueMembers (scanDown settings lvl n s)) : j ∈ queueMembers s := by
  by_contra hnot
  have h0 : (queueMembers s).count j = 0 := List.count_eq_zero_of_not_mem hnot
  have h1 := count_members_scanDown settings lvl n s j
  rw [h0] at h1
  have h2 : 0 < (queueMembers (scanDown settings lvl n s)).count j := List.count_pos_iff.mpr h
  omega

theorem remInv_scanDown (settings : Settings) (lvl n : Nat) {s : SimState}
    (h : remInv s) : remInv (scanDown settings lvl n s) := by
  obtain ⟨h1, h2, h3, h4, h5⟩ := h
  obtain ⟨p1, p2, p3, p4, p5, p6, p7, p8⟩ := scanDown_preserves settings lvl n s
  have hfix := fun j => scanDown_fixed settings lvl n s j
  refine ⟨?_, ?_, ?_, ?_, ?_⟩
  · intro j hj
    obtain ⟨a, b, c2⟩ := h1 j (mem_members_scanDown hj)
    exact ⟨by rw [p8]; exact a, by rw [(hfix j).2.2.2]; exact b,
      by rw [(hfix j).1, p6]; exact c2⟩
  · intro k hk
    rw [p1] at hk
    obtain ⟨a, b, c2, d⟩ := h2 k hk
    refine ⟨by rw [p8]; exact a, by rw [(hfix k).2.2.2]; exact b,
      by rw [(hfix k).1, p6]; exact c2, ?_⟩
    intro hmem
    exact d (mem_members_scanDown hmem)
  · intro j hlen hnot
    rw [p8] at hlen
    rw [(hfix j).1, p6] at hnot
    rw [(hfix j).2.2.2]
    exact h3 j hlen hnot
  · intro j
    rw [(hfix j).2.2.2]
    exact h4 j
  · exact nodup_members_scanDown settings lvl n h5

/-- Pushing the running process (with a record whose name and remaining
burst are unchanged) onto a queue tail and releasing the CPU preserves
the invariant. -/
theorem remInv_push_current {s : SimState} {k : Nat} (pp : Process)
    (hname : pp.name = (getP s k).name) (hrem : pp.remainingTime = (getP s k).remainingTime)
    (h : remInv s) (hc : s.currentProcess = some k) (tgt : Nat) :
    remInv { pushQ (setP s k pp) tgt k with currentProcess := none } := by
  obtain ⟨h1, h2, h3, h4, h5⟩ := h
  obtain ⟨ka, kb, kc, kd⟩ := h2 k hc
  have hTother : ∀ j, j ≠ k →
      getP ({ pushQ (setP s k pp) tgt k with currentProcess := none } : SimState) j =
      getP s j := by
    intro j hjk
    show getP (pushQ (setP s k pp) tgt k) j = getP s j
    rw [getP_pushQ, getP_setP_ne (fun he => hjk he.symm)]
  have hTk : getP ({ pushQ (setP s k pp) tgt k with
      currentProcess := none } : SimState) k = pp := by
    show getP (pushQ (setP s k pp) tgt k) k = pp
    rw [getP_pushQ, getP_setP_self ka]
  have hlenT : ({ pushQ (setP s k pp) tgt k with
      currentProcess := none } : SimState).processes.length = s.processes.length := by
    show (pushQ (setP s k pp) tgt k).processes.length = s.processes.length
    rw [processes_pushQ]
    exact length_processes_setP s k pp
  have harrT : ({ pushQ (setP s k pp) tgt k with
      currentProcess := none } : SimState).arrivedProcesses = s.arrivedProcesses :=
    arrivedProcesses_pushQ (setP s k pp) tgt k
  have hmemT : ∀ j, j ∈ queueMembers ({ pushQ (setP s k pp) tgt k with
      currentProcess := none } : SimState) → j ∈ queueMembers s ∨ j = k := by
    intro j hj
    have hj2 : j ∈ queueMembers (pushQ (setP s k pp) tgt k) := hj
    rcases mem_members_pushQ hj2 with hm | he
    · left
      rw [queueMembers_setP] at hm
      exact hm
    · exact Or.inr he
  refine ⟨?_, ?_, ?_, ?_, ?_⟩
  · intro j hj
    rcases hmemT j hj with hm | he
    · have hjk : j ≠ k := fun hh => kd (hh ▸ hm)
      obtain ⟨a, b, c2⟩ := h1 j hm
      exact ⟨by rw [hlenT]; exact a, by rw [hTother j hjk]; exact b,
        by rw [hTother j hjk, harrT]; exact c2⟩
    · subst he
      exact ⟨by rw [hlenT]; exact ka, by rw [hTk, hrem]; exact kb,
        by rw [hTk, hname, harrT]; exact kc⟩
  · intro k2 hk2
    exact Option.noConfusion hk2
  · intro j hlen hnot
    rw [hlenT] at hlen
    by_cases hjk : j = k
    · subst hjk
      rw [hTk, hname, harrT] at hnot
      exact absurd kc hnot
    · rw [hTother j hjk]
      rw [hTother j hjk, harrT] at hnot
      exact h3 j hlen hnot
  · intro j
    by_cases hjk : j = k
    · subst hjk
      rw [hTk, hrem]
      exact h4 j
    · rw [hTother j hjk]
      exact h4 j
  · show (queueMembers (pushQ (setP s k pp) tgt k)).Nodup
    have hnd : (queueMembers (setP s k pp)).Nodup := by
      rw [queueMembers_setP]
      exact h5
    have hkn : k ∉ queueMembers (setP s k pp) := by
      rw [queueMembers_setP]
      exact kd
    exact nodup_members_pushQ hnd hkn

theorem remInv_agingCurrent (settings : Settings) {s : SimState} (h : remInv s) :
    remInv (agingCurrent settings s) := by
  unfold agingCurrent
  cases hc : s.currentProcess with
  | none => exact h
  | some k =>
    dsimp only
    by_cases h1f : (getP s k).processingTime ≥ settings.agingInterval ∧
        (getP s k).priority < 3
    · rw [if_pos h1f]
      exact remInv_push_current
        { getP s k with priority := (getP s k).priority + 1, processingTime := 0 }
        rfl rfl h hc _
    · rw [if_neg h1f]
      exact h

theorem remInv_handleAgingAndStarvation (settings : Settings) {s : SimState}
    (h : remInv s) : remInv (handleAgingAndStarvation settings s) := by
  simp only [handleAgingAndStarvation]
  exact remInv_agingCurrent settings (remInv_scanDown settings 2 _
    (remInv_scanDown settings 1 _ (remInv_scanDown settings 0 _ h)))

theorem remInv_completionAndQuantum {s : SimState} (h : remInvMid s) :
    remInv (completionAndQuantum s) := by
  obtain ⟨h1, h2, h3, h4, h5⟩ := h
  unfold completionAndQuantum
  cases hc : s.currentProcess with
  | none =>
    exact ⟨h1, fun k hk => Option.noConfusion (hc.symm.trans hk), h3, h4, h5⟩
  | some k =>
    obtain ⟨ka, kb, kc⟩ := h2 k hc
    dsimp only
    by_cases hrem : (getP s k).remainingTime ≤ 0
    · rw [if_pos hrem]
      refine ⟨?_, ?_, h3, h4, h5⟩
      · intro j hj
        exact h1 j hj
      · intro k2 hk2
        exact Option.noConfusion hk2
    · rw [if_neg hrem]
      by_cases hqc : getC s (qidx (getP s k).priority) ≤ 0
      · rw [if_pos hqc]
        have hmemT : ∀ j, j ∈ queueMembers ({ pushQ s (qidx (getP s k).priority) k with
            currentProcess := none } : SimState) → j ∈ queueMembers s ∨ j = k := by
          intro j hj
          exact mem_members_pushQ hj
        have hgp : ∀ j, getP ({ pushQ s (qidx (getP s k).priority) k with
            currentProcess := none } : SimState) j = getP s j := by
          intro j
          show getP (pushQ s (qidx (getP s k).priority) k) j = getP s j
          rw [getP_pushQ]
        have hlenT : ({ pushQ s (qidx (getP s k).priority) k with
            currentProcess := none } : SimState).processes.length = s.processes.length :=
          congrArg List.length (processes_pushQ s _ k)
        have harrT : ({ pushQ s (qidx (getP s k).priority) k with
            currentProcess := none } : SimState).arrivedProcesses = s.arrivedProcesses :=
          arrivedProcesses_pushQ s _ k
        refine ⟨?_, ?_, ?_, ?_, ?_⟩
        · intro j hj
          rcases hmemT j hj with hm | he
          · obtain ⟨a, b, c2⟩ := h1 j hm
            exact ⟨by rw [hlenT]; exact a, by rw [hgp j]; exact b,
              by rw [hgp j, harrT]; exact c2⟩
          · subst he
            exact ⟨by rw [hlenT]; exact ka, by rw [hgp j]; omega,
              by rw [hgp j, harrT]; exact kb⟩
        · intro k2 hk2
          exact Option.noConfusion hk2
        · intro j hlen hnot
          rw [hlenT] at hlen
          rw [hgp j, harrT] at hnot
          rw [hgp j]
          exact h3 j hlen hnot
        · intro j
          rw [hgp j]
          exact h4 j
        · exact nodup_members_pushQ h5 kc
      · rw [if_neg hqc]
        refine ⟨h1, ?_, h3, h4, h5⟩
        intro k2 hk2
        rw [hc] at hk2
        injection hk2 with hh
        subst hh
        exact ⟨ka, by omega, kb, kc⟩

theorem remInv_handleRR (settings : Settings) {s : SimState} (h : remInv s) :
    remInv (handleRoundRobinScheduling settings s) := by
  obtain ⟨h1, h2, h3, h4, h5⟩ := h
  unfold handleRoundRobinScheduling
  cases hc : s.currentProcess with
  | some k => exact ⟨h1, fun k2 hk2 => h2 k2 hk2, h3, h4, h5⟩
  | none =>
    cases h0 : s.rq0 with
    | cons x rest =>
      have hx : x ∈ queueMembers s := by
        rw [mem_queueMembers_iff]
        left
        show x ∈ s.rq0
        rw [h0]
        exact List.mem_cons_self x rest
      obtain ⟨xa, xb, xc⟩ := h1 x hx
      have hmm : queueMembers s = x :: queueMembers ({ setC (setQ s 0 rest) 0
          (settings.quantum 0) with currentProcess := some x } : SimState) := by
        show s.rq0 ++ s.rq1 ++ s.rq2 = x :: (rest ++ s.rq1 ++ s.rq2)
        rw [h0]
        rfl
      have h5x := h5
      rw [hmm] at h5x
      obtain ⟨hxnot, hnodT⟩ := List.nodup_cons.mp h5x
      refine ⟨?_, ?_, ?_, ?_, ?_⟩
      · intro j hj
        have : j ∈ queueMembers s := by
          rw [hmm]
          exact List.mem_cons_of_mem x hj
        exact h1 j this
      · intro k2 hk2
        have hxk : some x = some k2 := hk2
        injection hxk with hxk
        subst hxk
        exact ⟨xa, xb, xc, hxnot⟩
      · exact h3
      · exact h4
      · exact hnodT
    | nil =>
      cases hq1 : s.rq1 with
      | cons x rest =>
        have hx : x ∈ queueMembers s := by
          rw [mem_queueMembers_iff]
          right; left
          show x ∈ s.rq1
          rw [hq1]
          exact List.mem_cons_self x rest
        obtain ⟨xa, xb, xc⟩ := h1 x hx
        have hmm : queueMembers s = x :: queueMembers ({ setC (setQ s 1 rest) 1
            (settings.quantum 1) with currentProcess := some x } : SimState) := by
          show s.rq0 ++ s.rq1 ++ s.rq2 = x :: (s.rq0 ++ rest ++ s.rq2)
          rw [h0, hq1]
          rfl
        have h5x := h5
        rw [hmm] at h5x
        obtain ⟨hxnot, hnodT⟩ := List.nodup_cons.mp h5x
        refine ⟨?_, ?_, ?_, ?_, ?_⟩
        · intro j hj
          have : j ∈ queueMembers s := by
            rw [hmm]
            exact List.mem_cons_of_mem x hj
          exact h1 j this
        · intro k2 hk2
          have hxk : some x = some k2 := hk2
          injection hxk with hxk
          subst hxk
          exact ⟨xa, xb, xc, hxnot⟩
        · exact h3
        · exact h4
        · exact hnodT
      | nil =>
        cases hq2 : s.rq2 with
        | cons x rest =>
          have hx : x ∈ queueMembers s := by
            rw [mem_queueMembers_iff]
            right; right
            show x ∈ s.rq2
            rw [hq2]
            exact List.mem_cons_self x rest
          obtain ⟨xa, xb, xc⟩ := h1 x hx
          have hmm : queueMembers s = x :: queueMembers ({ setC (setQ s 2 rest) 2
              (settings.quantum 2) with currentProcess := some x } : SimState) := by
            show s.rq0 ++ s.rq1 ++ s.rq2 = x :: (s.rq0 ++ s.rq1 ++ rest)
            rw [h0, hq1, hq2]
            rfl
          have h5x := h5
          rw [hmm] at h5x
          obtain ⟨hxnot, hnodT⟩ := List.nodup_cons.mp h5x
          refine ⟨?_, ?_, ?_, ?_, ?_⟩
          · intro j hj
            have : j ∈ queueMembers s := by
              rw [hmm]
              exact List.mem_cons_of_mem x hj
            exact h1 j this
          · intro k2 hk2
            have hxk : some x = some k2 := hk2
            injection hxk with hxk
            subst hxk
            exact ⟨xa, xb, xc, hxnot⟩
          · exact h3
          · exact h4
          · exact hnodT
        | nil =>
          exact ⟨h1, fun k2 hk2 => Option.noConfusion (hc.symm.trans hk2), h3, h4, h5⟩

theorem remInv_withStarted {s : SimState} (b : Bool) (h : remInv s) :
    remInv { s with simulationStarted := b } := h

/-- The whole tick preserves the remaining-time invariant. -/
theorem remInv_nextStep (settings : Settings) {s : SimState} (h : remInv s) :
    remInv (nextStep settings s) := by
  unfold nextStep
  by_cases hst : s.simulationStarted = false
  · rw [if_pos hst]
    exact h
  · rw [if_neg hst]
    dsimp only
    have h2 := remInv_handleProcessArrivals (remInv_clock h)
    have h6 := remInvMid_updateGanttChart (remInvMid_waitAccrual
      (remInvMid_executeCurrent h2))
    have h7 := remInv_handleAgingAndStarvation settings (remInv_completionAndQuantum h6)
    have h8 := remInv_handleRR settings h7
    split
    · exact remInv_withStarted false h8
    · exact h8

/-- The tick in which a process runs decrements its `remainingTime` by
exactly one: arrivals do not touch records, execution subtracts 1, and
wait accrual, timeline recording, completion/expiry, the
aging/starvation pass and selection all leave `remainingTime` alone. -/
theorem nextStep_decrements (settings : Settings) {s : SimState} {j : Nat}
    (hst : s.simulationStarted = true) (hc : s.currentProcess = some j)
    (hlen : j < s.processes.length) :
    (getP (nextStep settings s) j).remainingTime = (getP s j).remainingTime - 1 := by
  unfold nextStep
  rw [if_neg (by rw [hst]; exact fun hh => Bool.noConfusion hh)]
  dsimp only
  generalize hs2 : handleProcessArrivals { s with currentTime := s.currentTime + 1 } = s2
  have hgp2 : getP s2 j = getP s j := by
    rw [← hs2, handleProcessArrivals_getP]
    rfl
  have hc2 : s2.currentProcess = some j := by
    rw [← hs2]
    show (arrivalsGo { s with currentTime := s.currentTime + 1 }
      (List.range ({ s with currentTime := s.currentTime + 1 } :
        SimState).processes.length)).currentProcess = some j
    rw [(arrivalsGo_preserves _ _).2.1]
    exact hc
  have hlen2 : j < s2.processes.length := by
    rw [← hs2]
    show j < (arrivalsGo { s with currentTime := s.currentTime + 1 }
      (List.range ({ s with currentTime := s.currentTime + 1 } :
        SimState).processes.length)).processes.length
    rw [(arrivalsGo_preserves _ _).1]
    exact hlen
  generalize hs3 : executeCurrent s2 = s3
  have hg3 : getP s3 j = { getP s2 j with
      processingTime := (getP s2 j).processingTime + 1,
      remainingTime := (getP s2 j).remainingTime - 1 } := by
    rw [← hs3]
    unfold executeCurrent
    rw [hc2]
    dsimp only
    rw [getP_setC, getP_setP_self hlen2]
  generalize hs4 : waitAccrual s3 = s4
  have h4r : (getP s4 j).remainingTime = (getP s3 j).remainingTime := by
    rw [← hs4]
    exact (waitAccrual_fields s3 j).2
  generalize hs5 : updateGanttChart s4 = s5
  have h5r : getP s5 j = getP s4 j := by
    rw [← hs5]
    exact updateGanttChart_getP s4 j
  generalize hs6 : completionAndQuantum s5 = s6
  have h6r : getP s6 j = getP s5 j := by
    rw [← hs6]
    exact completionAndQuantum_getP s5 j
  generalize hs7 : handleAgingAndStarvation settings s6 = s7
  have h7r : (getP s7 j).remainingTime = (getP s6 j).remainingTime := by
    rw [← hs7]
    exact (handleAgingAndStarvation_fixed settings s6 j).2.2.2
  generalize hs8 : handleRoundRobinScheduling settings s7 = s8
  have h8r : getP s8 j = getP s7 j := by
    rw [← hs8]
    exact handleRR_getP settings s7 j
  have hfin : getP (if isSimulationComplete s8
      then { s8 with simulationStarted := false } else s8) j = getP s8 j := by
    split
    · rfl
    · rfl
  rw [hfin, h8r, h7r, h6r, h5r, h4r, hg3, hgp2]

/-- C8 (corrected): along any run started from a table whose burst
times are all at least 1, a tick in which a process is Running
decrements that process's `remainingTime` by exactly 1, and every
process's `remainingTime` stays nonnegative (a process reaching 0 is
completed that same tick and never requeued or run again).  The
burst-time proviso is needed: `init` never validates `burstTime`, and a
process admitted with `burstTime = 0` reaches `remainingTime = -1` on
the tick it runs — see the counterexample. -/
theorem C8_remaining_exact_and_nonneg (settings : Settings) (rows : List Row)
    (s0 : SimState) (hok : startSimulation rows = .ok s0)
    (hburst : ∀ r ∈ rows, 1 ≤ r.bt) (n : Nat) :
    (∀ j, (steps settings s0 n).simulationStarted = true →
        (steps settings s0 n).currentProcess = some j →
        (getP (steps settings s0 (n + 1)) j).remainingTime =
          (getP (steps settings s0 n) j).remainingTime - 1) ∧
    (∀ j, 0 ≤ (getP (steps settings s0 n) j).remainingTime) := by
  have hinv : remInv (steps settings s0 n) := by
    induction n with
    | zero =>
      obtain ⟨procs, rfl, hmem⟩ := startSimulation_ok_procs hok
      refine remInv_initState ?_
      intro p hp
      obtain ⟨r, hr, rfl⟩ := hmem p hp
      exact hburst r hr
    | succ n ih => exact remInv_nextStep settings ih
  refine ⟨?_, hinv.2.2.2.1⟩
  intro j hst hc
  have hlen : j < (steps settings s0 n).processes.length := (hinv.2.1 j hc).1
  show (getP (nextStep settings (steps settings s0 n)) j).remainingTime = _
  exact nextStep_decrements settings hst hc hlen

/-- A table whose single process has `burstTime = 0` — `init` accepts
it, since only the priority is validated. -/
def rowsZeroBurst : List Row := [⟨"Z", 1, 0, 1⟩]

/-- Counterexample guarding the C8 proviso: the burst-0 process is
admitted, runs on its second tick, and its `remainingTime` drops to
-1 — "never goes below 0" fails for states reachable through the
unvalidated `init`. -/
theorem C8_counterexample :
    startSimulation rowsZeroBurst = .ok (initState [mkProcess ⟨"Z", 1, 0, 1⟩]) ∧
    (getP (steps settings1 (initState [mkProcess ⟨"Z", 1, 0, 1⟩]) 2) 0).remainingTime < 0 :=
  ⟨by decide, by decide⟩

/-- Witness for C8 on Scenario 1 after two ticks (P1 is Running there,
having executed once). -/
theorem C8_witness :
    (∀ j, (steps settings1 init1 2).simulationStarted = true →
        (steps settings1 init1 2).currentProcess = some j →
        (getP (steps settings1 init1 (2 + 1)) j).remainingTime =
          (getP (steps settings1 init1 2) j).remainingTime - 1) ∧
    (∀ j, 0 ≤ (getP (steps settings1 init1 2) j).remainingTime) :=
  C8_remaining_exact_and_nonneg settings1 rows1 init1 (by decide) (by decide) 2

/-! ### C9: an arrival-time-0 process never enters the engine -/

/-- A table whose single process has `arrivalTime = 0` and
`burstTime = 0` — `init` accepts it, validating only the priority. -/
def rowsZeroBoth : List Row := [⟨"Z", 0, 0, 1⟩]

/-- Counterexample guarding the C9 proviso: the claim's final conjunct
("a run containing such a process never satisfies the completion
condition") fails for an admitted `burstTime = 0` process: Z never
arrives, but its `remainingTime` is already 0, so with empty queues and
no running process `isSimulationComplete` holds after a single tick. -/
theorem C9_counterexample :
    startSimulation rowsZeroBoth = .ok (initState [mkProcess ⟨"Z", 0, 0, 1⟩]) ∧
    isSimulationComplete (steps settings1 (initState [mkProcess ⟨"Z", 0, 0, 1⟩]) 1) = true :=
  ⟨by decide, by decide⟩

/-- C9 (corrected): a process that passes `init` with `arrivalTime = 0`
is never enqueued into any ready queue and never runs — the clock is
incremented before the arrival scan, which matches
`arrivalTime == currentTime` only for `currentTime ≥ 1` — and its
process object stays exactly as `init` built it; and provided its
`burstTime` is at least 1 (which `init` does not validate), its
`remainingTime` stays at that positive burst forever, so no run
containing it ever satisfies the completion condition.  The proviso is
needed: an admitted `burstTime = 0` process starts with
`remainingTime = 0` and the run completes — see the counterexample. -/
theorem C9_arrival_zero_never_runs (settings : Settings) (rows : List Row) (s0 : SimState)
    (h : startSimulation rows = .ok s0) (j : Nat) (hlen : j < s0.processes.length)
    (ha : (getP s0 j).arrivalTime = 0) (n : Nat) :
    (∀ m, j ∉ getQ (steps settings s0 n) m) ∧
    (steps settings s0 n).currentProcess ≠ some j ∧
    getP (steps settings s0 n) j = getP s0 j ∧
    (1 ≤ (getP s0 j).burstTime → isSimulationComplete (steps settings s0 n) = false) := by
  obtain ⟨procs, rfl, hmk⟩ := startSimulation_ok_procs h
  have main : (∀ m, j ∉ getQ (steps settings (initState procs) n) m) ∧
      (∀ k, (steps settings (initState procs) n).currentProcess = some k → k ≠ j) ∧
      getP (steps settings (initState procs) n) j = getP (initState procs) j ∧
      (steps settings (initState procs) n).processes.length =
        (initState procs).processes.length := by
    induction n with
    | zero =>
      refine ⟨?_, ?_, rfl, rfl⟩
      · intro m
        rcases m with _ | _ | _ | m <;> simp [getQ, steps, initState]
      · intro k hk
        cases hk
    | succ n ih =>
      obtain ⟨im, ic, ip, il⟩ := ih
      obtain ⟨sm, sc, sp, sl⟩ := notArrived_step settings (steps settings (initState procs) n) j
        im ic (by rw [ip]; exact ha)
      exact ⟨sm, sc, sp.trans ip, sl.trans il⟩
  obtain ⟨im, ic, ip, il⟩ := main
  refine ⟨im, fun hk => ic j hk rfl, ip, ?_⟩
  intro hb
  have hrb : (getP (initState procs) j).remainingTime =
      (getP (initState procs) j).burstTime := by
    obtain ⟨r, hr, he⟩ := hmk (getP (initState procs) j) (listGetD_mem hlen default)
    rw [he]
    rfl
  have hrem : 1 ≤ (getP (steps settings (initState procs) n) j).remainingTime := by
    rw [ip, hrb]
    exact hb
  have hmem : getP (steps settings (initState procs) n) j ∈
      (steps settings (initState procs) n).processes := by
    apply listGetD_mem
    rw [il]
    exact hlen
  rw [Bool.eq_false_iff]
  intro hdone
  simp only [isSimulationComplete, Bool.and_eq_true] at hdone
  obtain ⟨⟨-, -⟩, -, hall⟩ := hdone
  rw [List.all_eq_true] at hall
  have := hall _ hmem
  rw [decide_eq_true_eq] at this
  omega

/-- C9 witness: after three ticks of `rows9`, process Z (arrival 0,
burst 4) has never been enqueued, never run, is untouched, and the run
is not complete. -/
theorem C9_witness :
    (∀ m, 0 ∉ getQ (steps settings1 init9 3) m) ∧
    (steps settings1 init9 3).currentProcess ≠ some 0 ∧
    getP (steps settings1 init9 3) 0 = getP init9 0 ∧
    isSimulationComplete (steps settings1 init9 3) = false := by
  obtain ⟨a, b, c, d⟩ := C9_arrival_zero_never_runs settings1 rows9 init9 (by decide) 0
    (by decide) (by decide) 3
  exact ⟨a, b, c, d (by decide)⟩

end MLQ
